import Mathlib

set_option allowUnsafeReducibility true
attribute [local semireducible] Rat.add Rat.mul Rat.sub Rat.div Rat.neg Rat.inv Rat.blt

/-!
# Verification of the ilw-org-chart layout engine (src/src/tree.ts)

Shallow embedding of the tree/layout core: `treeLevelOrgs`,
`calculateLevelOrientations`, `calculateHorizontalPositions`,
`calculateLinesBetweenOrgs` / `calculateLinesForOrg`.

Modelling conventions:
* JS objects with shared mutable references are modelled as an arena
  (`TState.nodes`): an association list from integer id to node record.
  Level lists hold ids; all field reads/writes go through the arena,
  mirroring JS reference semantics.
* JS `Map` is modelled as an association list in insertion order
  (`alGet`/`alSet` mirror `Map.get`/`Map.set`: `set` of an existing key
  updates in place keeping its position, otherwise appends).
* Geometry is exact rational arithmetic (`Rat`); JS numbers on the code
  paths verified here stay within exact arithmetic.
* A JS `TypeError` from dereferencing `undefined` (the `!` assertions of
  the source that can fail at runtime) is modelled by returning `none`
  from the embedded function.
-/

namespace OrgChart

/-- Modelled from the spec: the input `Org` type (file `src/Org.ts` is not in
the repository snapshot).  §3: title (string), optional subtitle, optional
integer weight, optional large flag, ordered children. -/
structure Org where
  title : String
  subtitle : Option String := none
  weight : Option Int := none
  large : Bool := false
  children : List Org := []

/-- `ConnectedOrg` of tree.ts: the input fields copied by the object spread,
plus id, parent back-reference (as an id), resolved level, originalIndex and
lineSkipsLevels.  `children` holds arena ids. -/
structure COrg where
  title : String
  subtitle : Option String
  weight : Option Int
  large : Bool
  id : Nat
  parent : Option Nat
  level : Int
  originalIndex : Option Nat
  lineSkipsLevels : Option Int
  children : List Nat
deriving Repr, DecidableEq

inductive Orientation where
  | horizontal
  | vertical
deriving Repr, DecidableEq

/-- `TreeLevel` of tree.ts. `orgs` holds arena ids (JS holds references). -/
structure TreeLevel where
  level : Int
  orgs : List Nat
  orientation : Option Orientation := none
  rightSkipLine : Bool := false
  leftSkipLine : Bool := false
  emptySpaces : List (Rat × Rat) := []
deriving Repr, DecidableEq

/-- The constructor `new TreeLevel(level, orgs)`. -/
def mkTreeLevel (l : Int) (orgs : List Nat) : TreeLevel :=
  { level := l, orgs := orgs }

/-- `TreeLevelMap` plus the node arena: the whole mutable heap of one run. -/
structure TState where
  nodes : List (Nat × COrg)
  levels : List (Int × TreeLevel)
  root : Option Nat
deriving Repr, DecidableEq

/-- `OrgPlacement` of tree.ts; `left` is optional until the position solver
has run. -/
structure OrgPlacement where
  width : Rat
  height : Rat
  top : Rat
  left : Option Rat := none
deriving Repr, DecidableEq

/-- `OrgChartConfig` of tree.ts. -/
structure OrgChartConfig where
  horizontalSpacing : Rat
  verticalSpacing : Rat
  verticalSubtreeSpacing : Rat
  verticalChildOffset : Rat
  largeOrgSizeMultiplier : Rat
  availableSpace : Rat
  minColWidth : Rat
  maxColWidth : Rat
  skipLineExtraSpacing : Rat
deriving Repr, DecidableEq

/-- A 2-D point of a connector line. -/
structure Pt where
  x : Rat
  y : Rat
deriving Repr, DecidableEq

/-- `OrgLine` of tree.ts. -/
structure OrgLine where
  points : List Pt
deriving Repr, DecidableEq

/-! ## A stable sort with JS `Array.prototype.sort` semantics

JS `sort` guarantees a stable result that is sorted for the comparator;
for a consistent comparator the output is therefore unique, so any stable
sorting algorithm models it exactly.  A structurally recursive insertion
sort is used (`List.mergeSort` is defined by well-founded recursion and
does not reduce in the kernel). -/

/-- Insert `a` before the first element `b` with `le a b`. -/
def insertLE {α : Type} (le : α → α → Bool) (a : α) : List α → List α
  | [] => [a]
  | b :: l => if le a b then a :: b :: l else b :: insertLE le a l

/-- Stable sort by the boolean comparator `le`. -/
def sortByLE {α : Type} (le : α → α → Bool) : List α → List α
  | [] => []
  | a :: l => insertLE le a (sortByLE le l)

/-! ## Association lists with JS `Map` semantics -/

/-- `Map.get`. -/
def alGet {κ α : Type} [DecidableEq κ] : List (κ × α) → κ → Option α
  | [], _ => none
  | (k', v) :: rest, k => if k = k' then some v else alGet rest k

/-- `Map.set`: update in place keeping insertion position, else append. -/
def alSet {κ α : Type} [DecidableEq κ] : List (κ × α) → κ → α → List (κ × α)
  | [], k, v => [(k, v)]
  | (k', v') :: rest, k, v =>
    if k = k' then (k, v) :: rest else (k', v') :: alSet rest k v

/-- Update the value at a key when present (no-op otherwise). -/
def alUpdate {κ α : Type} [DecidableEq κ] (f : α → α) : List (κ × α) → κ → List (κ × α)
  | [], _ => []
  | (k', v') :: rest, k =>
    if k = k' then (k', f v') :: rest else (k', v') :: alUpdate f rest k

def getNode (st : TState) (i : Nat) : Option COrg := alGet st.nodes i

def setNode (st : TState) (i : Nat) (n : COrg) : TState :=
  { st with nodes := alSet st.nodes i n }

def updateNode (st : TState) (i : Nat) (f : COrg → COrg) : TState :=
  { st with nodes := alUpdate f st.nodes i }

def getLevel (st : TState) (l : Int) : Option TreeLevel := alGet st.levels l

def setLevel (st : TState) (l : Int) (tl : TreeLevel) : TState :=
  { st with levels := alSet st.levels l tl }

def updateLevel (st : TState) (l : Int) (f : TreeLevel → TreeLevel) : TState :=
  { st with levels := alUpdate f st.levels l }

/-- `TreeLevelMap.orderedEntries()`: entries sorted by numeric level. -/
def orderedEntries (st : TState) : List (Int × TreeLevel) :=
  sortByLE (fun a b => decide (a.1 ≤ b.1)) st.levels

/-! ## `treeLevelOrgs` (tree.ts lines 791-857)

The global counter `orgIdCount` is threaded explicitly: each function takes
the current counter and returns the advanced one. -/

/-- One step of the `traverse` inner function: create the `ConnectedOrg`
for `node` and push it onto its level, before visiting children. -/
def traverseCreate (node : Org) (parent : Option Nat) (level : Int)
    (origIdx : Nat) (st : TState) (ctr : Nat) : TState :=
  let cn : COrg :=
    { title := node.title, subtitle := node.subtitle, weight := node.weight,
      large := node.large, id := ctr, parent := parent, level := level,
      originalIndex := some origIdx, lineSkipsLevels := none, children := [] }
  let st := setNode st ctr cn
  let st :=
    if (getLevel st level).isSome then st
    else setLevel st level (mkTreeLevel level [])
  updateLevel st level (fun tl => { tl with orgs := tl.orgs ++ [ctr] })

/-- The `lineSkipsLevels` bookkeeping of the child loop (lines 807-810):
when the child's resolved level jumps past `level + 1`, record the jump
on the parent (the last observed child wins). -/
def recordSkip (st : TState) (pid : Nat) (level : Int) (cid : Nat) : TState :=
  match getNode st cid with
  | some cnode =>
    if cnode.level > level + 1 then
      updateNode st pid
        (fun n => { n with lineSkipsLevels := some (cnode.level - (level + 1)) })
    else st
  | none => st

mutual

/-- `traverse(node, parent, currentLevel, originalIndex)`: returns the id
of the created node, the updated heap, and the advanced id counter. -/
def traverse : Org → Option Nat → Int → Nat → TState → Nat → Nat × TState × Nat
  | ⟨title, subtitle, weight, large, children⟩, parent, currentLevel, origIdx, st, ctr =>
    let level := currentLevel + weight.getD 0
    let nid := ctr
    let st := traverseCreate ⟨title, subtitle, weight, large, children⟩
      parent level origIdx st ctr
    let (cids, st, ctr') := traverseKids children nid level 0 st (ctr + 1)
    let st := updateNode st nid (fun n => { n with children := cids })
    (nid, st, ctr')

/-- The `for (let i = 0; ...)` loop over `node.children`: traverses each
child and records `lineSkipsLevels` on the parent when the child's resolved
level jumps past `level + 1` (last observed child wins). -/
def traverseKids : List Org → Nat → Int → Nat → TState → Nat → List Nat × TState × Nat
  | [], _, _, _, st, ctr => ([], st, ctr)
  | c :: rest, pid, level, i, st, ctr =>
    let (cid, st, ctr) := traverse c (some pid) (level + 1) i st ctr
    let st := recordSkip st pid level cid
    let (ids, st, ctr) := traverseKids rest pid level (i + 1) st ctr
    (cid :: ids, st, ctr)

end

/-- One iteration of the demotion loop (lines 850-853): rewrite the
demoted org's `level` to 1 and push it onto level 1's list. -/
def demoteStep (s : TState) (d : Nat) : TState :=
  let s := updateNode s d (fun n => { n with level := 1 })
  updateLevel s 1 (fun l1 => { l1 with orgs := l1.orgs ++ [d] })

/-- The demotion block of `treeLevelOrgs` (lines 837-854): if level 0 holds
more than three orgs, keep the first three and move the rest to level 1,
rewriting their `level` field. -/
def demoteTopLevel (st : TState) : TState :=
  match getLevel st 0 with
  | none => st
  | some tl =>
    if tl.orgs.length > 3 then
      let keep := tl.orgs.take 3
      let demoted := tl.orgs.drop 3
      let st := setLevel st 0 { tl with orgs := keep }
      let st :=
        if (getLevel st 1).isSome then st
        else setLevel st 1 (mkTreeLevel 1 [])
      demoted.foldl demoteStep st
    else st

/-- The traversal phase of `treeLevelOrgs` (everything before the demotion
block): the leveled heap with the root reference set, and the advanced
counter. -/
def traverseRun (org : Org) (ctr : Nat) : TState × Nat :=
  let st0 : TState := { nodes := [], levels := [], root := none }
  let r := traverse org none 0 0 st0 ctr
  ({ r.2.1 with root := some r.1 }, r.2.2)

/-- `treeLevelOrgs(org)`, with the process-global `orgIdCount` counter made
an explicit input/output. -/
def treeLevelOrgs (org : Org) (ctr : Nat) : TState × Nat :=
  let r := traverseRun org ctr
  (demoteTopLevel r.1, r.2)

/-! ## `calculateLevelOrientations` (tree.ts lines 866-1021) -/

/-- First pass (lines 870-880): assign initial orientations per level. -/
def orientPass1 (st : TState) (cfg : OrgChartConfig) : TState :=
  { st with
    levels := st.levels.map fun e =>
      let tl := e.2
      let required : Rat :=
        (if tl.orgs.length = 0 then (1 : Rat) else (tl.orgs.length : Rat)) *
          cfg.minColWidth
      let o :=
        if cfg.minColWidth ≤ 0 ∨ cfg.maxColWidth ≤ 0 then Orientation.vertical
        else if required ≤ cfg.availableSpace then Orientation.horizontal
        else Orientation.vertical
      (e.1, { tl with orientation := some o }) }

/-- The levels reachable in one step from level `l`: the resolved levels of
the children of the orgs listed at `l` (the recursion targets of
`propagateVertical`, lines 892-901). -/
def succLevels (st : TState) (l : Int) : List Int :=
  match getLevel st l with
  | none => []
  | some tl =>
    (tl.orgs.map fun oid =>
      match getNode st oid with
      | some n => n.children.filterMap fun cid => (getNode st cid).map (·.level)
      | none => []).flatten

/-- Depth-first traversal of `propagateVertical`'s `visited` set: a stack
machine; a popped level not yet visited is appended to `visited` and (when
present in the map) its successor levels are pushed.  `fuel` only bounds the
number of steps; `orientPass2` supplies enough fuel for the traversal to
run to completion (`dfsVisit_closure`). -/
def dfsVisit (st : TState) : Nat → List Int → List Int → List Int
  | 0, _, visited => visited
  | _ + 1, [], visited => visited
  | fuel + 1, l :: stack, visited =>
    if l ∈ visited then dfsVisit st fuel stack visited
    else
      match getLevel st l with
      | none => dfsVisit st fuel stack (visited ++ [l])
      | some _ => dfsVisit st fuel (succLevels st l ++ stack) (visited ++ [l])

/-- The mutations `propagateVertical` applies to each visited level that is
present in the map (lines 889-893): force vertical, clear both skip-line
flags, and clear `lineSkipsLevels` on every org of the level.  These
mutations never touch the org lists, children or node levels that drive the
recursion, so applying them after computing the visited set is
observationally identical to the source's interleaving. -/
def applyVerticalMutations (st : TState) (vis : List Int) : TState :=
  vis.foldl
    (fun s l =>
      match getLevel s l with
      | none => s
      | some tl =>
        let s := updateLevel s l fun t =>
          { t with orientation := some Orientation.vertical,
                   leftSkipLine := false, rightSkipLine := false }
        tl.orgs.foldl
          (fun s2 oid => updateNode s2 oid fun n => { n with lineSkipsLevels := none })
          s)
    st

/-- Fuel that always lets `dfsVisit` run to completion. -/
def pass2Fuel (st : TState) : Nat :=
  1 + (((st.levels.map Prod.fst).dedup).map fun l => 1 + (succLevels st l).length).sum

/-- Second pass (lines 882-907): for every level that is vertical when the
outer loop reaches it, propagate verticality to every level reachable
through children, with a shared `visited` set. -/
def orientPass2 (st : TState) : TState :=
  ((st.levels.map Prod.fst).foldl
    (fun (acc : TState × List Int) l =>
      let s := acc.1
      let vis := acc.2
      match getLevel s l with
      | some tl =>
        if tl.orientation = some Orientation.vertical then
          let vis' := dfsVisit s (pass2Fuel s) [l] vis
          (applyVerticalMutations s (vis'.drop vis.length), vis')
        else acc
      | none => acc)
    (st, [])).1

/-- Third pass, first loop (lines 916-937): on vertical levels, undo the
effect of `weight`: retarget each org whose level differs from
`parent.level + 1`, provided the destination level is vertical.  The level
field is rewritten immediately; the list moves are recorded. -/
def pass3Collect (st : TState) : TState × List (Nat × Int × Int) :=
  (st.levels.map Prod.fst).foldl
    (fun (acc : TState × List (Nat × Int × Int)) l =>
      match getLevel acc.1 l with
      | none => acc
      | some tl =>
        if tl.orientation = some Orientation.vertical then
          tl.orgs.foldl
            (fun (acc2 : TState × List (Nat × Int × Int)) oid =>
              let s := acc2.1
              match getNode s oid with
              | none => acc2
              | some org =>
                let newLevel :=
                  match org.parent.bind fun p => getNode s p with
                  | some pn => pn.level + 1
                  | none => l
                if org.level ≠ newLevel ∧
                    (getLevel s newLevel).map (·.orientation) =
                      some (some Orientation.vertical) then
                  (updateNode s oid (fun n => { n with level := newLevel }),
                   acc2.2 ++ [(oid, l, newLevel)])
                else acc2)
            acc
        else acc)
    (st, [])

/-- Third pass, second loop (lines 939-950): carry out the recorded moves
in the level map. -/
def pass3Move (st : TState) (moves : List (Nat × Int × Int)) : TState :=
  moves.foldl
    (fun s m =>
      let (oid, fromLevel, toLevel) := m
      let s := updateLevel s fromLevel fun tl =>
        { tl with orgs := tl.orgs.filter (· ≠ oid) }
      let s :=
        if (getLevel s toLevel).isSome then s
        else setLevel s toLevel (mkTreeLevel toLevel [])
      updateLevel s toLevel fun tl => { tl with orgs := tl.orgs ++ [oid] })
    st

/-- The sort comparator of pass 4 (lines 953-959), as a `≤` test:
`cmp a b ≤ 0` for the source's numeric comparator (undefined sorts last). -/
def origIdxLE (st : TState) (a b : Nat) : Bool :=
  match (getNode st a).bind (·.originalIndex), (getNode st b).bind (·.originalIndex) with
  | none, none => true
  | none, some _ => false
  | some _, none => true
  | some x, some y => x ≤ y

/-- The skip-flag loop of pass 5 (lines 990-1016): mark `rightSkipLine`
(`right = true`) or `leftSkipLine` (`right = false`) on levels
`base + 1 .. base + n`; `none` when one of those levels is absent (the
source's `levels.get(...)!` dereference throws). -/
def flagLevels (base : Int) (right : Bool) : Nat → TState → Option TState
  | 0, s => some s
  | n + 1, s =>
    (flagLevels base right n s).bind fun s2 =>
      match getLevel s2 (base + (n : Int) + 1) with
      | none => none
      | some _ =>
        some (updateLevel s2 (base + (n : Int) + 1) fun t =>
          if right then { t with rightSkipLine := true }
          else { t with leftSkipLine := true })

/-- The flag half of pass 5 for one edge org (lines 990-1016): no edge
org means no flags to set; otherwise walk the org's `lineSkipsLevels`
levels below the current one. -/
def setFlagsEdge (tlv : Int) (right : Bool) (edge : Option Nat) (s : TState) :
    Option TState :=
  match edge with
  | none => some s
  | some eid =>
    flagLevels tlv right (((getNode s eid).bind (·.lineSkipsLevels)).getD 0).toNat s

/-- The pass-5 skip test (line 963): does the org carry a positive
`lineSkipsLevels`? -/
def skipOrg (st : TState) (oid : Nat) : Bool :=
  match (getNode st oid).bind (·.lineSkipsLevels) with
  | some k => k > 0
  | none => false

/-- The loop body of pass 5 for one horizontal level (lines 961-1018),
given the already sorted org list.  Returns `none` where the source would
throw a `TypeError` (a `levels.get(...)!` that is `undefined`). -/
def pass5Level (st : TState) (cfg : OrgChartConfig) (key : Int) : Option TState :=
  match getLevel st key with
  | none => some st
  | some tl =>
    let skippingOrgs := tl.orgs.filter (skipOrg st)
    if skippingOrgs.length = 0 then some st
    else
      let leftEdge0 : Option Nat := skippingOrgs.head?
      let rightEdge0 : Option Nat := skippingOrgs.getLast?
      let afterMove : Option (TState × Option Nat × Option Nat) :=
        if tl.level > 0 then
          let sk := skippingOrgs.take 2
          let rightEdge := sk.head?
          let newOrgs := tl.orgs.filter (· ∉ sk)
          let newOrgs := newOrgs ++ rightEdge.toList
          let leftEdge := if sk.length > 1 then some sk[1]! else none
          let newOrgs := leftEdge.toList ++ newOrgs
          some (updateLevel st key (fun t => { t with orgs := newOrgs }),
            leftEdge, rightEdge)
        else
          match getLevel st 0 with
          | none => none
          | some lvl0 =>
            let topLevelSize : Rat :=
              (lvl0.orgs.length : Rat) * (cfg.maxColWidth + cfg.horizontalSpacing)
            let rootFarFromLeft :=
              leftEdge0 = st.root ∧ cfg.availableSpace > topLevelSize
            let rootFarFromRight :=
              rightEdge0 = st.root ∧ cfg.availableSpace > topLevelSize
            let leftEdge := if leftEdge0 ≠ st.root ∨ rootFarFromLeft then none else leftEdge0
            let rightEdge := if rightEdge0 ≠ st.root ∨ rootFarFromRight then none else rightEdge0
            some (st, leftEdge, rightEdge)
      match afterMove with
      | none => none
      | some (st1, leftEdge, rightEdge) =>
        (setFlagsEdge tl.level true rightEdge st1).bind fun st2 =>
          setFlagsEdge tl.level false leftEdge st2

/-- One level's slice of passes 4 and 5 (lines 951-1020): sort the org
list by `originalIndex`, then (horizontal levels only) run pass 5. -/
def pass45Step (cfg : OrgChartConfig) (s : TState) (l : Int) : Option TState :=
  match getLevel s l with
  | none => some s
  | some tl =>
    let sorted := sortByLE (origIdxLE s) tl.orgs
    let s := updateLevel s l fun t => { t with orgs := sorted }
    match getLevel s l with
    | some tl2 =>
      if tl2.orientation = some Orientation.horizontal then pass5Level s cfg l
      else some s
    | none => some s

/-- Passes 4 and 5 (lines 951-1020): per level, sort the org list by
`originalIndex`, then (horizontal levels only) move skip-line orgs to the
edges and set skip flags on the skipped levels. -/
def orientPass45 (st : TState) (cfg : OrgChartConfig) : Option TState :=
  (st.levels.map Prod.fst).foldlM (pass45Step cfg) st

/-- Passes 1-3 of `calculateLevelOrientations`: the state `orientPass45`
receives. -/
def orientPrefix (st : TState) (cfg : OrgChartConfig) : TState :=
  let st := orientPass1 st cfg
  let st := orientPass2 st
  let (st, moves) := pass3Collect st
  pass3Move st moves

/-- `calculateLevelOrientations(levels, config)`.  `none` models the run
aborting with a thrown `TypeError`. -/
def calculateLevelOrientations (st : TState) (cfg : OrgChartConfig) : Option TState :=
  let st := orientPass1 st cfg
  let st := orientPass2 st
  let (st, moves) := pass3Collect st
  let st := pass3Move st moves
  orientPass45 st cfg

/-! ## Observations used by the orientation-closure claim -/

/-- Level `m` is vertical whenever it is present. -/
def vertOk (s : TState) (m : Int) : Prop :=
  ∀ tm, getLevel s m = some tm → tm.orientation = some Orientation.vertical

/-- One-step closure: below every vertical level, the resolved level of
every child of every listed org is vertical (when present). -/
def SuccClosed (s : TState) : Prop :=
  ∀ l tl, getLevel s l = some tl → tl.orientation = some Orientation.vertical →
    ∀ oid ∈ tl.orgs, ∀ n, getNode s oid = some n →
      ∀ c ∈ n.children, ∀ nc, getNode s c = some nc → vertOk s nc.level

/-- Every arena node is listed on the level named by its `level` field. -/
def I1c (s : TState) : Prop :=
  ∀ k n, getNode s k = some n → ∃ tl, getLevel s n.level = some tl ∧ k ∈ tl.orgs

/-- The parent→child edge of the arena. -/
def childRel (s : TState) (a b : Nat) : Prop :=
  ∃ na, getNode s a = some na ∧ b ∈ na.children

/-- The decidable well-formedness of a leveled heap that the orientation
passes maintain: level keys and node ids are unique, every listed org is a
node resolved to that level, every node is listed at its level, and no org
is listed twice anywhere. -/
def wfState (s : TState) : Bool :=
  decide ((s.levels.map Prod.fst).Nodup) &&
  (s.levels.all fun e => e.2.orgs.all fun oid =>
    match getNode s oid with
    | some n => decide (n.level = e.1)
    | none => false) &&
  (s.nodes.all fun e =>
    match getLevel s e.2.level with
    | some tl => decide (e.1 ∈ tl.orgs)
    | none => false) &&
  decide (((s.levels.map fun e => e.2.orgs).flatten).Nodup)

/-- The loop invariant of `pass3Collect` over the base state `B`: levels
untouched, children untouched, one-step closure against `B`'s listings,
record soundness, node levels accounted for, and records keyed by distinct
orgs. -/
def collectInv (B : TState) (acc : TState × List (Nat × Int × Int)) : Prop :=
  acc.1.levels = B.levels ∧
  (∀ k, (getNode acc.1 k).map (fun n => n.children) =
    (getNode B k).map (fun n => n.children)) ∧
  (∀ l tl, getLevel B l = some tl → tl.orientation = some Orientation.vertical →
    ∀ oid ∈ tl.orgs, ∀ n, getNode acc.1 oid = some n →
      ∀ c ∈ n.children, ∀ nc, getNode acc.1 c = some nc →
        ∀ tm, getLevel B nc.level = some tm →
          tm.orientation = some Orientation.vertical) ∧
  (∀ m ∈ acc.2,
    (∃ tl, getLevel B m.2.1 = some tl ∧ tl.orientation = some Orientation.vertical ∧
      m.1 ∈ tl.orgs) ∧
    (∃ tt, getLevel B m.2.2 = some tt ∧ tt.orientation = some Orientation.vertical) ∧
    (∃ n, getNode acc.1 m.1 = some n ∧ n.level = m.2.2) ∧
    m.2.1 ≠ m.2.2) ∧
  (∀ k n, getNode acc.1 k = some n →
    (∃ n0, getNode B k = some n0 ∧ n.level = n0.level) ∨
    (∃ frm dst, (k, frm, dst) ∈ acc.2 ∧ n.level = dst)) ∧
  (acc.2.map (fun m => m.1)).Nodup

/-- What passes 4 and 5 preserve of a state: the arena, and per level the
orientation, the presence, and the org list up to reordering. -/
def presv (s' s : TState) : Prop :=
  s'.nodes = s.nodes ∧
  (∀ m, (getLevel s' m).map (fun e => e.orientation) =
    (getLevel s m).map (fun e => e.orientation)) ∧
  (∀ m tl', getLevel s' m = some tl' →
    ∃ tl, getLevel s m = some tl ∧ ∀ x : Nat, x ∈ tl'.orgs ↔ x ∈ tl.orgs) ∧
  (∀ m, (getLevel s' m).isSome = (getLevel s m).isSome)

/-- The loop invariant of `pass3Move` over the base state `B` and the
remaining records `Rr`. -/
def moveInv (B : TState) (t : TState) (Rr : List (Nat × Int × Int)) : Prop :=
  (∀ m, (getLevel t m).isSome = (getLevel B m).isSome) ∧
  (∀ m, (getLevel t m).map (fun e => e.orientation) =
    (getLevel B m).map (fun e => e.orientation)) ∧
  (∀ l tl, getLevel t l = some tl → tl.orientation = some Orientation.vertical →
    ∀ oid ∈ tl.orgs, ∀ n, getNode t oid = some n → ∀ c ∈ n.children,
      ∀ nc, getNode t c = some nc → ∀ tm, getLevel B nc.level = some tm →
        tm.orientation = some Orientation.vertical) ∧
  (∀ k n, getNode t k = some n →
    (∃ tl, getLevel t n.level = some tl ∧ k ∈ tl.orgs) ∨
    (∃ frm dst, (k, frm, dst) ∈ Rr ∧ n.level = dst)) ∧
  (∀ m ∈ Rr,
    (∃ tl, getLevel t m.2.1 = some tl ∧ m.1 ∈ tl.orgs ∧
      tl.orientation = some Orientation.vertical) ∧
    (∀ n, getNode t m.1 = some n → n.level = m.2.2) ∧
    (getLevel B m.2.2).isSome = true ∧
    m.2.1 ≠ m.2.2) ∧
  (Rr.map (fun m => m.1)).Nodup

/-- The propositional content of `wfState`: listing consistency, listing
completeness, per-level uniqueness and cross-level uniqueness. -/
def wfAbs (s : TState) : Prop :=
  (∀ l tl, getLevel s l = some tl → ∀ oid ∈ tl.orgs,
    ∃ n, getNode s oid = some n ∧ n.level = l) ∧
  I1c s ∧
  (∀ l tl, getLevel s l = some tl → tl.orgs.Nodup) ∧
  (∀ l1 l2 tl1 tl2 oid, getLevel s l1 = some tl1 → getLevel s l2 = some tl2 →
    oid ∈ tl1.orgs → oid ∈ tl2.orgs → l1 = l2)

/-- The potential of the pass-2 depth-first walk: pending stack entries
plus the successor counts of the levels still unvisited. -/
def dfsPot (st : TState) (stack vis : List Int) : Nat :=
  stack.length +
    ((((st.levels.map Prod.fst).dedup).filter (fun x => decide (x ∉ vis))).map
      (fun l => (succLevels st l).length)).sum

/-- The fold body of `orientPass2`, named so the loop invariant can speak
about a single step. -/
def p2step (acc : TState × List Int) (l : Int) : TState × List Int :=
  match getLevel acc.1 l with
  | some tl =>
    if tl.orientation = some Orientation.vertical then
      let vis' := dfsVisit acc.1 (pass2Fuel acc.1) [l] acc.2
      (applyVerticalMutations acc.1 (vis'.drop acc.2.length), vis')
    else acc
  | none => acc

/-- The retarget level of `pass3Collect` for one org: `parent.level + 1`
when the parent resolves, else the current level key. -/
def p3target (l : Int) (s : TState) (org : COrg) : Int :=
  match org.parent.bind fun p => getNode s p with
  | some pn => pn.level + 1
  | none => l

/-- The inner fold body of `pass3Collect` under the level key `l`. -/
def p3inner (l : Int) (acc2 : TState × List (Nat × Int × Int)) (oid : Nat) :
    TState × List (Nat × Int × Int) :=
  let s := acc2.1
  match getNode s oid with
  | none => acc2
  | some org =>
    let newLevel := p3target l s org
    if org.level ≠ newLevel ∧
        (getLevel s newLevel).map (·.orientation) =
          some (some Orientation.vertical) then
      (updateNode s oid (fun n => { n with level := newLevel }),
       acc2.2 ++ [(oid, l, newLevel)])
    else acc2

/-- The outer fold body of `pass3Collect`. -/
def p3outer (acc : TState × List (Nat × Int × Int)) (l : Int) :
    TState × List (Nat × Int × Int) :=
  match getLevel acc.1 l with
  | none => acc
  | some tl =>
    if tl.orientation = some Orientation.vertical then
      tl.orgs.foldl (p3inner l) acc
    else acc

/-- One recorded move of `pass3Move`. -/
def p3move (s : TState) (m : Nat × Int × Int) : TState :=
  let (oid, fromLevel, toLevel) := m
  let s := updateLevel s fromLevel fun tl =>
    { tl with orgs := tl.orgs.filter (· ≠ oid) }
  let s :=
    if (getLevel s toLevel).isSome then s
    else setLevel s toLevel (mkTreeLevel toLevel [])
  updateLevel s toLevel fun tl => { tl with orgs := tl.orgs ++ [oid] }

/-! ## `calculateHorizontalPositions` (tree.ts lines 1273-1571) -/

/-- Placement map: JS `Map<number, OrgPlacement>`. -/
abbrev PMap := List (Nat × OrgPlacement)

/-- `centerOrg(orgId, containerWidth)` (lines 1279-1283). -/
def centerOrg (pm : PMap) (oid : Nat) (containerWidth : Rat) : Rat :=
  match alGet pm oid with
  | none => 0
  | some p => max 0 ((containerWidth - p.width) / 2)

/-- `applyVerticalLeft(orgs, left)` (lines 1286-1299): recursively assign
`left` down the children, indenting by `verticalChildOffset` per level.
`fuel` bounds the recursion depth; callers supply the arena size, which
covers every acyclic heap. -/
def applyVerticalLeft (st : TState) (cfg : OrgChartConfig) :
    Nat → List Nat → Rat → PMap → PMap
  | 0, _, _, pm => pm
  | _ + 1, [], _, pm => pm
  | fuel + 1, oid :: rest, left, pm =>
    let pm :=
      if (alGet pm oid).isSome then
        alUpdate (fun p => { p with left := some left }) pm oid
      else pm
    let pm :=
      match getNode st oid with
      | some n =>
        if n.children.length > 0 then
          applyVerticalLeft st cfg fuel n.children (left + cfg.verticalChildOffset) pm
        else pm
      | none => pm
    applyVerticalLeft st cfg fuel rest left pm

/-- `shiftOrgs(orgs, shift)` (lines 1302-1310): move every already placed
member by `shift`. -/
def shiftOrgs (pm : PMap) (orgs : List Nat) (shift : Rat) : PMap :=
  orgs.foldl
    (fun acc oid =>
      match alGet acc oid with
      | some p =>
        match p.left with
        | some _ => alUpdate (fun q => { q with left := q.left.map (· + shift) }) acc oid
        | none => acc
      | none => acc)
    pm

/-- The `lefts` array of the root-level block (lines 1331-1345): the root
org is centered, a 2nd top org goes to its right, a 3rd to its left. -/
def rootLefts (pm : PMap) (cfg : OrgChartConfig) (topOrgs : List Nat)
    (rootLeft rootWidth : Rat) : List (Option Rat) :=
  [some rootLeft,
   if topOrgs.length > 1 ∧ (alGet pm (topOrgs.getD 1 0)).isSome then
     some (rootLeft + rootWidth + cfg.horizontalSpacing)
   else none,
   if topOrgs.length > 2 then
     match alGet pm (topOrgs.getD 2 0) with
     | some p => some (rootLeft - (p.width + cfg.horizontalSpacing))
     | none => none
   else none]

/-- `Math.min(...)` over a nonempty list (0 for the empty list, which the
source never hits on this path). -/
def listMin (l : List Rat) : Rat :=
  match l with
  | [] => 0
  | x :: xs => xs.foldl min x

/-- `Math.max(...)` over a nonempty list. -/
def listMax (l : List Rat) : Rat :=
  match l with
  | [] => 0
  | x :: xs => xs.foldl max x

/-- `maxRight` of the root-level block (lines 1348-1353): per top org, its
right edge when both its placement and its `lefts` entry exist, else 0. -/
def rootMaxRight (pm : PMap) (topOrgs : List Nat) (lefts : List (Option Rat)) : Rat :=
  listMax (topOrgs.enum.map fun e =>
    match alGet pm e.2, (lefts.getD e.1 none) with
    | some p, some l => l + p.width
    | _, _ => 0)

/-- The clamping shift of the root-level block (lines 1355-1360). -/
def rootShift (cfg : OrgChartConfig) (minLeft maxRight : Rat) : Rat :=
  if minLeft < 0 then -minLeft
  else if maxRight > cfg.availableSpace then cfg.availableSpace - maxRight
  else 0

/-- Write the shifted root-level lefts into the placement map
(lines 1361-1373). -/
def assignRootLefts (pm : PMap) (topOrgs : List Nat) (lefts : List (Option Rat))
    (shift : Rat) : PMap :=
  let pm :=
    match topOrgs.head?, lefts.getD 0 none with
    | some oid, some l => alUpdate (fun p => { p with left := some (l + shift) }) pm oid
    | _, _ => pm
  let pm :=
    if topOrgs.length > 1 then
      match alGet pm (topOrgs.getD 1 0), lefts.getD 1 none with
      | some _, some l =>
        alUpdate (fun p => { p with left := some (l + shift) }) pm (topOrgs.getD 1 0)
      | _, _ => pm
    else pm
  if topOrgs.length > 2 then
    match alGet pm (topOrgs.getD 2 0), lefts.getD 2 none with
    | some _, some l =>
      alUpdate (fun p => { p with left := some (l + shift) }) pm (topOrgs.getD 2 0)
    | _, _ => pm
  else pm

/-- The empty-space recording shared by the root level (lines 1376-1396)
and horizontal levels (lines 1509-1531): gaps of more than 1 unit between
the sorted placed boxes, plus the leading/trailing gaps against `[0, cap]`. -/
def emptySpacesFor (pm : PMap) (orgIds : List Nat) (cap : Rat) : List (Rat × Rat) :=
  let placed := orgIds.filterMap fun oid =>
    match alGet pm oid with
    | some p => p.left.map fun l => (l, l + p.width)
    | none => none
  let sorted := sortByLE (fun a b => decide (a.1 ≤ b.1)) placed
  let folded := sorted.foldl
    (fun (acc : List (Rat × Rat) × Rat) o =>
      if o.1 > acc.2 + 1 then (acc.1 ++ [(acc.2, o.1)], o.2) else (acc.1, o.2))
    ([], 0)
  if folded.2 < cap then folded.1 ++ [(folded.2, cap)] else folded.1

/-- Group a level's orgs by parent id, in insertion order
(lines 1424-1430 / 1534-1541). -/
def buildParentGroups (st : TState) (orgIds : List Nat) : List (Nat × List Nat) :=
  orgIds.foldl
    (fun acc oid =>
      match getNode st oid with
      | none => acc
      | some org =>
        match org.parent with
        | none => acc
        | some pid =>
          match alGet acc pid with
          | none => acc ++ [(pid, [oid])]
          | some g => alSet acc pid (g ++ [oid]))
    []

/-- A `groupBounds` record: parent id, group left, group right. -/
structure GroupBound where
  pid : Nat
  left : Rat
  right : Rat
deriving Repr, DecidableEq

/-- `totalWidth` of one parent group (lines 1434-1439): widths of the
placed members plus a spacing gap per adjacent pair (over all members). -/
def groupTotalWidth (pm : PMap) (cfg : OrgChartConfig) (group : List Nat) : Rat :=
  (group.foldl
    (fun acc oid => match alGet pm oid with | some p => acc + p.width | none => acc) 0)
  + cfg.horizontalSpacing * ((group.length : Rat) - 1)

/-- Lay the members of one group left-to-right from `groupLeft`
(lines 1449-1456). -/
def layoutGroup (pm : PMap) (group : List Nat) (groupLeft : Rat) (hs : Rat) : PMap :=
  (group.foldl
    (fun (acc : PMap × Rat) oid =>
      match alGet acc.1 oid with
      | some p =>
        (alUpdate (fun q => { q with left := some acc.2 }) acc.1 oid,
         acc.2 + p.width + hs)
      | none => acc)
    (pm, groupLeft)).1

/-- Per-group placement of a non-root horizontal level (lines 1433-1462):
center each group under its parent (fallback: center the first member in
the available space), clamp into `[0, realAvailableSpace]`, lay members
out, and record the group bounds. -/
def layoutGroups (pm : PMap) (cfg : OrgChartConfig) (realAvail : Rat)
    (groups : List (Nat × List Nat)) : PMap × List GroupBound :=
  groups.foldl
    (fun (acc : PMap × List GroupBound) pg =>
      let pid := pg.1
      let group := pg.2
      let pm := acc.1
      let totalWidth := groupTotalWidth pm cfg group
      let groupLeft :=
        match alGet pm pid with
        | some pp =>
          match pp.left with
          | some pl => pl + (pp.width - totalWidth) / 2
          | none => centerOrg pm (group.headD 0) realAvail
        | none => centerOrg pm (group.headD 0) realAvail
      let groupLeft := if groupLeft < 0 then 0 else groupLeft
      let groupLeft :=
        if groupLeft + totalWidth > realAvail then realAvail - totalWidth else groupLeft
      (layoutGroup pm group groupLeft cfg.horizontalSpacing,
       acc.2 ++ [⟨pid, groupLeft, groupLeft + totalWidth⟩]))
    (pm, [])

/-- `totalOverlap` over adjacent pairs of the left-sorted group bounds
(lines 1465-1474). -/
def totalOverlapOf (sorted : List GroupBound) (hs : Rat) : Rat :=
  (sorted.zip sorted.tail).foldl
    (fun acc pr =>
      if pr.1.right + hs > pr.2.left then acc + (pr.1.right + hs - pr.2.left) else acc)
    0

/-- Overlap resolution (lines 1475-1486): when the total overlap is
positive, push the first (leftmost) group's members and bounds left by half
of it and the last (rightmost) group's right by the same amount. -/
def resolveOverlap (pm : PMap) (groups : List (Nat × List Nat))
    (sorted : List GroupBound) (hs : Rat) : PMap × List GroupBound :=
  let t := totalOverlapOf sorted hs
  if t > 0 then
    let s := t / 2
    let first := sorted.headD ⟨0, 0, 0⟩
    let b1 := sorted.set 0 { first with left := first.left - s, right := first.right - s }
    let lastv := b1.getD (b1.length - 1) ⟨0, 0, 0⟩
    let b2 := b1.set (b1.length - 1)
      { lastv with left := lastv.left + s, right := lastv.right + s }
    let pm := shiftOrgs pm ((alGet groups first.pid).getD []) (-s)
    let pm := shiftOrgs pm ((alGet groups lastv.pid).getD []) s
    (pm, b2)
  else (pm, sorted)

/-- Final bounds clamp of a horizontal level (lines 1488-1507): one
uniform shift bringing the level back into `[leftBound, rightBound]`
(left violation takes precedence). -/
def clampLevel (pm : PMap) (groups : List (Nat × List Nat))
    (bounds : List GroupBound) (leftBound rightBound : Rat) : PMap :=
  match bounds with
  | [] => pm
  | _ :: _ =>
    let mn := listMin (bounds.map (·.left))
    let mx := listMax (bounds.map (·.right))
    let shift :=
      if mn < leftBound then leftBound - mn
      else if mx > rightBound then rightBound - mx
      else 0
    if shift ≠ 0 then
      groups.foldl (fun acc pg => shiftOrgs acc pg.2 shift) pm
    else pm

/-- `realAvailableSpace` of a level (lines 1416-1422): the available width
minus the reserved margin per active skip flag. -/
def realAvailOf (cfg : OrgChartConfig) (tl : TreeLevel) : Rat :=
  cfg.availableSpace
    - (if tl.rightSkipLine then cfg.skipLineExtraSpacing else 0)
    - (if tl.leftSkipLine then cfg.skipLineExtraSpacing else 0)

/-- One non-root horizontal level of the solver loop (lines 1412-1531). -/
def processHorizontalLevel (st : TState) (pm : PMap) (cfg : OrgChartConfig)
    (key : Int) (tl : TreeLevel) : TState × PMap :=
  let realAvail := realAvailOf cfg tl
  let groups := buildParentGroups st tl.orgs
  let lg := layoutGroups pm cfg realAvail groups
  let sorted := sortByLE (fun a b => decide (a.left ≤ b.left)) lg.2
  let ro := resolveOverlap lg.1 groups sorted cfg.horizontalSpacing
  let leftBound := if tl.leftSkipLine then cfg.skipLineExtraSpacing else 0
  let rightBound := realAvail + leftBound
  let pm3 := clampLevel ro.1 groups ro.2 leftBound rightBound
  let st := updateLevel st key fun t =>
    { t with emptySpaces := emptySpacesFor pm3 tl.orgs realAvail }
  (st, pm3)

/-- One first-in-run vertical level of the solver loop (lines 1532-1567).
`none` models the `TypeError` thrown when a parent or its placement is
missing; a parent placement whose `left` is still undefined would poison
the arithmetic with `NaN` in JS and is modelled as a failure as well. -/
def processVerticalLevel (st : TState) (pm : PMap) (cfg : OrgChartConfig)
    (key : Int) (tl : TreeLevel) : Option (TState × PMap) :=
  let groups := buildParentGroups st tl.orgs
  let fuel := st.nodes.length + 1
  let pmOpt := tl.orgs.foldlM
    (fun (acc : PMap) oid =>
      if groups.length > 1 then
        match getNode st oid with
        | none => none
        | some org =>
          match org.parent with
          | none => none
          | some pid =>
            match alGet acc pid with
            | none => none
            | some pp =>
              match pp.left with
              | none => none
              | some pl =>
                some (applyVerticalLeft st cfg fuel [oid]
                  (pl + cfg.verticalChildOffset) acc)
      else
        some (applyVerticalLeft st cfg fuel [oid]
          (cfg.availableSpace / 2 - ((alGet acc oid).map (·.width)).getD 0 / 2) acc))
    pm
  match pmOpt with
  | none => none
  | some pm' =>
    some (updateLevel st key (fun t => { t with emptySpaces := [(0, cfg.availableSpace)] }),
      pm')

/-- The per-level loop of the solver (lines 1398-1569), over the levels in
ascending order, skipping the root level and the vertical levels that
follow a first-in-run vertical level. -/
def solveLevels (cfg : OrgChartConfig) (rootLevel : Int) :
    List Int → TState → PMap → Bool → Option (TState × PMap)
  | [], st, pm, _ => some (st, pm)
  | l :: rest, st, pm, skipVertical =>
    if l = rootLevel then solveLevels cfg rootLevel rest st pm skipVertical
    else
      match getLevel st l with
      | none => solveLevels cfg rootLevel rest st pm skipVertical
      | some tl =>
        if skipVertical ∧ tl.orientation ≠ some Orientation.horizontal then
          solveLevels cfg rootLevel rest st pm skipVertical
        else
          if tl.orientation = some Orientation.horizontal then
            let r := processHorizontalLevel st pm cfg l tl
            solveLevels cfg rootLevel rest r.1 r.2 false
          else if tl.orientation = some Orientation.vertical then
            match processVerticalLevel st pm cfg l tl with
            | none => none
            | some r => solveLevels cfg rootLevel rest r.1 r.2 true
          else solveLevels cfg rootLevel rest st pm false

/-- `calculateHorizontalPositions(levelsMap, placements, config)`.  The
source's bare `return`s on missing root data are normal returns (`some`
with nothing mutated); `none` models a thrown `TypeError`. -/
def calculateHorizontalPositions (st : TState) (pm : PMap) (cfg : OrgChartConfig) :
    Option (TState × PMap) :=
  match st.root with
  | none => some (st, pm)
  | some rootId =>
    match getNode st rootId with
    | none => some (st, pm)
    | some rootNode =>
      let rootLevel := rootNode.level
      match getLevel st rootLevel with
      | none => some (st, pm)
      | some topLevel =>
        match topLevel.orgs.head? with
        | none => some (st, pm)
        | some rootOrgId =>
          match alGet pm rootOrgId with
          | none => some (st, pm)
          | some rootPlacement =>
            let topOrgs := topLevel.orgs
            let rootLeft := centerOrg pm rootOrgId cfg.availableSpace
            let lefts := rootLefts pm cfg topOrgs rootLeft rootPlacement.width
            let minLeft := listMin (lefts.filterMap id)
            let maxRight := rootMaxRight pm topOrgs lefts
            let shift := rootShift cfg minLeft maxRight
            let pm := assignRootLefts pm topOrgs lefts shift
            let st := updateLevel st rootLevel fun t =>
              { t with emptySpaces := emptySpacesFor pm topOrgs cfg.availableSpace }
            let keys := (orderedEntries st).map Prod.fst
            solveLevels cfg rootLevel keys st pm false

/-! ## `calculateLinesBetweenOrgs` / `calculateLinesForOrg`
(tree.ts lines 1578-1783) -/

/-- The closest-gap scan of the skip branch (lines 1653-1666): the first
gap of minimal center distance to `centerX` (`none` when there are no
gaps). -/
def closestGap (spaces : List (Rat × Rat)) (centerX : Rat) : Option (Rat × Rat) :=
  (spaces.foldl
    (fun (acc : Option (Rat × Rat) × Option Rat) gap =>
      let gapCenter := (gap.1 + gap.2) / 2
      let d := |gapCenter - centerX|
      match acc.2 with
      | none => (some gap, some d)
      | some bd => if d < bd then (some gap, some d) else acc)
    (none, none)).1

/-- The start-X choice of the skip-line branch (lines 1645-1687).  `none`
models the `TypeError` thrown when the level at `org.level + 1` is absent
(the flag guard passes on `undefined` and `level.emptySpaces` throws). -/
def skipStartX (st : TState) (cfg : OrgChartConfig) (org : COrg)
    (placement : OrgPlacement) (orgIsFirstInLevel orgIsLastInLevel : Bool) :
    Option Rat :=
  match getLevel st (org.level + 1) with
  | none => none
  | some lvl =>
    if ¬lvl.leftSkipLine ∧ ¬lvl.rightSkipLine then
      let centerX := placement.left.getD 0 + placement.width / 2
      match closestGap lvl.emptySpaces centerX with
      | some gap => some ((gap.1 + gap.2) / 2)
      | none => some centerX
    else if orgIsLastInLevel then
      some (placement.left.getD 0 + placement.width - cfg.skipLineExtraSpacing / 2)
    else if orgIsFirstInLevel then
      some (placement.left.getD 0 + cfg.skipLineExtraSpacing / 2)
    else
      some (placement.left.getD 0 + placement.width / 2)

/-- `calculateLinesForOrg(levelsMap, org, placements, config)`
(lines 1606-1783): the connector polylines from one org to each of its
placed children. -/
def calculateLinesForOrg (st : TState) (pm : PMap) (cfg : OrgChartConfig)
    (oid : Nat) : Option (List OrgLine) :=
  match getNode st oid with
  | none => some []
  | some org =>
    match alGet pm org.id with
    | none => some []
    | some placement =>
      if org.children.length > 0 then
        let orgLevelObj := getLevel st org.level
        let orgIsFirstInLevel :=
          (orgLevelObj.map fun tl => decide (tl.orgs.head? = some org.id)).getD false
        let orgIsLastInLevel :=
          (orgLevelObj.map fun tl => decide (tl.orgs.getLast? = some org.id)).getD false
        org.children.foldlM
          (fun (acc : List OrgLine) cid =>
            match getNode st cid with
            | none => some acc
            | some child =>
              match alGet pm child.id with
              | none => some acc
              | some cp =>
                let isChildVerticalLevel :=
                  ((getLevel st child.level).map
                    fun tl => decide (tl.orientation = some Orientation.vertical)).getD false
                if child.level = org.level then
                  some (acc ++ [⟨[
                    ⟨placement.left.getD 0 + placement.width / 2,
                     placement.top + placement.height / 2⟩,
                    ⟨cp.left.getD 0 + cp.width / 2, cp.top + cp.height / 2⟩]⟩])
                else if org.lineSkipsLevels.getD 0 > 0 then
                  match skipStartX st cfg org placement
                      orgIsFirstInLevel orgIsLastInLevel with
                  | none => none
                  | some startX =>
                    let spacing :=
                      if isChildVerticalLevel then cfg.verticalSubtreeSpacing / 2
                      else cfg.verticalSpacing / 2
                    let midY := cp.top - spacing
                    let cx := cp.left.getD 0 + cp.width / 2
                    some (acc ++ [⟨[
                      ⟨startX, placement.top + placement.height / 2⟩,
                      ⟨startX, midY⟩, ⟨cx, midY⟩, ⟨cx, cp.top⟩]⟩])
                else if isChildVerticalLevel then
                  let startX := placement.left.getD 0 + cfg.verticalChildOffset / 2
                  let midY := cp.top + cp.height / 2
                  some (acc ++ [⟨[
                    ⟨startX, placement.top + placement.height⟩,
                    ⟨startX, midY⟩,
                    ⟨cp.left.getD 0 + cp.width / 2, midY⟩]⟩])
                else
                  let pcx := placement.left.getD 0 + placement.width / 2
                  let spacing :=
                    if isChildVerticalLevel then cfg.verticalSubtreeSpacing / 2
                    else cfg.verticalSpacing / 2
                  let midY := cp.top - spacing
                  let ccx := cp.left.getD 0 + cp.width / 2
                  some (acc ++ [⟨[
                    ⟨pcx, placement.top + placement.height⟩,
                    ⟨pcx, midY⟩, ⟨ccx, midY⟩, ⟨ccx, cp.top⟩]⟩]))
          []
      else some []

/-- The depth-first walk of `calculateLinesBetweenOrgs` (lines 1585-1599)
as a stack machine in preorder.  `fuel` bounds the walk; callers pass the
arena size, which covers every acyclic heap; exhaustion yields `none`. -/
def linesWalk (st : TState) (pm : PMap) (cfg : OrgChartConfig) :
    Nat → List Nat → Option (List OrgLine)
  | 0, _ => none
  | _ + 1, [] => some []
  | fuel + 1, oid :: rest =>
    match calculateLinesForOrg st pm cfg oid with
    | none => none
    | some ls =>
      let kids := match getNode st oid with | some n => n.children | none => []
      match linesWalk st pm cfg fuel (kids ++ rest) with
      | none => none
      | some more => some (ls ++ more)

/-- `calculateLinesBetweenOrgs(levelsMap, placements, config)`. -/
def calculateLinesBetweenOrgs (st : TState) (pm : PMap) (cfg : OrgChartConfig) :
    Option (List OrgLine) :=
  match st.root with
  | none => some []
  | some rid => linesWalk st pm cfg (st.nodes.length + 1) [rid]

/-! ## The full pipeline (ilw-org-chart.ts `_treeTask`) -/

/-- Modelled from the spec: `measureOrgBoxes` (tree.ts lines 1035-1265)
delegates box sizing to the browser layout engine (spec §4.3, §6
"Measurement Service"), which is not part of the repository's pure code.
The service is abstracted as an oracle from a box's content (title,
subtitle, large flag) to its measured placement; one placement is produced
per node of the leveled tree, keyed by node id. -/
def measureOrgBoxesModel (st : TState)
    (oracle : String → Option String → Bool → OrgPlacement) : PMap :=
  st.nodes.map fun e => (e.1, oracle e.2.title e.2.subtitle e.2.large)

/-- The full layout pipeline as invoked by the widget's `_treeTask`:
level the tree, resolve orientations, measure (abstractly), solve
horizontal positions, route connector lines.  The global `orgIdCount`
counter is threaded through. -/
def pipeline (org : Org) (cfg : OrgChartConfig)
    (oracle : String → Option String → Bool → OrgPlacement) (ctr : Nat) :
    Option (TState × PMap × List OrgLine) × Nat :=
  let tl := treeLevelOrgs org ctr
  match calculateLevelOrientations tl.1 cfg with
  | none => (none, tl.2)
  | some st1 =>
    let pm := measureOrgBoxesModel st1 oracle
    match calculateHorizontalPositions st1 pm cfg with
    | none => (none, tl.2)
    | some r =>
      match calculateLinesBetweenOrgs r.1 r.2 cfg with
      | none => (none, tl.2)
      | some lines => (some (r.1, r.2, lines), tl.2)

/-! ## Concrete example inputs used by witnesses and counterexamples -/

/-- A leaf input org. -/
def leafOrg (t : String) (w : Option Int) : Org :=
  { title := t, subtitle := none, weight := w, large := false, children := [] }

/-- A root with four weight-(-1) children: five orgs resolve to level 0,
so the demotion edge case fires. -/
def orgW4 : Org :=
  { title := "R", subtitle := none, weight := none, large := false,
    children := [leafOrg "a" (some (-1)), leafOrg "b" (some (-1)),
                 leafOrg "c" (some (-1)), leafOrg "d" (some (-1))] }

/-- A concrete `ConnectedOrg` builder for example heaps. -/
def mkCOrg (i : Nat) (p : Option Nat) (lv : Int) (oi : Nat) (cs : List Nat) : COrg :=
  { title := "n", subtitle := none, weight := none, large := false, id := i,
    parent := p, level := lv, originalIndex := some oi, lineSkipsLevels := none,
    children := cs }

/-- A chain heap for the orientation-closure witness: root 1 at level 0,
child 2 at level 1, grandchild 3 at level 2. -/
def stC3 : TState :=
  { nodes := [(1, mkCOrg 1 none 0 0 [2]), (2, mkCOrg 2 (some 1) 1 0 [3]),
              (3, mkCOrg 3 (some 2) 2 0 [])],
    levels := [(0, mkTreeLevel 0 [1]), (1, mkTreeLevel 1 [2]),
               (2, mkTreeLevel 2 [3])],
    root := some 1 }

/-- A config whose `minColWidth ≤ 0` forces every level vertical in the
first orientation pass. -/
def cfgC3 : OrgChartConfig :=
  { horizontalSpacing := 5, verticalSpacing := 30, verticalSubtreeSpacing := 20,
    verticalChildOffset := 20, largeOrgSizeMultiplier := 3/2, availableSpace := 100,
    minColWidth := 0, maxColWidth := 300, skipLineExtraSpacing := 8 }

/-- A concrete config for witnesses. -/
def cfgW : OrgChartConfig :=
  { horizontalSpacing := 5, verticalSpacing := 30, verticalSubtreeSpacing := 20,
    verticalChildOffset := 20, largeOrgSizeMultiplier := 3/2, availableSpace := 100,
    minColWidth := 1, maxColWidth := 300, skipLineExtraSpacing := 8 }

/-- A heap with two top-level orgs. -/
def stW2 : TState :=
  { nodes := [(1, mkCOrg 1 none 0 0 [2]), (2, mkCOrg 2 (some 1) 0 1 [])],
    levels := [(0, { level := 0, orgs := [1, 2],
                     orientation := some Orientation.horizontal })],
    root := some 1 }

def pmW2 : PMap :=
  [(1, { width := 10, height := 5, top := 0 }),
   (2, { width := 20, height := 5, top := 0 })]

/-- A heap with three top-level orgs. -/
def stW3 : TState :=
  { nodes := [(1, mkCOrg 1 none 0 0 [2, 3]), (2, mkCOrg 2 (some 1) 0 1 []),
              (3, mkCOrg 3 (some 1) 0 2 [])],
    levels := [(0, { level := 0, orgs := [1, 2, 3],
                     orientation := some Orientation.horizontal })],
    root := some 1 }

def pmW3 : PMap :=
  [(1, { width := 10, height := 5, top := 0 }),
   (2, { width := 20, height := 5, top := 0 }),
   (3, { width := 30, height := 5, top := 0 })]

/-- A non-leaf input org. -/
def nodeOrg (t : String) (w : Option Int) (cs : List Org) : Org :=
  { title := t, subtitle := none, weight := w, large := false, children := cs }

/-- An input tree where BOTH level-1 nodes carry `lineSkipsLevels = 1`:
`a` (id 2) through its weight-(+1) child `c`, `b` (id 5) through its
weight-(+1) child `e`.  Level 1 is `[2, 5]` after leveling; `d` (id 4)
keeps level 2 populated so pass 5 does not crash. -/
def orgC6 : Org :=
  nodeOrg "R" none
    [nodeOrg "a" none [leafOrg "c" (some 1), leafOrg "d" none],
     nodeOrg "b" none [leafOrg "e" (some 1)]]

/-- A hand-built heap matching the `orgC6` scenario at the point pass 5
reaches level 1: nodes 2 and 5 skip one level each, level 1 is `[2, 5]`. -/
def stC6w : TState :=
  { nodes := [(1, mkCOrg 1 none 0 0 [2, 5]),
              (2, { title := "a", subtitle := none, weight := none, large := false,
                    id := 2, parent := some 1, level := 1, originalIndex := some 0,
                    lineSkipsLevels := some 1, children := [3, 4] }),
              (3, mkCOrg 3 (some 2) 3 0 []),
              (4, mkCOrg 4 (some 2) 2 1 []),
              (5, { title := "b", subtitle := none, weight := none, large := false,
                    id := 5, parent := some 1, level := 1, originalIndex := some 1,
                    lineSkipsLevels := some 1, children := [6] }),
              (6, mkCOrg 6 (some 5) 3 0 [])],
    levels := [(0, { level := 0, orgs := [1],
                     orientation := some Orientation.horizontal }),
               (1, { level := 1, orgs := [2, 5],
                     orientation := some Orientation.horizontal }),
               (2, { level := 2, orgs := [4],
                     orientation := some Orientation.horizontal }),
               (3, { level := 3, orgs := [3, 6],
                     orientation := some Orientation.horizontal })],
    root := some 1 }

/-- The heap after pass 5 handles level 1 of `stC6w`. -/
def stC6out : TState := (pass5Level stC6w cfgW 1).getD stC6w

/-- A heap whose level 1 lists orgs out of `originalIndex` order
(`[2, 3]` with indices `1, 0`) and has no skip-marked orgs. -/
def stC7w : TState :=
  { nodes := [(1, mkCOrg 1 none 0 0 [2, 3]), (2, mkCOrg 2 (some 1) 1 1 []),
              (3, mkCOrg 3 (some 1) 1 0 [])],
    levels := [(0, { level := 0, orgs := [1],
                     orientation := some Orientation.horizontal }),
               (1, { level := 1, orgs := [2, 3],
                     orientation := some Orientation.horizontal })],
    root := some 1 }

/-- The heap after the orientation passes run on `stC7w`. -/
def stC7out : TState := (calculateLevelOrientations stC7w cfgW).getD stC7w

/-- A parent (id 1, `lineSkipsLevels = 1`) whose only child (id 2) sits
two levels down; the skipped level 1 carries a `rightSkipLine` flag. -/
def stC8w : TState :=
  { nodes := [(1, { title := "n", subtitle := none, weight := none, large := false,
                    id := 1, parent := none, level := 0, originalIndex := some 0,
                    lineSkipsLevels := some 1, children := [2] }),
              (2, mkCOrg 2 (some 1) 2 0 [])],
    levels := [(0, { level := 0, orgs := [1],
                     orientation := some Orientation.horizontal }),
               (1, { level := 1, orgs := [],
                     orientation := some Orientation.horizontal,
                     rightSkipLine := true }),
               (2, { level := 2, orgs := [2],
                     orientation := some Orientation.horizontal })],
    root := some 1 }

def pmC8 : PMap :=
  [(1, { width := 10, height := 4, top := 0, left := some 20 }),
   (2, { width := 6, height := 4, top := 40, left := some 30 })]

/-- A constant measurement oracle for the determinism scenario. -/
def oracleC9 : String → Option String → Bool → OrgPlacement :=
  fun _ _ _ => { width := 10, height := 5, top := 0 }

/-- The total box extent of a level's org list: sum of member box widths
plus one `hs` gap per adjacent pair. -/
def levelExtent (pm : PMap) (orgs : List Nat) (hs : Rat) : Rat :=
  orgs.foldl (fun acc i => acc + ((alGet pm i).map (·.width)).getD 0) 0
    + ((orgs.length : Rat) - 1) * hs

/-- Config for the C1 scenario: spacing 1, available space 100. -/
def cfgC1 : OrgChartConfig :=
  { horizontalSpacing := 1, verticalSpacing := 30, verticalSubtreeSpacing := 20,
    verticalChildOffset := 20, largeOrgSizeMultiplier := 3/2, availableSpace := 100,
    minColWidth := 1, maxColWidth := 300, skipLineExtraSpacing := 8 }

/-- A three-level heap: root 1, parents 2-5 on level 1 with one child each,
children 6-9 on level 2.  All levels horizontal, no skip flags. -/
def stC1 : TState :=
  { nodes := [(1, mkCOrg 1 none 0 0 [2, 3, 4, 5]),
              (2, mkCOrg 2 (some 1) 1 0 [6]), (3, mkCOrg 3 (some 1) 1 1 [7]),
              (4, mkCOrg 4 (some 1) 1 2 [8]), (5, mkCOrg 5 (some 1) 1 3 [9]),
              (6, mkCOrg 6 (some 2) 2 0 []), (7, mkCOrg 7 (some 3) 2 0 []),
              (8, mkCOrg 8 (some 4) 2 0 []), (9, mkCOrg 9 (some 5) 2 0 [])],
    levels := [(0, { level := 0, orgs := [1],
                     orientation := some Orientation.horizontal }),
               (1, { level := 1, orgs := [2, 3, 4, 5],
                     orientation := some Orientation.horizontal }),
               (2, { level := 2, orgs := [6, 7, 8, 9],
                     orientation := some Orientation.horizontal })],
    root := some 1 }

/-- Measured widths for the C1 scenario: the level-2 extent is
`40 + 40 + 8 + 8 + 3 * 1 = 99 ≤ 100`. -/
def pmC1 : PMap :=
  [(1, { width := 10, height := 5, top := 0 }),
   (2, { width := 24, height := 5, top := 0 }),
   (3, { width := 24, height := 5, top := 0 }),
   (4, { width := 24, height := 5, top := 0 }),
   (5, { width := 24, height := 5, top := 0 }),
   (6, { width := 40, height := 5, top := 0 }),
   (7, { width := 40, height := 5, top := 0 }),
   (8, { width := 8, height := 5, top := 0 }),
   (9, { width := 8, height := 5, top := 0 })]

/-- Example data for the overlap-resolution step: three parent groups whose
first two overlap by 6 (including the spacing gap). -/
def sortedC5 : List GroupBound :=
  [⟨10, 0, 30⟩, ⟨20, 25, 45⟩, ⟨30, 70, 80⟩]

def groupsC5 : List (Nat × List Nat) :=
  [(10, [1, 2]), (20, [3]), (30, [4])]

def pmC5 : PMap :=
  [(1, { width := 5, height := 5, top := 0, left := some 0 }),
   (2, { width := 5, height := 5, top := 0, left := some 10 }),
   (3, { width := 5, height := 5, top := 0, left := some 25 }),
   (4, { width := 5, height := 5, top := 0, left := some 70 })]

/-! ## The copy relation for the frame property of `treeLevelOrgs`

JS mutation is modelled by the arena: `traverse` builds fresh `COrg`
records and every annotation (`id`, `parent`, `level`, `originalIndex`,
`lineSkipsLevels`, the demotion rewrite) is a write to the arena, never
to the input `Org` value.  The frame claim is stated as: the arena holds,
at fresh ids (≥ the entry counter), copies of every input node whose
`title`, `subtitle`, `weight`, `large` and (recursively) `children`
agree with the input exactly. -/

/-- The five input-owned fields agree (annotations excluded). -/
def coreEq (a b : COrg) : Prop :=
  a.title = b.title ∧ a.subtitle = b.subtitle ∧ a.weight = b.weight ∧
    a.large = b.large ∧ a.children = b.children

mutual

/-- `oid` (an id ≥ `lo`) holds a faithful copy of the input org. -/
def isCopyGe (st : TState) (lo : Nat) (oid : Nat) : Org → Prop
  | ⟨t, sub, w, lg, cs⟩ =>
    lo ≤ oid ∧ ∃ n, getNode st oid = some n ∧ n.title = t ∧
      n.subtitle = sub ∧ n.weight = w ∧ n.large = lg ∧
      areCopiesGe st lo n.children cs

/-- The id list holds faithful copies of the input orgs, in order. -/
def areCopiesGe (st : TState) (lo : Nat) : List Nat → List Org → Prop
  | cids, [] => cids = []
  | cids, o :: os =>
    match cids with
    | [] => False
    | cid :: cids2 => isCopyGe st lo cid o ∧ areCopiesGe st lo cids2 os

end

/-! ## Basic lemmas about the map model -/

theorem alGet_alSet_self {κ α : Type} [DecidableEq κ] (l : List (κ × α)) (k : κ) (v : α) :
    alGet (alSet l k v) k = some v := by
  induction l with
  | nil => simp [alSet, alGet]
  | cons hd tl ih =>
    by_cases h : k = hd.1
    · simp [alSet, alGet, h]
    · simpa [alSet, alGet, h] using ih

theorem alGet_alSet_ne {κ α : Type} [DecidableEq κ] (l : List (κ × α)) (k k' : κ) (v : α)
    (h : k' ≠ k) : alGet (alSet l k v) k' = alGet l k' := by
  induction l with
  | nil => simp [alSet, alGet, h]
  | cons hd tl ih =>
    by_cases hk : k = hd.1
    · subst hk
      simp [alSet, alGet, h]
    · by_cases hk' : k' = hd.1
      · simp [alSet, alGet, hk, hk']
      · simpa [alSet, alGet, hk, hk'] using ih

theorem alGet_alUpdate_self {κ α : Type} [DecidableEq κ] (f : α → α) (l : List (κ × α)) (k : κ) :
    alGet (alUpdate f l k) k = (alGet l k).map f := by
  induction l with
  | nil => simp [alUpdate, alGet]
  | cons hd tl ih =>
    by_cases h : k = hd.1
    · simp [alUpdate, alGet, h]
    · simpa [alUpdate, alGet, h] using ih

theorem alGet_alUpdate_ne {κ α : Type} [DecidableEq κ] (f : α → α) (l : List (κ × α)) (k k' : κ)
    (h : k' ≠ k) : alGet (alUpdate f l k) k' = alGet l k' := by
  induction l with
  | nil => simp [alUpdate, alGet]
  | cons hd tl ih =>
    by_cases hk : k = hd.1
    · subst hk
      simp [alUpdate, alGet, h]
    · by_cases hk' : k' = hd.1
      · simp [alUpdate, alGet, hk, hk']
      · simpa [alUpdate, alGet, hk, hk'] using ih

theorem getNode_updateNode_self (st : TState) (i : Nat) (f : COrg → COrg) :
    getNode (updateNode st i f) i = (getNode st i).map f :=
  alGet_alUpdate_self f st.nodes i

theorem getNode_updateNode_ne (st : TState) (i j : Nat) (f : COrg → COrg) (h : j ≠ i) :
    getNode (updateNode st i f) j = getNode st j :=
  alGet_alUpdate_ne f st.nodes i j h

theorem getLevel_updateLevel_self (st : TState) (l : Int) (f : TreeLevel → TreeLevel) :
    getLevel (updateLevel st l f) l = (getLevel st l).map f :=
  alGet_alUpdate_self f st.levels l

theorem getLevel_updateLevel_ne (st : TState) (l m : Int) (f : TreeLevel → TreeLevel) (h : m ≠ l) :
    getLevel (updateLevel st l f) m = getLevel st m :=
  alGet_alUpdate_ne f st.levels l m h

theorem getLevel_updateNode (st : TState) (i : Nat) (f : COrg → COrg) (l : Int) :
    getLevel (updateNode st i f) l = getLevel st l := rfl

theorem getNode_updateLevel (st : TState) (l : Int) (f : TreeLevel → TreeLevel) (i : Nat) :
    getNode (updateLevel st l f) i = getNode st i := rfl

theorem getLevel_setLevel_self (st : TState) (l : Int) (tl : TreeLevel) :
    getLevel (setLevel st l tl) l = some tl :=
  alGet_alSet_self st.levels l tl

theorem getLevel_setLevel_ne (st : TState) (l m : Int) (tl : TreeLevel) (h : m ≠ l) :
    getLevel (setLevel st l tl) m = getLevel st m :=
  alGet_alSet_ne st.levels l m tl h

theorem getNode_setLevel (st : TState) (l : Int) (tl : TreeLevel) (i : Nat) :
    getNode (setLevel st l tl) i = getNode st i := rfl

/-! ## Characterising the demotion loop -/

theorem demoteFold_getLevel_one (ds : List Nat) (st : TState) :
    getLevel (ds.foldl demoteStep st) 1 =
      (getLevel st 1).map fun tl => { tl with orgs := tl.orgs ++ ds } := by
  induction ds generalizing st with
  | nil =>
    cases h : getLevel st 1 <;> simp [h]
  | cons d ds ih =>
    rw [List.foldl_cons, ih]
    have h1 : getLevel (demoteStep st d) 1 =
        (getLevel st 1).map fun tl => { tl with orgs := tl.orgs ++ [d] } := by
      simp [demoteStep, getLevel_updateLevel_self, getLevel_updateNode]
    rw [h1]
    cases h : getLevel st 1 <;> simp [h]

theorem demoteFold_getLevel_ne (ds : List Nat) (st : TState) (l : Int) (hl : l ≠ 1) :
    getLevel (ds.foldl demoteStep st) l = getLevel st l := by
  induction ds generalizing st with
  | nil => rfl
  | cons d ds ih =>
    rw [List.foldl_cons, ih]
    simp [demoteStep, getLevel_updateLevel_ne _ _ _ _ hl, getLevel_updateNode]

theorem demoteStep_getNode (st : TState) (d i : Nat) :
    getNode (demoteStep st d) i =
      if i = d then (getNode st i).map fun n => { n with level := 1 }
      else getNode st i := by
  by_cases h : i = d
  · subst h
    simp [demoteStep, getNode_updateLevel, getNode_updateNode_self]
  · simp [demoteStep, getNode_updateLevel, getNode_updateNode_ne _ _ _ _ h, h]

theorem demoteFold_getNode (ds : List Nat) (st : TState) (i : Nat) :
    getNode (ds.foldl demoteStep st) i =
      if i ∈ ds then (getNode st i).map fun n => { n with level := 1 }
      else getNode st i := by
  induction ds generalizing st with
  | nil => simp
  | cons d ds ih =>
    rw [List.foldl_cons, ih, demoteStep_getNode]
    by_cases hds : i ∈ ds
    · rw [if_pos hds, if_pos (List.mem_cons.mpr (Or.inr hds))]
      by_cases hd : i = d
      · rw [if_pos hd]
        cases getNode st i <;> simp
      · rw [if_neg hd]
    · rw [if_neg hds]
      by_cases hd : i = d
      · rw [if_pos hd, if_pos (List.mem_cons.mpr (Or.inl hd))]
      · rw [if_neg hd, if_neg (by simp [hd, hds])]

theorem demoteTopLevel_eq (st : TState) :
    demoteTopLevel st =
      match getLevel st 0 with
      | none => st
      | some tl =>
        if tl.orgs.length > 3 then
          let st1 := setLevel st 0 { tl with orgs := tl.orgs.take 3 }
          let st2 :=
            if (getLevel st1 1).isSome then st1
            else setLevel st1 1 (mkTreeLevel 1 [])
          (tl.orgs.drop 3).foldl demoteStep st2
        else st := rfl

/-- C2: `treeLevelOrgs` bounds level 0 to three orgs, demoting the rest to
level 1 in order, rewriting their `level` field; with at most three
level-0 orgs nothing changes at all. -/
theorem claim_C2 (o : Org) (c : Nat) :
    (∀ tl0, getLevel (traverseRun o c).1 0 = some tl0 →
      (tl0.orgs.length > 3 →
        getLevel (treeLevelOrgs o c).1 0 = some { tl0 with orgs := tl0.orgs.take 3 } ∧
        (tl0.orgs.take 3).length = 3 ∧
        getLevel (treeLevelOrgs o c).1 1 =
          some (match getLevel (traverseRun o c).1 1 with
                | some tl1 => { tl1 with orgs := tl1.orgs ++ tl0.orgs.drop 3 }
                | none => mkTreeLevel 1 (tl0.orgs.drop 3)) ∧
        (∀ d ∈ tl0.orgs.drop 3,
          getNode (treeLevelOrgs o c).1 d =
            (getNode (traverseRun o c).1 d).map fun n => { n with level := 1 }) ∧
        (∀ i, i ∉ tl0.orgs.drop 3 →
          getNode (treeLevelOrgs o c).1 i = getNode (traverseRun o c).1 i)) ∧
      (tl0.orgs.length ≤ 3 → (treeLevelOrgs o c).1 = (traverseRun o c).1)) ∧
    (getLevel (traverseRun o c).1 0 = none →
      (treeLevelOrgs o c).1 = (traverseRun o c).1) := by
  set st0 := (traverseRun o c).1 with hst0
  have hfin : (treeLevelOrgs o c).1 = demoteTopLevel st0 := rfl
  constructor
  · intro tl0 h0
    constructor
    · intro hlen
      have hne : ¬tl0.orgs.length ≤ 3 := by omega
      rw [hfin, demoteTopLevel_eq, h0]
      simp only [hlen, if_pos]
      set st1 := setLevel st0 0 { tl0 with orgs := tl0.orgs.take 3 } with hst1
      have h1get : getLevel st1 1 = getLevel st0 1 :=
        getLevel_setLevel_ne st0 0 1 _ (by decide)
      set st2 := if (getLevel st1 1).isSome then st1
        else setLevel st1 1 (mkTreeLevel 1 []) with hst2
      have h2zero : getLevel st2 0 = some { tl0 with orgs := tl0.orgs.take 3 } := by
        rw [hst2]
        by_cases hs : (getLevel st1 1).isSome
        · rw [if_pos hs]
          exact getLevel_setLevel_self st0 0 _
        · rw [if_neg hs]
          rw [getLevel_setLevel_ne st1 1 0 _ (by decide)]
          exact getLevel_setLevel_self st0 0 _
      have h2one : getLevel st2 1 =
          some (match getLevel st0 1 with
                | some tl1 => tl1
                | none => mkTreeLevel 1 []) := by
        rw [hst2]
        cases hs : getLevel st0 1 with
        | some tl1 =>
          rw [if_pos (by rw [h1get, hs]; rfl)]
          rw [h1get, hs]
        | none =>
          rw [if_neg (by rw [h1get, hs]; simp)]
          exact getLevel_setLevel_self st1 1 _
      have h2node : ∀ i, getNode st2 i = getNode st0 i := by
        intro i
        rw [hst2]
        by_cases hs : (getLevel st1 1).isSome
        · rw [if_pos hs]; rfl
        · rw [if_neg hs]; rfl
      refine ⟨?_, ?_, ?_, ?_, ?_⟩
      · rw [demoteFold_getLevel_ne _ _ 0 (by decide), h2zero]
      · rw [List.length_take]
        omega
      · rw [demoteFold_getLevel_one, h2one]
        cases hs : getLevel st0 1 <;> simp [mkTreeLevel]
      · intro d hd
        rw [demoteFold_getNode, if_pos hd, h2node]
      · intro i hi
        rw [demoteFold_getNode, if_neg hi, h2node]
    · intro hle
      rw [hfin, demoteTopLevel_eq, h0]
      exact if_neg (by omega)
  · intro h0
    rw [hfin, demoteTopLevel_eq, h0]

/-- Witness for C2: the five level-0 orgs of `orgW4` are cut down to the
first three; orgs 4 and 5 land in level 1 with their level rewritten. -/
theorem claim_C2_witness :
    getLevel (treeLevelOrgs orgW4 1).1 0 =
      some { level := 0, orgs := [1, 2, 3], orientation := none,
             rightSkipLine := false, leftSkipLine := false, emptySpaces := [] } ∧
    getLevel (treeLevelOrgs orgW4 1).1 1 = some (mkTreeLevel 1 [4, 5]) ∧
    getNode (treeLevelOrgs orgW4 1).1 4 =
      (getNode (traverseRun orgW4 1).1 4).map (fun n => { n with level := 1 }) ∧
    getNode (treeLevelOrgs orgW4 1).1 5 =
      (getNode (traverseRun orgW4 1).1 5).map (fun n => { n with level := 1 }) := by
  have h := ((claim_C2 orgW4 1).1
    { level := 0, orgs := [1, 2, 3, 4, 5], orientation := none,
      rightSkipLine := false, leftSkipLine := false, emptySpaces := [] }
    rfl).1 (by decide)
  exact ⟨h.1, h.2.2.1, h.2.2.2.1 4 (by decide), h.2.2.2.1 5 (by decide)⟩

/-! ## Frame lemmas for the position solver: ids outside a level's org list
keep their placements -/

theorem alGet_mem {κ α : Type} [DecidableEq κ] (l : List (κ × α)) (k : κ) (v : α)
    (h : alGet l k = some v) : (k, v) ∈ l := by
  induction l with
  | nil => cases h
  | cons hd tl ih =>
    by_cases hk : k = hd.1
    · rw [alGet, if_pos hk] at h
      cases hd with
      | mk k2 v2 =>
        cases hk
        cases Option.some.inj h
        exact List.mem_cons_self _ _
    · rw [alGet, if_neg hk] at h
      exact List.mem_cons.mpr (Or.inr (ih h))

theorem alSet_mem {κ α : Type} [DecidableEq κ] (l : List (κ × α)) (k : κ) (v : α)
    (p : κ × α) (h : p ∈ alSet l k v) : p = (k, v) ∨ p ∈ l := by
  induction l with
  | nil =>
    rw [alSet] at h
    rcases List.mem_singleton.mp h with h
    exact Or.inl h
  | cons hd tl ih =>
    rw [alSet] at h
    by_cases hk : k = hd.1
    · rw [if_pos hk] at h
      rcases List.mem_cons.mp h with h | h
      · exact Or.inl h
      · exact Or.inr (List.mem_cons.mpr (Or.inr h))
    · rw [if_neg hk] at h
      rcases List.mem_cons.mp h with h | h
      · exact Or.inr (List.mem_cons.mpr (Or.inl h))
      · rcases ih h with h | h
        · exact Or.inl h
        · exact Or.inr (List.mem_cons.mpr (Or.inr h))

theorem buildParentGroups_members (st : TState) (orgIds : List Nat) :
    ∀ pg ∈ buildParentGroups st orgIds, ∀ i ∈ pg.2, i ∈ orgIds := by
  have main : ∀ (os : List Nat), (∀ x ∈ os, x ∈ orgIds) →
      ∀ (init : List (Nat × List Nat)), (∀ pg ∈ init, ∀ i ∈ pg.2, i ∈ orgIds) →
      ∀ pg ∈ os.foldl
        (fun acc oid =>
          match getNode st oid with
          | none => acc
          | some org =>
            match org.parent with
            | none => acc
            | some pid =>
              match alGet acc pid with
              | none => acc ++ [(pid, [oid])]
              | some g => alSet acc pid (g ++ [oid])) init,
        ∀ i ∈ pg.2, i ∈ orgIds := by
    intro os
    induction os with
    | nil => intro _ init hinit pg hpg; exact hinit pg hpg
    | cons o os ih =>
      intro hos init hinit
      rw [List.foldl_cons]
      apply ih (fun x hx => hos x (List.mem_cons.mpr (Or.inr hx)))
      intro pg hpg i hi
      have ho : o ∈ orgIds := hos o (List.mem_cons.mpr (Or.inl rfl))
      cases hn : getNode st o with
      | none => simp only [hn] at hpg; exact hinit pg hpg i hi
      | some org =>
        simp only [hn] at hpg
        cases hp : org.parent with
        | none => simp only [hp] at hpg; exact hinit pg hpg i hi
        | some pid =>
          simp only [hp] at hpg
          cases hg : alGet init pid with
          | none =>
            simp only [hg] at hpg
            rcases List.mem_append.mp hpg with h | h
            · exact hinit pg h i hi
            · rcases List.mem_singleton.mp h with h
              subst h
              rcases List.mem_singleton.mp hi with h
              subst h
              exact ho
          | some g =>
            simp only [hg] at hpg
            rcases alSet_mem _ _ _ _ hpg with h | h
            · subst h
              rcases List.mem_append.mp hi with h | h
              · exact hinit (pid, g) (alGet_mem _ _ _ hg) i h
              · rcases List.mem_singleton.mp h with h
                subst h
                exact ho
            · exact hinit pg h i hi
  intro pg hpg
  exact main orgIds (fun x h => h) [] (by simp) pg hpg

theorem shiftOrgs_not_mem (pm : PMap) (orgs : List Nat) (shift : Rat) (i : Nat)
    (hi : i ∉ orgs) : alGet (shiftOrgs pm orgs shift) i = alGet pm i := by
  induction orgs generalizing pm with
  | nil => rfl
  | cons o os ih =>
    have hio : i ≠ o := fun h => hi (h ▸ List.mem_cons_self o os)
    have hios : i ∉ os := fun h => hi (List.mem_cons.mpr (Or.inr h))
    rw [shiftOrgs, List.foldl_cons]
    rw [show (os.foldl _ _ : PMap) = shiftOrgs _ os shift from rfl, ih _ hios]
    cases hg : alGet pm o with
    | none => simp only [hg]
    | some p =>
      simp only [hg]
      cases hl : p.left with
      | none => simp only [hl]
      | some x =>
        simp only [hl]
        exact alGet_alUpdate_ne _ pm o i hio

theorem layoutGroup_not_mem (pm : PMap) (group : List Nat) (gl hs : Rat) (i : Nat)
    (hi : i ∉ group) : alGet (layoutGroup pm group gl hs) i = alGet pm i := by
  rw [layoutGroup]
  have main : ∀ (g : List Nat), i ∉ g → ∀ (acc : PMap × Rat),
      alGet (g.foldl
        (fun (acc : PMap × Rat) oid =>
          match alGet acc.1 oid with
          | some p =>
            (alUpdate (fun q => { q with left := some acc.2 }) acc.1 oid,
             acc.2 + p.width + hs)
          | none => acc) acc).1 i = alGet acc.1 i := by
    intro g
    induction g with
    | nil => intro _ acc; rfl
    | cons o os ih =>
      intro hg acc
      have hio : i ≠ o := fun h => hg (h ▸ List.mem_cons_self o os)
      have hios : i ∉ os := fun h => hg (List.mem_cons.mpr (Or.inr h))
      rw [List.foldl_cons, ih hios]
      cases hp : alGet acc.1 o with
      | none => simp only [hp]
      | some p =>
        simp only [hp]
        exact alGet_alUpdate_ne _ acc.1 o i hio
  exact main group hi (pm, gl)

theorem layoutGroups_not_mem (pm : PMap) (cfg : OrgChartConfig) (realAvail : Rat)
    (groups : List (Nat × List Nat)) (i : Nat)
    (hi : ∀ pg ∈ groups, i ∉ pg.2) :
    alGet (layoutGroups pm cfg realAvail groups).1 i = alGet pm i := by
  rw [layoutGroups]
  have main : ∀ (gs : List (Nat × List Nat)), (∀ pg ∈ gs, i ∉ pg.2) →
      ∀ (acc : PMap × List GroupBound),
      alGet (gs.foldl
        (fun (acc : PMap × List GroupBound) pg =>
          let pid := pg.1
          let group := pg.2
          let pm := acc.1
          let totalWidth := groupTotalWidth pm cfg group
          let groupLeft :=
            match alGet pm pid with
            | some pp =>
              match pp.left with
              | some pl => pl + (pp.width - totalWidth) / 2
              | none => centerOrg pm (group.headD 0) realAvail
            | none => centerOrg pm (group.headD 0) realAvail
          let groupLeft := if groupLeft < 0 then 0 else groupLeft
          let groupLeft :=
            if groupLeft + totalWidth > realAvail then realAvail - totalWidth
            else groupLeft
          (layoutGroup pm group groupLeft cfg.horizontalSpacing,
           acc.2 ++ [⟨pid, groupLeft, groupLeft + totalWidth⟩])) acc).1 i
        = alGet acc.1 i := by
    intro gs
    induction gs with
    | nil => intro _ acc; rfl
    | cons g gs ih =>
      intro hgs acc
      rw [List.foldl_cons, ih (fun pg h => hgs pg (List.mem_cons.mpr (Or.inr h)))]
      exact layoutGroup_not_mem _ _ _ _ i (hgs g (List.mem_cons.mpr (Or.inl rfl)))
  exact main groups hi (pm, [])

theorem resolveOverlap_not_mem (pm : PMap) (groups : List (Nat × List Nat))
    (sorted : List GroupBound) (hs : Rat) (i : Nat)
    (hi : ∀ pg ∈ groups, i ∉ pg.2) :
    alGet (resolveOverlap pm groups sorted hs).1 i = alGet pm i := by
  rw [resolveOverlap]
  by_cases ht : totalOverlapOf sorted hs > 0
  · rw [if_pos ht]
    have h1 : ∀ pid, i ∉ ((alGet groups pid).getD []) := by
      intro pid
      cases hg : alGet groups pid with
      | none => simp
      | some g =>
        simpa using hi (pid, g) (alGet_mem _ _ _ hg)
    simp only
    rw [shiftOrgs_not_mem _ _ _ _ (h1 _), shiftOrgs_not_mem _ _ _ _ (h1 _)]
  · rw [if_neg ht]

theorem clampLevel_not_mem (pm : PMap) (groups : List (Nat × List Nat))
    (bounds : List GroupBound) (lb rb : Rat) (i : Nat)
    (hi : ∀ pg ∈ groups, i ∉ pg.2) :
    alGet (clampLevel pm groups bounds lb rb) i = alGet pm i := by
  have main : ∀ (sh : Rat) (gs : List (Nat × List Nat)), (∀ pg ∈ gs, i ∉ pg.2) →
      ∀ (acc : PMap),
      alGet (gs.foldl (fun acc pg => shiftOrgs acc pg.2 sh) acc) i = alGet acc i := by
    intro sh gs
    induction gs with
    | nil => intro _ acc; rfl
    | cons g gs ih =>
      intro hgs acc
      rw [List.foldl_cons, ih (fun pg h => hgs pg (List.mem_cons.mpr (Or.inr h)))]
      exact shiftOrgs_not_mem _ _ _ _ (hgs g (List.mem_cons.mpr (Or.inl rfl)))
  rw [clampLevel.eq_def]
  cases bounds with
  | nil => rfl
  | cons b bs =>
    simp only
    repeat' split
    all_goals first
      | exact main _ groups hi pm
      | rfl

theorem processHorizontalLevel_not_mem (st : TState) (pm : PMap)
    (cfg : OrgChartConfig) (key : Int) (tl : TreeLevel) (i : Nat)
    (hi : i ∉ tl.orgs) :
    alGet (processHorizontalLevel st pm cfg key tl).2 i = alGet pm i := by
  have hgroups : ∀ pg ∈ buildParentGroups st tl.orgs, i ∉ pg.2 := by
    intro pg hpg hmem
    exact hi (buildParentGroups_members st tl.orgs pg hpg i hmem)
  rw [processHorizontalLevel]
  simp only
  rw [clampLevel_not_mem _ _ _ _ _ _ hgroups,
    resolveOverlap_not_mem _ _ _ _ _ hgroups,
    layoutGroups_not_mem _ _ _ _ _ hgroups]

/-- `processHorizontalLevel` only rewrites a level's `emptySpaces`; every
level's orgs and orientation survive. -/
theorem processHorizontalLevel_getLevel (st : TState) (pm : PMap)
    (cfg : OrgChartConfig) (key : Int) (tl : TreeLevel) (l : Int) :
    getLevel (processHorizontalLevel st pm cfg key tl).1 l =
      if l = key then
        (getLevel st l).map fun t =>
          { t with emptySpaces :=
              (emptySpacesFor (processHorizontalLevel st pm cfg key tl).2 tl.orgs
                (realAvailOf cfg tl)) }
      else getLevel st l := by
  by_cases h : l = key
  · subst h
    rw [if_pos rfl]
    exact getLevel_updateLevel_self _ _ _
  · rw [if_neg h]
    exact getLevel_updateLevel_ne _ _ _ _ h

theorem solveLevels_not_mem (cfg : OrgChartConfig) (rootLevel : Int) (i : Nat) :
    ∀ (keys : List Int) (st : TState) (pm : PMap) (skip : Bool),
    (∀ l tl, getLevel st l = some tl → l ≠ rootLevel →
      tl.orientation = some Orientation.horizontal) →
    (∀ l tl, getLevel st l = some tl → l ≠ rootLevel → i ∉ tl.orgs) →
    ∀ st' pm', solveLevels cfg rootLevel keys st pm skip = some (st', pm') →
      alGet pm' i = alGet pm i := by
  intro keys
  induction keys with
  | nil =>
    intro st pm skip _ _ st' pm' h
    cases h
    rfl
  | cons l keys ih =>
    intro st pm skip hhor hnot st' pm' h
    rw [solveLevels] at h
    by_cases hl : l = rootLevel
    · rw [if_pos hl] at h
      exact ih st pm skip hhor hnot st' pm' h
    · rw [if_neg hl] at h
      cases hget : getLevel st l with
      | none =>
        simp only [hget] at h
        exact ih st pm skip hhor hnot st' pm' h
      | some tl =>
        simp only [hget] at h
        have horient : tl.orientation = some Orientation.horizontal :=
          hhor l tl hget hl
        have hskip : ¬(skip = true ∧ tl.orientation ≠ some Orientation.horizontal) := by
          rintro ⟨_, hne⟩
          exact hne horient
        rw [if_neg hskip, if_pos horient] at h
        set r := processHorizontalLevel st pm cfg l tl with hr
        have hpm : alGet r.2 i = alGet pm i :=
          processHorizontalLevel_not_mem st pm cfg l tl i (hnot l tl hget hl)
        have hhor' : ∀ l' tl', getLevel r.1 l' = some tl' → l' ≠ rootLevel →
            tl'.orientation = some Orientation.horizontal := by
          intro l' tl' hget' hne
          rw [processHorizontalLevel_getLevel] at hget'
          by_cases hlk : l' = l
          · rw [if_pos hlk] at hget'
            cases hg2 : getLevel st l' with
            | none => rw [hg2] at hget'; cases hget'
            | some t0 =>
              rw [hg2] at hget'
              cases hget'
              exact hhor l' t0 hg2 hne
          · rw [if_neg hlk] at hget'
            exact hhor l' tl' hget' hne
        have hnot' : ∀ l' tl', getLevel r.1 l' = some tl' → l' ≠ rootLevel →
            i ∉ tl'.orgs := by
          intro l' tl' hget' hne
          rw [processHorizontalLevel_getLevel] at hget'
          by_cases hlk : l' = l
          · rw [if_pos hlk] at hget'
            cases hg2 : getLevel st l' with
            | none => rw [hg2] at hget'; cases hget'
            | some t0 =>
              rw [hg2] at hget'
              cases hget'
              exact hnot l' t0 hg2 hne
          · rw [if_neg hlk] at hget'
            exact hnot l' tl' hget' hne
        rw [ih r.1 r.2 false hhor' hnot' st' pm' h]
        exact hpm

/-! ## Min/max list lemmas -/

theorem listMin_le {l : List Rat} {x : Rat} (hx : x ∈ l) : listMin l ≤ x := by
  cases l with
  | nil => cases hx
  | cons a as =>
    rw [listMin]
    have main : ∀ (as : List Rat) (c : Rat), (∀ y, y = c ∨ y ∈ as → as.foldl min c ≤ y) := by
      intro as
      induction as with
      | nil =>
        intro c y hy
        rcases hy with h | h
        · exact h ▸ le_refl c
        · cases h
      | cons b bs ih =>
        intro c y hy
        rw [List.foldl_cons]
        rcases hy with h | h
        · subst h
          exact le_trans (ih (min y b) (min y b) (Or.inl rfl)) (min_le_left y b)
        · rcases List.mem_cons.mp h with h | h
          · subst h
            exact le_trans (ih (min c y) (min c y) (Or.inl rfl)) (min_le_right c y)
          · exact ih (min c b) y (Or.inr h)
    rcases List.mem_cons.mp hx with h | h
    · exact main as a x (Or.inl h)
    · exact main as a x (Or.inr h)

theorem listMax_ge {l : List Rat} {x : Rat} (hx : x ∈ l) : x ≤ listMax l := by
  cases l with
  | nil => cases hx
  | cons a as =>
    rw [listMax]
    have main : ∀ (as : List Rat) (c : Rat), (∀ y, y = c ∨ y ∈ as → y ≤ as.foldl max c) := by
      intro as
      induction as with
      | nil =>
        intro c y hy
        rcases hy with h | h
        · exact h ▸ le_refl c
        · cases h
      | cons b bs ih =>
        intro c y hy
        rw [List.foldl_cons]
        rcases hy with h | h
        · subst h
          exact le_trans (le_max_left y b) (ih (max y b) (max y b) (Or.inl rfl))
        · rcases List.mem_cons.mp h with h | h
          · subst h
            exact le_trans (le_max_right c y) (ih (max c y) (max c y) (Or.inl rfl))
          · exact ih (max c b) y (Or.inr h)
    rcases List.mem_cons.mp hx with h | h
    · exact main as a x (Or.inl h)
    · exact main as a x (Or.inr h)

theorem listMax_le {l : List Rat} {c : Rat} (hne : l ≠ []) (h : ∀ x ∈ l, x ≤ c) :
    listMax l ≤ c := by
  cases l with
  | nil => exact absurd rfl hne
  | cons a as =>
    rw [listMax]
    have main : ∀ (as : List Rat) (b : Rat), b ≤ c → (∀ x ∈ as, x ≤ c) →
        as.foldl max b ≤ c := by
      intro as
      induction as with
      | nil => intro b hb _; exact hb
      | cons d ds ih =>
        intro b hb hds
        rw [List.foldl_cons]
        refine ih (max b d) (max_le hb (hds d (List.mem_cons_self d ds))) ?_
        intro x hx
        exact hds x (List.mem_cons.mpr (Or.inr hx))
    exact main as a (h a (List.mem_cons_self a as)) fun x hx =>
      h x (List.mem_cons.mpr (Or.inr hx))

theorem listMin_mem {l : List Rat} (hne : l ≠ []) : listMin l ∈ l := by
  cases l with
  | nil => exact absurd rfl hne
  | cons a as =>
    rw [listMin]
    have main : ∀ (as : List Rat) (c : Rat), as.foldl min c = c ∨ as.foldl min c ∈ as := by
      intro as
      induction as with
      | nil => intro c; exact Or.inl rfl
      | cons b bs ih =>
        intro c
        rw [List.foldl_cons]
        rcases ih (min c b) with h | h
        · rcases min_cases c b with ⟨he, _⟩ | ⟨he, _⟩
          · exact Or.inl (h.trans he)
          · exact Or.inr (List.mem_cons.mpr (Or.inl (h.trans he)))
        · exact Or.inr (List.mem_cons.mpr (Or.inr h))
    rcases main as a with h | h
    · exact List.mem_cons.mpr (Or.inl h)
    · exact List.mem_cons.mpr (Or.inr h)

/-- The root-level clamping shift keeps every box that lies within the
tentative `[minLeft, maxRight]` span inside `[0, availableSpace]`, as long
as the span is at most `availableSpace` wide. -/
theorem rootShift_box (cfg : OrgChartConfig) (mn mx l w : Rat)
    (hl : mn ≤ l) (hr : l + w ≤ mx) (hext : mx - mn ≤ cfg.availableSpace) :
    0 ≤ l + rootShift cfg mn mx ∧
    l + rootShift cfg mn mx + w ≤ cfg.availableSpace := by
  rw [rootShift]
  by_cases h1 : mn < 0
  · rw [if_pos h1]
    constructor <;> linarith
  · rw [if_neg h1]
    by_cases h2 : mx > cfg.availableSpace
    · rw [if_pos h2]
      constructor <;> linarith
    · rw [if_neg h2]
      constructor <;> linarith

/-- The root level of `calculateHorizontalPositions` keeps every top box
inside `[0, availableSpace]` whenever the level's total box extent fits. -/
theorem rootStageBound (st : TState) (pm : PMap) (cfg : OrgChartConfig)
    (rootId : Nat) (rootNode : COrg) (topLevel : TreeLevel)
    (hroot : st.root = some rootId) (hnode : getNode st rootId = some rootNode)
    (hlevel : getLevel st rootNode.level = some topLevel)
    (hhor : ∀ l tl, getLevel st l = some tl → l ≠ rootNode.level →
      tl.orientation = some Orientation.horizontal)
    (hnotin : ∀ l tl, getLevel st l = some tl → l ≠ rootNode.level →
      ∀ i ∈ topLevel.orgs, i ∉ tl.orgs)
    (hnd : topLevel.orgs.Nodup)
    (hlen : topLevel.orgs.length ≤ 3)
    (hplaced : ∀ i ∈ topLevel.orgs, ∃ p, alGet pm i = some p ∧ 0 ≤ p.width)
    (hhs : 0 ≤ cfg.horizontalSpacing)
    (hextent :
      (topLevel.orgs.foldl (fun acc i => acc + ((alGet pm i).map (·.width)).getD 0) 0)
        + ((topLevel.orgs.length : Rat) - 1) * cfg.horizontalSpacing
        ≤ cfg.availableSpace) :
    ∀ st' pm', calculateHorizontalPositions st pm cfg = some (st', pm') →
      ∀ i ∈ topLevel.orgs, ∃ p l, alGet pm' i = some p ∧ p.left = some l ∧
        0 ≤ l ∧ l + p.width ≤ cfg.availableSpace := by
  intro st' pm' hrun i hi
  have hpreserve : ∀ (pm2 : PMap) (es : List (Rat × Rat)),
      solveLevels cfg rootNode.level
        ((orderedEntries (updateLevel st rootNode.level
          (fun t => { t with emptySpaces := es }))).map Prod.fst)
        (updateLevel st rootNode.level (fun t => { t with emptySpaces := es }))
        pm2 false = some (st', pm') →
      alGet pm' i = alGet pm2 i := by
    intro pm2 es hrun2
    set st1 := updateLevel st rootNode.level (fun t => { t with emptySpaces := es })
    have hst1get : ∀ l, getLevel st1 l =
        if l = rootNode.level then
          (getLevel st l).map fun t => { t with emptySpaces := es }
        else getLevel st l := by
      intro l
      by_cases h : l = rootNode.level
      · subst h
        rw [if_pos rfl]
        exact getLevel_updateLevel_self _ _ _
      · rw [if_neg h]
        exact getLevel_updateLevel_ne _ _ _ _ h
    refine solveLevels_not_mem cfg rootNode.level i _ st1 pm2 false ?_ ?_ st' pm' hrun2
    · intro l tl hget hne
      rw [hst1get, if_neg hne] at hget
      exact hhor l tl hget hne
    · intro l tl hget hne
      rw [hst1get, if_neg hne] at hget
      exact hnotin l tl hget hne i hi
  cases horgs : topLevel.orgs with
  | nil => rw [horgs] at hi; cases hi
  | cons a rest =>
  cases hrest : rest with
  | cons b rest2 =>
    cases hrest2 : rest2 with
    | cons c3 rest3 =>
      cases hrest3 : rest3 with
      | cons d rest4 =>
        rw [horgs, hrest, hrest2, hrest3] at hlen
        simp at hlen
      | nil =>
        -- three top orgs [a, b, c3]
        subst hrest3 hrest2 hrest
        obtain ⟨pa, hpa, hwa⟩ := hplaced a (by rw [horgs]; simp)
        obtain ⟨pb, hpb, hwb⟩ := hplaced b (by rw [horgs]; simp)
        obtain ⟨pc, hpc, hwc⟩ := hplaced c3 (by rw [horgs]; simp)
        rw [horgs] at hnd
        have hab : a ≠ b := by
          intro h
          rw [h] at hnd
          simp at hnd
        have hac : a ≠ c3 := by
          intro h
          rw [h] at hnd
          simp at hnd
        have hbc : b ≠ c3 := by
          intro h
          rw [h] at hnd
          simp at hnd
        rw [calculateHorizontalPositions] at hrun
        simp only [hroot, hnode, hlevel, horgs, List.head?, hpa] at hrun
        set RL := centerOrg pm a cfg.availableSpace with hRL
        set l1v := RL + pa.width + cfg.horizontalSpacing with hl1v
        set l2v := RL - (pc.width + cfg.horizontalSpacing) with hl2v
        have hlefts : rootLefts pm cfg [a, b, c3] RL pa.width =
            [some RL, some l1v, some l2v] := by
          rw [rootLefts]
          rw [if_pos ⟨by simp, by rw [show ([a, b, c3] : List Nat).getD 1 0 = b from rfl, hpb]; rfl⟩]
          rw [if_pos (by simp)]
          rw [show ([a, b, c3] : List Nat).getD 2 0 = c3 from rfl, hpc]
        rw [hlefts] at hrun
        have hfm : List.filterMap id [some RL, some l1v, some l2v] = [RL, l1v, l2v] := by
          simp [List.filterMap]
        have hmr : rootMaxRight pm [a, b, c3] [some RL, some l1v, some l2v] =
            listMax [RL + pa.width, l1v + pb.width, l2v + pc.width] := by
          rw [rootMaxRight]
          have henum : ([a, b, c3] : List Nat).enum = [(0, a), (1, b), (2, c3)] := rfl
          rw [henum]
          simp only [List.map, hpa, hpb, hpc]
          rfl
        rw [hfm, hmr] at hrun
        set mn := listMin [RL, l1v, l2v] with hmn
        set mx := listMax [RL + pa.width, l1v + pb.width, l2v + pc.width] with hmx
        set sh := rootShift cfg mn mx with hsh
        have hexp : assignRootLefts pm [a, b, c3] [some RL, some l1v, some l2v] sh =
            alUpdate (fun p => { p with left := some (l2v + sh) })
              (alUpdate (fun p => { p with left := some (l1v + sh) })
                (alUpdate (fun p => { p with left := some (RL + sh) }) pm a) b) c3 := by
          rw [assignRootLefts]
          have hh : ([a, b, c3] : List Nat).head? = some a := rfl
          have hg0 : ([some RL, some l1v, some l2v] : List (Option Rat)).getD 0 none =
              some RL := rfl
          have hg1 : ([some RL, some l1v, some l2v] : List (Option Rat)).getD 1 none =
              some l1v := rfl
          have hg2 : ([some RL, some l1v, some l2v] : List (Option Rat)).getD 2 none =
              some l2v := rfl
          have hgd1 : ([a, b, c3] : List Nat).getD 1 0 = b := rfl
          have hgd2 : ([a, b, c3] : List Nat).getD 2 0 = c3 := rfl
          have hlen1 : (([a, b, c3] : List Nat).length > 1) = True := by simp
          have hlen2 : (([a, b, c3] : List Nat).length > 2) = True := by simp
          have hgb : alGet (alUpdate (fun p => { p with left := some (RL + sh) }) pm a) b
              = some pb := by
            rw [alGet_alUpdate_ne _ _ _ _ (Ne.symm hab), hpb]
          have hgc : alGet (alUpdate (fun p => { p with left := some (l1v + sh) })
              (alUpdate (fun p => { p with left := some (RL + sh) }) pm a) b) c3
              = some pc := by
            rw [alGet_alUpdate_ne _ _ _ _ (Ne.symm hbc),
              alGet_alUpdate_ne _ _ _ _ (Ne.symm hac), hpc]
          simp only [hh, hg0, hg1, hg2, hgd1, hgd2, hlen1, hlen2, if_true, hgb, hgc]
        rw [hexp] at hrun
        have hgetfin := hpreserve _ _ hrun
        -- box facts
        have hfold : ([a, b, c3] : List Nat).foldl
            (fun acc i => acc + ((alGet pm i).map (·.width)).getD 0) 0 =
            pa.width + pb.width + pc.width := by
          simp only [List.foldl, hpa, hpb, hpc, Option.map_some', Option.getD_some]
          ring
        rw [horgs, hfold] at hextent
        have hext3 : pa.width + pb.width + pc.width + 2 * cfg.horizontalSpacing ≤
            cfg.availableSpace := by
          have : (([a, b, c3] : List Nat).length : Rat) - 1 = 2 := by norm_num
          rw [this] at hextent
          linarith
        have hextmm : mx - mn ≤ cfg.availableSpace := by
          have hmem := listMin_mem (l := [RL, l1v, l2v]) (by simp)
          rw [← hmn] at hmem
          have hbound : ∀ x ∈ [RL + pa.width, l1v + pb.width, l2v + pc.width],
              x ≤ mn + cfg.availableSpace := by
            intro x hx
            simp only [List.mem_cons, List.not_mem_nil, or_false] at hmem hx
            rcases hmem with h0 | h0 | h0 <;> rcases hx with h1 | h1 | h1 <;>
              subst h1 <;> rw [h0] <;> linarith [hl1v, hl2v]
          have := listMax_le (l := [RL + pa.width, l1v + pb.width, l2v + pc.width])
            (by simp) hbound
          rw [← hmx] at this
          linarith
        rw [horgs] at hi
        simp only [List.mem_cons, List.not_mem_nil, or_false] at hi
        rcases hi with hieq | hieq | hieq
        · subst hieq
          refine ⟨{ pa with left := some (RL + sh) }, RL + sh, ?_, rfl, ?_⟩
          · rw [hgetfin, alGet_alUpdate_ne _ _ _ _ hac, alGet_alUpdate_ne _ _ _ _ hab,
              alGet_alUpdate_self, hpa]
            rfl
          · exact rootShift_box cfg mn mx RL pa.width
              (listMin_le (by simp)) (listMax_ge (by simp)) hextmm
        · subst hieq
          refine ⟨{ pb with left := some (l1v + sh) }, l1v + sh, ?_, rfl, ?_⟩
          · rw [hgetfin, alGet_alUpdate_ne _ _ _ _ hbc, alGet_alUpdate_self,
              alGet_alUpdate_ne _ _ _ _ (Ne.symm hab), hpb]
            rfl
          · exact rootShift_box cfg mn mx l1v pb.width
              (listMin_le (by simp)) (listMax_ge (by simp)) hextmm
        · subst hieq
          refine ⟨{ pc with left := some (l2v + sh) }, l2v + sh, ?_, rfl, ?_⟩
          · rw [hgetfin, alGet_alUpdate_self, alGet_alUpdate_ne _ _ _ _ (Ne.symm hbc),
              alGet_alUpdate_ne _ _ _ _ (Ne.symm hac), hpc]
            rfl
          · exact rootShift_box cfg mn mx l2v pc.width
              (listMin_le (by simp)) (listMax_ge (by simp)) hextmm
    | nil =>
      -- two top orgs [a, b]
      subst hrest2 hrest
      obtain ⟨pa, hpa, hwa⟩ := hplaced a (by rw [horgs]; simp)
      obtain ⟨pb, hpb, hwb⟩ := hplaced b (by rw [horgs]; simp)
      rw [horgs] at hnd
      have hab : a ≠ b := by
        intro h
        rw [h] at hnd
        simp at hnd
      rw [calculateHorizontalPositions] at hrun
      simp only [hroot, hnode, hlevel, horgs, List.head?, hpa] at hrun
      set RL := centerOrg pm a cfg.availableSpace with hRL
      set l1v := RL + pa.width + cfg.horizontalSpacing with hl1v
      have hlefts : rootLefts pm cfg [a, b] RL pa.width = [some RL, some l1v, none] := by
        rw [rootLefts]
        rw [if_pos ⟨by simp, by rw [show ([a, b] : List Nat).getD 1 0 = b from rfl, hpb]; rfl⟩]
        rw [if_neg (by simp)]
      rw [hlefts] at hrun
      have hfm : List.filterMap id [some RL, some l1v, none] = [RL, l1v] := by
        simp [List.filterMap]
      have hmr : rootMaxRight pm [a, b] [some RL, some l1v, none] =
          listMax [RL + pa.width, l1v + pb.width] := by
        rw [rootMaxRight]
        have henum : ([a, b] : List Nat).enum = [(0, a), (1, b)] := rfl
        rw [henum]
        simp only [List.map, hpa, hpb]
        rfl
      rw [hfm, hmr] at hrun
      set mn := listMin [RL, l1v] with hmn
      set mx := listMax [RL + pa.width, l1v + pb.width] with hmx
      set sh := rootShift cfg mn mx with hsh
      have hexp : assignRootLefts pm [a, b] [some RL, some l1v, none] sh =
          alUpdate (fun p => { p with left := some (l1v + sh) })
            (alUpdate (fun p => { p with left := some (RL + sh) }) pm a) b := by
        rw [assignRootLefts]
        have hh : ([a, b] : List Nat).head? = some a := rfl
        have hg0 : ([some RL, some l1v, (none : Option Rat)] : List (Option Rat)).getD 0 none =
            some RL := rfl
        have hg1 : ([some RL, some l1v, (none : Option Rat)] : List (Option Rat)).getD 1 none =
            some l1v := rfl
        have hgd1 : ([a, b] : List Nat).getD 1 0 = b := rfl
        have hlen1 : (([a, b] : List Nat).length > 1) = True := by simp
        have hlen2 : (([a, b] : List Nat).length > 2) = False := by simp
        have hgb : alGet (alUpdate (fun p => { p with left := some (RL + sh) }) pm a) b
            = some pb := by
          rw [alGet_alUpdate_ne _ _ _ _ (Ne.symm hab), hpb]
        simp only [hh, hg0, hg1, hgd1, hlen1, hlen2, if_true, if_false, hgb]
      rw [hexp] at hrun
      have hgetfin := hpreserve _ _ hrun
      have hfold : ([a, b] : List Nat).foldl
          (fun acc i => acc + ((alGet pm i).map (·.width)).getD 0) 0 =
          pa.width + pb.width := by
        simp only [List.foldl, hpa, hpb, Option.map_some', Option.getD_some]
        ring
      rw [horgs, hfold] at hextent
      have hext2 : pa.width + pb.width + cfg.horizontalSpacing ≤ cfg.availableSpace := by
        have : (([a, b] : List Nat).length : Rat) - 1 = 1 := by norm_num
        rw [this] at hextent
        linarith
      have hextmm : mx - mn ≤ cfg.availableSpace := by
        have hmem := listMin_mem (l := [RL, l1v]) (by simp)
        rw [← hmn] at hmem
        have hbound : ∀ x ∈ [RL + pa.width, l1v + pb.width],
            x ≤ mn + cfg.availableSpace := by
          intro x hx
          simp only [List.mem_cons, List.not_mem_nil, or_false] at hmem hx
          rcases hmem with h0 | h0 <;> rcases hx with h1 | h1 <;>
            subst h1 <;> rw [h0] <;> linarith [hl1v]
        have := listMax_le (l := [RL + pa.width, l1v + pb.width]) (by simp) hbound
        rw [← hmx] at this
        linarith
      rw [horgs] at hi
      simp only [List.mem_cons, List.not_mem_nil, or_false] at hi
      rcases hi with hieq | hieq
      · subst hieq
        refine ⟨{ pa with left := some (RL + sh) }, RL + sh, ?_, rfl, ?_⟩
        · rw [hgetfin, alGet_alUpdate_ne _ _ _ _ hab, alGet_alUpdate_self, hpa]
          rfl
        · exact rootShift_box cfg mn mx RL pa.width
            (listMin_le (by simp)) (listMax_ge (by simp)) hextmm
      · subst hieq
        refine ⟨{ pb with left := some (l1v + sh) }, l1v + sh, ?_, rfl, ?_⟩
        · rw [hgetfin, alGet_alUpdate_self, alGet_alUpdate_ne _ _ _ _ (Ne.symm hab), hpb]
          rfl
        · exact rootShift_box cfg mn mx l1v pb.width
            (listMin_le (by simp)) (listMax_ge (by simp)) hextmm
  | nil =>
    -- a single top org [a]
    subst hrest
    obtain ⟨pa, hpa, hwa⟩ := hplaced a (by rw [horgs]; simp)
    rw [calculateHorizontalPositions] at hrun
    simp only [hroot, hnode, hlevel, horgs, List.head?, hpa] at hrun
    set RL := centerOrg pm a cfg.availableSpace with hRL
    have hlefts : rootLefts pm cfg [a] RL pa.width = [some RL, none, none] := by
      rw [rootLefts]
      rw [if_neg (by simp), if_neg (by simp)]
    rw [hlefts] at hrun
    have hfm : List.filterMap id [some RL, none, none] = [RL] := by
      simp [List.filterMap]
    have hmr : rootMaxRight pm [a] [some RL, none, none] = listMax [RL + pa.width] := by
      rw [rootMaxRight]
      have henum : ([a] : List Nat).enum = [(0, a)] := rfl
      rw [henum]
      simp only [List.map, hpa]
      rfl
    rw [hfm, hmr] at hrun
    set mn := listMin [RL] with hmn
    set mx := listMax [RL + pa.width] with hmx
    set sh := rootShift cfg mn mx with hsh
    have hexp : assignRootLefts pm [a] [some RL, none, none] sh =
        alUpdate (fun p => { p with left := some (RL + sh) }) pm a := by
      rw [assignRootLefts]
      have hh : ([a] : List Nat).head? = some a := rfl
      have hg0 : ([some RL, none, (none : Option Rat)] : List (Option Rat)).getD 0 none =
          some RL := rfl
      have hlen1 : (([a] : List Nat).length > 1) = False := by simp
      have hlen2 : (([a] : List Nat).length > 2) = False := by simp
      simp only [hh, hg0, hlen1, hlen2, if_false]
    rw [hexp] at hrun
    have hgetfin := hpreserve _ _ hrun
    have hfold : ([a] : List Nat).foldl
        (fun acc i => acc + ((alGet pm i).map (·.width)).getD 0) 0 = pa.width := by
      simp only [List.foldl, hpa, Option.map_some', Option.getD_some]
      ring
    rw [horgs, hfold] at hextent
    have hext1 : pa.width ≤ cfg.availableSpace := by
      have : (([a] : List Nat).length : Rat) - 1 = 0 := by norm_num
      rw [this] at hextent
      linarith
    have hextmm : mx - mn ≤ cfg.availableSpace := by
      have h1 : mn = RL := rfl
      have h2 : mx = RL + pa.width := rfl
      rw [h1, h2]
      linarith
    rw [horgs] at hi
    rcases List.mem_singleton.mp hi with hieq
    subst hieq
    refine ⟨{ pa with left := some (RL + sh) }, RL + sh, ?_, rfl, ?_⟩
    · rw [hgetfin, alGet_alUpdate_self, hpa]
      rfl
    · exact rootShift_box cfg mn mx RL pa.width
        (listMin_le (by simp)) (listMax_ge (by simp)) hextmm

set_option maxRecDepth 10000 in
/-- C1 counterexample: in `stC1`/`pmC1`/`cfgC1` the level-2 extent is
`99 ≤ 100 = availableSpace`, yet the solver places node 9 at
`left = 107` with width `8`, so its box `[107, 115]` lies entirely
outside `[0, 100]`: the inter-group overlap push (`+11.75`) compounds
with the final clamping shift (`+11.75`) past the right bound. -/
theorem claim_C1_counterexample :
    (getLevel stC1 2).map TreeLevel.orgs = some [6, 7, 8, 9] ∧
    levelExtent pmC1 [6, 7, 8, 9] cfgC1.horizontalSpacing ≤ cfgC1.availableSpace ∧
    (calculateHorizontalPositions stC1 pmC1 cfgC1).bind
      (fun r => (alGet r.2 9).bind OrgPlacement.left) = some 107 ∧
    (calculateHorizontalPositions stC1 pmC1 cfgC1).bind
      (fun r => (alGet r.2 9).map OrgPlacement.width) = some 8 ∧
    cfgC1.availableSpace < (107 : Rat) ∧ (0 : Rat) ≤ (8 : Rat) := by
  refine ⟨rfl, by decide, ?_, ?_, by decide, by decide⟩ <;> decide

/-- C1 (amended): the no-box-fully-outside guarantee holds for the ROOT
level only.  On the root level (all other levels horizontal and disjoint
from it, at most 3 top orgs with placements of nonnegative width,
nonnegative spacing), a total extent within `availableSpace` puts every
top box entirely inside `[0, availableSpace]`.  On non-root levels the
overlap push plus the final clamping shift can move a box entirely
outside `[0, availableSpace]` even when the level extent fits
(`claim_C1_counterexample`). -/
theorem claim_C1 (st : TState) (pm : PMap) (cfg : OrgChartConfig)
    (rootId : Nat) (rootNode : COrg) (topLevel : TreeLevel)
    (hroot : st.root = some rootId) (hnode : getNode st rootId = some rootNode)
    (hlevel : getLevel st rootNode.level = some topLevel)
    (hhor : ∀ l tl, getLevel st l = some tl → l ≠ rootNode.level →
      tl.orientation = some Orientation.horizontal)
    (hnotin : ∀ l tl, getLevel st l = some tl → l ≠ rootNode.level →
      ∀ i ∈ topLevel.orgs, i ∉ tl.orgs)
    (hnd : topLevel.orgs.Nodup)
    (hlen : topLevel.orgs.length ≤ 3)
    (hplaced : ∀ i ∈ topLevel.orgs, ∃ p, alGet pm i = some p ∧ 0 ≤ p.width)
    (hhs : 0 ≤ cfg.horizontalSpacing)
    (hextent : levelExtent pm topLevel.orgs cfg.horizontalSpacing ≤ cfg.availableSpace) :
    ∀ st' pm', calculateHorizontalPositions st pm cfg = some (st', pm') →
      ∀ i ∈ topLevel.orgs, ∃ p l, alGet pm' i = some p ∧ p.left = some l ∧
        0 ≤ l ∧ l + p.width ≤ cfg.availableSpace := by
  refine rootStageBound st pm cfg rootId rootNode topLevel hroot hnode hlevel
    hhor hnotin hnd hlen hplaced hhs ?_
  simpa [levelExtent] using hextent

/-- Witness for the amended C1: on the two-org root level of `stW2`, both
top boxes end inside `[0, 100]`; here we read back org 2's solved box. -/
theorem claim_C1_witness :
    ∃ p l,
      alGet ([(1, { width := 10, height := 5, top := 0, left := some 45 }),
              (2, { width := 20, height := 5, top := 0, left := some 60 })] : PMap) 2
          = some p ∧
      p.left = some l ∧ 0 ≤ l ∧ l + p.width ≤ cfgW.availableSpace := by
  have hlevels2 : ∀ (l : Int) (tl : TreeLevel), getLevel stW2 l = some tl → l ≠ 0 →
      False := by
    intro l tl h hne
    have : getLevel stW2 l = none := by
      show alGet _ l = none
      rw [stW2]
      simp only [alGet, if_neg hne]
    rw [this] at h
    cases h
  exact claim_C1 stW2 pmW2 cfgW 1 (mkCOrg 1 none 0 0 [2])
    { level := 0, orgs := [1, 2], orientation := some Orientation.horizontal }
    rfl rfl rfl
    (fun l tl h hne => absurd (hlevels2 l tl h hne) not_false)
    (fun l tl h hne => absurd (hlevels2 l tl h hne) not_false)
    (by decide) (by decide)
    (by
      intro i hi
      rcases List.mem_cons.mp hi with h | h
      · subst h
        exact ⟨_, rfl, by decide⟩
      · rcases List.mem_cons.mp h with h | h
        · subst h
          exact ⟨_, rfl, by decide⟩
        · cases h)
    (by decide) (by decide)
    { nodes := stW2.nodes,
      levels := [(0, { level := 0, orgs := [1, 2],
                       orientation := some Orientation.horizontal,
                       emptySpaces := [(0, 45), (55, 60), (80, 100)] })],
      root := some 1 }
    [(1, { width := 10, height := 5, top := 0, left := some 45 }),
     (2, { width := 20, height := 5, top := 0, left := some 60 })]
    (by decide) 2 (by decide)

/-! ## Lemmas about the pass-5 skip-flag walk -/

theorem flagLevels_nodes (base : Int) (right : Bool) (n : Nat) (s st' : TState)
    (h : flagLevels base right n s = some st') : st'.nodes = s.nodes := by
  induction n generalizing st' with
  | zero =>
    rw [flagLevels] at h
    cases h
    rfl
  | succ n ih =>
    rw [flagLevels] at h
    cases hmid : flagLevels base right n s with
    | none => rw [hmid] at h; cases h
    | some smid =>
      rw [hmid, Option.some_bind] at h
      cases hget2 : getLevel smid (base + (n : Int) + 1) with
      | none => rw [hget2] at h; cases h
      | some tlmid =>
        rw [hget2] at h
        cases h
        exact ih smid hmid

theorem flagLevels_orgs (base : Int) (right : Bool) (n : Nat) (s st' : TState)
    (h : flagLevels base right n s = some st') :
    ∀ l, (getLevel st' l).map TreeLevel.orgs = (getLevel s l).map TreeLevel.orgs := by
  induction n generalizing st' with
  | zero =>
    rw [flagLevels] at h
    cases h
    intro l
    rfl
  | succ n ih =>
    rw [flagLevels] at h
    cases hmid : flagLevels base right n s with
    | none => rw [hmid] at h; cases h
    | some smid =>
      rw [hmid, Option.some_bind] at h
      cases hget2 : getLevel smid (base + (n : Int) + 1) with
      | none => rw [hget2] at h; cases h
      | some tlmid =>
        rw [hget2] at h
        cases h
        intro l
        by_cases hl : l = base + (n : Int) + 1
        · subst hl
          rw [getLevel_updateLevel_self, hget2, ← ih smid hmid _, hget2]
          cases right <;> rfl
        · rw [getLevel_updateLevel_ne _ _ _ _ hl]
          exact ih smid hmid l

theorem flagLevels_right (base : Int) (n : Nat) (s st' : TState)
    (h : flagLevels base true n s = some st') :
    ∀ i : Nat, i < n → ∃ tl2, getLevel st' (base + (i : Int) + 1) = some tl2 ∧
      tl2.rightSkipLine = true := by
  induction n generalizing st' with
  | zero =>
    intro i hi
    cases Nat.not_lt_zero i hi
  | succ n ih =>
    rw [flagLevels] at h
    cases hmid : flagLevels base true n s with
    | none => rw [hmid] at h; cases h
    | some smid =>
      rw [hmid, Option.some_bind] at h
      cases hget2 : getLevel smid (base + (n : Int) + 1) with
      | none => rw [hget2] at h; cases h
      | some tlmid =>
        rw [hget2] at h
        cases h
        intro i hi
        by_cases hin : i = n
        · subst hin
          refine ⟨{ tlmid with rightSkipLine := true }, ?_, rfl⟩
          rw [getLevel_updateLevel_self, hget2]
          rfl
        · have hlt : i < n := Nat.lt_of_le_of_ne (Nat.lt_succ_iff.mp hi) hin
          obtain ⟨tl2, hg, hflag⟩ := ih smid hmid i hlt
          have hne : base + (i : Int) + 1 ≠ base + (n : Int) + 1 := by
            intro hcontra
            exact hin (by omega)
          exact ⟨tl2, by rw [getLevel_updateLevel_ne _ _ _ _ hne]; exact hg, hflag⟩

theorem flagLevels_left (base : Int) (n : Nat) (s st' : TState)
    (h : flagLevels base false n s = some st') :
    ∀ i : Nat, i < n → ∃ tl2, getLevel st' (base + (i : Int) + 1) = some tl2 ∧
      tl2.leftSkipLine = true := by
  induction n generalizing st' with
  | zero =>
    intro i hi
    cases Nat.not_lt_zero i hi
  | succ n ih =>
    rw [flagLevels] at h
    cases hmid : flagLevels base false n s with
    | none => rw [hmid] at h; cases h
    | some smid =>
      rw [hmid, Option.some_bind] at h
      cases hget2 : getLevel smid (base + (n : Int) + 1) with
      | none => rw [hget2] at h; cases h
      | some tlmid =>
        rw [hget2] at h
        cases h
        intro i hi
        by_cases hin : i = n
        · subst hin
          refine ⟨{ tlmid with leftSkipLine := true }, ?_, rfl⟩
          rw [getLevel_updateLevel_self, hget2]
          rfl
        · have hlt : i < n := Nat.lt_of_le_of_ne (Nat.lt_succ_iff.mp hi) hin
          obtain ⟨tl2, hg, hflag⟩ := ih smid hmid i hlt
          have hne : base + (i : Int) + 1 ≠ base + (n : Int) + 1 := by
            intro hcontra
            exact hin (by omega)
          exact ⟨tl2, by rw [getLevel_updateLevel_ne _ _ _ _ hne]; exact hg, hflag⟩

theorem flagLevels_keepRight (base : Int) (n : Nat) (s st' : TState)
    (h : flagLevels base false n s = some st') :
    ∀ l tl1, getLevel s l = some tl1 → ∃ tl2, getLevel st' l = some tl2 ∧
      tl2.rightSkipLine = tl1.rightSkipLine := by
  induction n generalizing st' with
  | zero =>
    rw [flagLevels] at h
    cases h
    intro l tl1 hg
    exact ⟨tl1, hg, rfl⟩
  | succ n ih =>
    rw [flagLevels] at h
    cases hmid : flagLevels base false n s with
    | none => rw [hmid] at h; cases h
    | some smid =>
      rw [hmid, Option.some_bind] at h
      cases hget2 : getLevel smid (base + (n : Int) + 1) with
      | none => rw [hget2] at h; cases h
      | some tlmid =>
        rw [hget2] at h
        cases h
        intro l tl1 hg
        obtain ⟨tlm, hgm, hrm⟩ := ih smid hmid l tl1 hg
        by_cases hl : l = base + (n : Int) + 1
        · subst hl
          refine ⟨{ tlm with leftSkipLine := true }, ?_, hrm⟩
          rw [getLevel_updateLevel_self, hgm]
          rfl
        · exact ⟨tlm, by rw [getLevel_updateLevel_ne _ _ _ _ hl]; exact hgm, hrm⟩

/-- C6 counterexample: in the leveled `orgC6` heap, level 1 is `[2, 5]`
and BOTH orgs have `lineSkipsLevels = 1`, so org 2 is the first skipping
org and org 5 the last.  The claim says org 2 moves to the START and
org 5 to the END (here: the list stays `[2, 5]`); the code instead moves
the first skipping org to the END and the second to the START, giving
`[5, 2]`. -/
theorem claim_C6_counterexample :
    (getLevel (treeLevelOrgs orgC6 1).1 1).map TreeLevel.orgs = some [2, 5] ∧
    (getNode (treeLevelOrgs orgC6 1).1 2).bind COrg.lineSkipsLevels = some 1 ∧
    (getNode (treeLevelOrgs orgC6 1).1 5).bind COrg.lineSkipsLevels = some 1 ∧
    (calculateLevelOrientations (treeLevelOrgs orgC6 1).1 cfgW).bind
      (fun st => (getLevel st 1).map TreeLevel.orgs) = some [5, 2] ∧
    ([5, 2] : List Nat) ≠ [2, 5] := by
  refine ⟨by decide, by decide, by decide, by decide, by decide⟩

/-- C6 (amended): on a non-root level with at least two skipping orgs
`s1 :: s2 :: rest` (in level order), pass 5 moves the FIRST skipping org
`s1` to the END of the level's list and the SECOND skipping org `s2` to
the START (not first-to-start/last-to-end as claimed); `rightSkipLine` is
set on the `s1.lineSkipsLevels` levels below for `s1` and `leftSkipLine`
on the `s2.lineSkipsLevels` levels below for `s2`. -/
theorem claim_C6 (st : TState) (cfg : OrgChartConfig) (key : Int) (tl : TreeLevel)
    (s1 s2 : Nat) (rest : List Nat)
    (hget : getLevel st key = some tl) (hpos : tl.level > 0)
    (hskip : tl.orgs.filter (skipOrg st) = s1 :: s2 :: rest) :
    ∀ st', pass5Level st cfg key = some st' →
      (getLevel st' key).map TreeLevel.orgs =
        some (s2 :: (tl.orgs.filter (· ∉ ([s1, s2] : List Nat)) ++ [s1])) ∧
      (∀ i : Nat, i < (((getNode st s1).bind (·.lineSkipsLevels)).getD 0).toNat →
        ∃ tl2, getLevel st' (tl.level + (i : Int) + 1) = some tl2 ∧
          tl2.rightSkipLine = true) ∧
      (∀ i : Nat, i < (((getNode st s2).bind (·.lineSkipsLevels)).getD 0).toNat →
        ∃ tl2, getLevel st' (tl.level + (i : Int) + 1) = some tl2 ∧
          tl2.leftSkipLine = true) := by
  intro st' hrun
  rw [pass5Level] at hrun
  simp only [hget] at hrun
  rw [hskip] at hrun
  rw [if_neg (by simp)] at hrun
  rw [if_pos hpos] at hrun
  rw [show (s1 :: s2 :: rest).take 2 = [s1, s2] from rfl] at hrun
  rw [show ([s1, s2] : List Nat).head? = some s1 from rfl] at hrun
  rw [if_pos (by simp)] at hrun
  rw [show ([s1, s2] : List Nat)[1]! = s2 from rfl] at hrun
  simp only [Option.toList, Option.some_bind, List.singleton_append, setFlagsEdge] at hrun
  set f : TreeLevel → TreeLevel :=
    fun t => { t with orgs := s2 :: (tl.orgs.filter (· ∉ ([s1, s2] : List Nat)) ++ [s1]) }
    with hf
  set st1 := updateLevel st key f with hst1
  cases hf1 : flagLevels tl.level true
      (((getNode st1 s1).bind (·.lineSkipsLevels)).getD 0).toNat st1 with
  | none =>
    simp only [hf1, Option.none_bind] at hrun
    cases hrun
  | some st2 =>
    simp only [hf1, Option.some_bind] at hrun
    have hn1 : getNode st1 s1 = getNode st s1 := rfl
    have hnodes2 : st2.nodes = st1.nodes := flagLevels_nodes _ _ _ _ _ hf1
    have hn2 : getNode st2 s2 = getNode st s2 := by
      show alGet st2.nodes s2 = alGet st.nodes s2
      rw [hnodes2]
      rfl
    rw [hn1] at hf1
    rw [hn2] at hrun
    refine ⟨?_, ?_, ?_⟩
    · rw [flagLevels_orgs _ _ _ _ _ hrun key, flagLevels_orgs _ _ _ _ _ hf1 key,
        getLevel_updateLevel_self, hget]
      rfl
    · intro i hi
      obtain ⟨tl2, hg2, hflag⟩ := flagLevels_right _ _ _ _ hf1 i hi
      obtain ⟨tl3, hg3, hkeep⟩ := flagLevels_keepRight _ _ _ _ hrun _ _ hg2
      exact ⟨tl3, hg3, by rw [hkeep, hflag]⟩
    · intro i hi
      exact flagLevels_left _ _ _ _ hrun i hi

/-- Witness for the amended C6: in `stC6w` (level 1 = `[2, 5]`, both
skipping one level) pass 5 produces level order `[5, 2]` and sets both
skip flags on level 2. -/
theorem claim_C6_witness :
    (getLevel stC6out 1).map TreeLevel.orgs =
      some (5 :: (([2, 5] : List Nat).filter (· ∉ ([2, 5] : List Nat)) ++ [2])) ∧
    (∀ i : Nat, i < (((getNode stC6w 2).bind (·.lineSkipsLevels)).getD 0).toNat →
      ∃ tl2, getLevel stC6out (1 + (i : Int) + 1) = some tl2 ∧
        tl2.rightSkipLine = true) ∧
    (∀ i : Nat, i < (((getNode stC6w 5).bind (·.lineSkipsLevels)).getD 0).toNat →
      ∃ tl2, getLevel stC6out (1 + (i : Int) + 1) = some tl2 ∧
        tl2.leftSkipLine = true) :=
  claim_C6 stC6w cfgW 1
    { level := 1, orgs := [2, 5], orientation := some Orientation.horizontal }
    2 5 [] rfl (by decide) (by decide) stC6out (by decide)

/-! ## Sortedness of the stable sort, and pass 4/5 preservation -/

theorem mem_insertLE {α : Type} (le : α → α → Bool) (a x : α) (l : List α) :
    x ∈ insertLE le a l ↔ x = a ∨ x ∈ l := by
  induction l with
  | nil => simp [insertLE]
  | cons b t ih =>
    cases h : le a b
    · rw [insertLE, if_neg (by simp [h])]
      simp only [List.mem_cons, ih]
      tauto
    · rw [insertLE, if_pos (by simp [h])]
      simp only [List.mem_cons]

theorem pairwise_insertLE {α : Type} (le : α → α → Bool)
    (htot : ∀ a b, le a b = false → le b a = true)
    (htrans : ∀ a b c, le a b = true → le b c = true → le a c = true)
    (a : α) (l : List α) (h : l.Pairwise fun x y => le x y = true) :
    (insertLE le a l).Pairwise fun x y => le x y = true := by
  induction l with
  | nil => simp [insertLE]
  | cons b t ih =>
    rw [List.pairwise_cons] at h
    obtain ⟨hb, ht⟩ := h
    cases hab : le a b
    · rw [insertLE, if_neg (by simp [hab])]
      rw [List.pairwise_cons]
      refine ⟨?_, ih ht⟩
      intro x hx
      rcases (mem_insertLE le a x t).mp hx with h1 | h1
      · rw [h1]
        exact htot a b hab
      · exact hb x h1
    · rw [insertLE, if_pos (by simp [hab])]
      rw [List.pairwise_cons]
      refine ⟨?_, List.pairwise_cons.mpr ⟨hb, ht⟩⟩
      intro x hx
      rcases List.mem_cons.mp hx with h1 | h1
      · rw [h1]
        exact hab
      · exact htrans a b x hab (hb x h1)

theorem mem_sortByLE {α : Type} (le : α → α → Bool) (x : α) (l : List α) :
    x ∈ sortByLE le l ↔ x ∈ l := by
  induction l with
  | nil => simp [sortByLE]
  | cons a t ih =>
    rw [sortByLE, mem_insertLE]
    simp [ih]

theorem pairwise_sortByLE {α : Type} (le : α → α → Bool)
    (htot : ∀ a b, le a b = false → le b a = true)
    (htrans : ∀ a b c, le a b = true → le b c = true → le a c = true)
    (l : List α) :
    (sortByLE le l).Pairwise fun x y => le x y = true := by
  induction l with
  | nil => simp [sortByLE]
  | cons a t ih =>
    rw [sortByLE]
    exact pairwise_insertLE le htot htrans a _ ih

theorem origIdxLE_total (st : TState) (a b : Nat) (h : origIdxLE st a b = false) :
    origIdxLE st b a = true := by
  rw [origIdxLE] at h ⊢
  generalize (getNode st a).bind (fun x => x.originalIndex) = oa at h ⊢
  generalize (getNode st b).bind (fun x => x.originalIndex) = ob at h ⊢
  cases oa <;> cases ob <;> simp_all <;> omega

theorem origIdxLE_trans (st : TState) (a b c : Nat)
    (h1 : origIdxLE st a b = true) (h2 : origIdxLE st b c = true) :
    origIdxLE st a c = true := by
  rw [origIdxLE] at h1 h2 ⊢
  generalize (getNode st a).bind (fun x => x.originalIndex) = oa at h1 h2 ⊢
  generalize (getNode st b).bind (fun x => x.originalIndex) = ob at h1 h2 ⊢
  generalize (getNode st c).bind (fun x => x.originalIndex) = oc at h1 h2 ⊢
  cases oa <;> cases ob <;> cases oc <;> simp_all <;> omega

theorem origIdxLE_congr (s t : TState) (h : s.nodes = t.nodes) :
    origIdxLE s = origIdxLE t := by
  funext a b
  have ha : getNode s a = getNode t a := by
    unfold getNode
    rw [h]
  have hb : getNode s b = getNode t b := by
    unfold getNode
    rw [h]
  rw [origIdxLE, origIdxLE, ha, hb]

theorem skipOrg_congr (s t : TState) (h : s.nodes = t.nodes) :
    skipOrg s = skipOrg t := by
  funext oid
  have ho : getNode s oid = getNode t oid := by
    unfold getNode
    rw [h]
  rw [skipOrg, skipOrg, ho]

theorem setFlagsEdge_effect (tlv : Int) (right : Bool) (edge : Option Nat) (s st' : TState)
    (h : setFlagsEdge tlv right edge s = some st') :
    st'.nodes = s.nodes ∧
    ∀ l, (getLevel st' l).map TreeLevel.orgs = (getLevel s l).map TreeLevel.orgs := by
  cases edge with
  | none =>
    rw [setFlagsEdge] at h
    cases h
    exact ⟨rfl, fun l => rfl⟩
  | some eid =>
    rw [setFlagsEdge] at h
    exact ⟨flagLevels_nodes _ _ _ _ _ h, flagLevels_orgs _ _ _ _ _ h⟩

theorem pass5Level_effect (st : TState) (cfg : OrgChartConfig) (key : Int) (st' : TState)
    (h : pass5Level st cfg key = some st') :
    st'.nodes = st.nodes ∧
    ∀ l, l ≠ key → (getLevel st' l).map TreeLevel.orgs =
      (getLevel st l).map TreeLevel.orgs := by
  rw [pass5Level] at h
  cases hget : getLevel st key with
  | none =>
    simp only [hget] at h
    cases h
    exact ⟨rfl, fun l _ => rfl⟩
  | some tl =>
    simp only [hget] at h
    by_cases hlen : (tl.orgs.filter (skipOrg st)).length = 0
    · rw [if_pos hlen] at h
      cases h
      exact ⟨rfl, fun l _ => rfl⟩
    · rw [if_neg hlen] at h
      by_cases hpos : tl.level > 0
      · rw [if_pos hpos] at h
        simp only [Option.bind_eq_some] at h
        obtain ⟨st2, h1, h2⟩ := h
        obtain ⟨hn1, ho1⟩ := setFlagsEdge_effect _ _ _ _ _ h1
        obtain ⟨hn2, ho2⟩ := setFlagsEdge_effect _ _ _ _ _ h2
        refine ⟨hn2.trans hn1, ?_⟩
        intro l hl
        rw [ho2 l, ho1 l, getLevel_updateLevel_ne _ _ _ _ hl]
      · rw [if_neg hpos] at h
        cases hget0 : getLevel st 0 with
        | none =>
          simp only [hget0] at h
          cases h
        | some lvl0 =>
          simp only [hget0, Option.bind_eq_some] at h
          obtain ⟨st2, h1, h2⟩ := h
          obtain ⟨hn1, ho1⟩ := setFlagsEdge_effect _ _ _ _ _ h1
          obtain ⟨hn2, ho2⟩ := setFlagsEdge_effect _ _ _ _ _ h2
          exact ⟨hn2.trans hn1, fun l _ => (ho2 l).trans (ho1 l)⟩

theorem pass5Level_noLevel (st : TState) (cfg : OrgChartConfig) (key : Int)
    (h : getLevel st key = none) : pass5Level st cfg key = some st := by
  rw [pass5Level]
  simp only [h]

theorem pass5Level_noskip (st : TState) (cfg : OrgChartConfig) (key : Int)
    (tl : TreeLevel) (h : getLevel st key = some tl)
    (hfil : tl.orgs.filter (skipOrg st) = []) : pass5Level st cfg key = some st := by
  rw [pass5Level]
  simp only [h]
  rw [hfil]
  rfl

theorem pass45Step_effect (cfg : OrgChartConfig) (s : TState) (k : Int) (s' : TState)
    (h : pass45Step cfg s k = some s') :
    s'.nodes = s.nodes ∧
    ∀ l, l ≠ k → (getLevel s' l).map TreeLevel.orgs =
      (getLevel s l).map TreeLevel.orgs := by
  rw [pass45Step] at h
  cases hget : getLevel s k with
  | none =>
    simp only [hget] at h
    cases h
    exact ⟨rfl, fun l _ => rfl⟩
  | some tl =>
    simp only [hget] at h
    have hup : getLevel (updateLevel s k fun t =>
        { t with orgs := sortByLE (origIdxLE s) tl.orgs }) k =
        some { tl with orgs := sortByLE (origIdxLE s) tl.orgs } := by
      rw [getLevel_updateLevel_self, hget]
      rfl
    simp only [hup] at h
    by_cases hor : ({ tl with orgs := sortByLE (origIdxLE s) tl.orgs } : TreeLevel).orientation
        = some Orientation.horizontal
    · rw [if_pos hor] at h
      obtain ⟨hn, ho⟩ := pass5Level_effect _ _ _ _ h
      refine ⟨hn, ?_⟩
      intro l hl
      rw [ho l hl, getLevel_updateLevel_ne _ _ _ _ hl]
    · rw [if_neg hor] at h
      cases h
      exact ⟨rfl, fun l hl => by rw [getLevel_updateLevel_ne _ _ _ _ hl]⟩

theorem pass45Step_noskip (cfg : OrgChartConfig) (s : TState) (k : Int) (s' : TState)
    (tl : TreeLevel) (hget : getLevel s k = some tl)
    (hnos : ∀ oid ∈ tl.orgs, skipOrg s oid = false)
    (h : pass45Step cfg s k = some s') :
    s'.nodes = s.nodes ∧
    (getLevel s' k).map TreeLevel.orgs = some (sortByLE (origIdxLE s) tl.orgs) := by
  rw [pass45Step] at h
  simp only [hget] at h
  set s1 := updateLevel s k fun t =>
    { t with orgs := sortByLE (origIdxLE s) tl.orgs } with hs1
  have hup : getLevel s1 k = some { tl with orgs := sortByLE (origIdxLE s) tl.orgs } := by
    rw [hs1, getLevel_updateLevel_self, hget]
    rfl
  simp only [hup] at h
  have hnodes1 : s1.nodes = s.nodes := rfl
  have hfil : (sortByLE (origIdxLE s) tl.orgs).filter (skipOrg s1) = [] := by
    rw [skipOrg_congr s1 s hnodes1]
    refine List.filter_eq_nil_iff.mpr ?_
    intro x hx
    rw [hnos x ((mem_sortByLE _ _ _).mp hx)]
    simp
  by_cases hor : ({ tl with orgs := sortByLE (origIdxLE s) tl.orgs } : TreeLevel).orientation
      = some Orientation.horizontal
  · rw [if_pos hor] at h
    rw [pass5Level_noskip s1 cfg k _ hup hfil] at h
    injection h with h
    subst h
    refine ⟨rfl, ?_⟩
    rw [hup]
    rfl
  · rw [if_neg hor] at h
    injection h with h
    subst h
    refine ⟨rfl, ?_⟩
    rw [hup]
    rfl

theorem pass45_fold (cfg : OrgChartConfig) (keys : List Int) (s st' : TState)
    (hfold : keys.foldlM (pass45Step cfg) s = some st') :
    st'.nodes = s.nodes ∧
    ∀ l tl0, getLevel s l = some tl0 →
      (∀ oid ∈ tl0.orgs, skipOrg s oid = false) →
      ((l ∉ keys → (getLevel st' l).map TreeLevel.orgs = some tl0.orgs) ∧
       (l ∈ keys → keys.Nodup →
         (getLevel st' l).map TreeLevel.orgs =
           some (sortByLE (origIdxLE s) tl0.orgs))) := by
  induction keys generalizing s with
  | nil =>
    rw [List.foldlM_nil] at hfold
    cases hfold
    refine ⟨rfl, ?_⟩
    intro l tl0 hget hnos
    refine ⟨?_, ?_⟩
    · intro _
      rw [hget]
      rfl
    · intro hmem _
      cases hmem
  | cons k ks ih =>
    rw [List.foldlM_cons] at hfold
    simp only [Option.bind_eq_bind, Option.bind_eq_some] at hfold
    obtain ⟨s1, hstep, hrest⟩ := hfold
    obtain ⟨hn1, ho1⟩ := pass45Step_effect cfg s k s1 hstep
    obtain ⟨hnodesR, hperR⟩ := ih s1 hrest
    refine ⟨hnodesR.trans hn1, ?_⟩
    intro l tl0 hget hnos
    by_cases hlk : l = k
    · subst hlk
      refine ⟨?_, ?_⟩
      · intro hnot
        exact absurd (List.mem_cons_self l ks) hnot
      · intro _ hnd
        have hlnotks : l ∉ ks := (List.nodup_cons.mp hnd).1
        obtain ⟨hn1', hsorted⟩ := pass45Step_noskip cfg s l s1 tl0 hget hnos hstep
        obtain ⟨tl1, hget1, horgs1⟩ := Option.map_eq_some'.mp hsorted
        have hnos1 : ∀ oid ∈ tl1.orgs, skipOrg s1 oid = false := by
          intro oid hoid
          rw [horgs1] at hoid
          rw [skipOrg_congr s1 s hn1']
          exact hnos oid ((mem_sortByLE _ _ _).mp hoid)
        have := (hperR l tl1 hget1 hnos1).1 hlnotks
        rw [this, horgs1]
    · have ho1l := ho1 l hlk
      rw [hget] at ho1l
      obtain ⟨tl1, hget1, horgs1⟩ := Option.map_eq_some'.mp ho1l
      have hnos1 : ∀ oid ∈ tl1.orgs, skipOrg s1 oid = false := by
        intro oid hoid
        rw [horgs1] at hoid
        rw [skipOrg_congr s1 s hn1]
        exact hnos oid hoid
      obtain ⟨hA, hB⟩ := hperR l tl1 hget1 hnos1
      refine ⟨?_, ?_⟩
      · intro hnot
        have : l ∉ ks := fun hk => hnot (List.mem_cons_of_mem _ hk)
        rw [hA this, horgs1]
      · intro hmem hnd
        have hmemks : l ∈ ks := by
          rcases List.mem_cons.mp hmem with h | h
          · exact absurd h hlk
          · exact h
        rw [hB hmemks (List.nodup_cons.mp hnd).2, horgs1,
          origIdxLE_congr s1 s hn1]

/-- C7 counterexample: after all orientation passes on the leveled
`orgC6`, level 1 is `[5, 2]` while `originalIndex 5 = 1` and
`originalIndex 2 = 0`: the sequence is not ascending, because pass 5
reorders skip-line orgs after pass 4's sort. -/
theorem claim_C7_counterexample :
    (calculateLevelOrientations (treeLevelOrgs orgC6 1).1 cfgW).bind
      (fun st => (getLevel st 1).map TreeLevel.orgs) = some [5, 2] ∧
    (calculateLevelOrientations (treeLevelOrgs orgC6 1).1 cfgW).bind
      (fun st => (getNode st 5).bind COrg.originalIndex) = some 1 ∧
    (calculateLevelOrientations (treeLevelOrgs orgC6 1).1 cfgW).bind
      (fun st => (getNode st 2).bind COrg.originalIndex) = some 0 ∧
    ¬ (1 : Nat) ≤ 0 := by
  refine ⟨by decide, by decide, by decide, by decide⟩

/-- C7 (amended): the ascending-`originalIndex` guarantee holds exactly
for the levels pass 5 leaves alone.  After `calculateLevelOrientations`,
every level that (after passes 1-3) contains no org with positive
`lineSkipsLevels` ends as the stable `originalIndex` sort of its list
(`undefined` sorting last), hence pairwise ascending; levels with
skip-line orgs can end out of order (`claim_C7_counterexample`). -/
theorem claim_C7 (st0 : TState) (cfg : OrgChartConfig) (st' : TState)
    (hrun : calculateLevelOrientations st0 cfg = some st')
    (hnd : ((orientPrefix st0 cfg).levels.map Prod.fst).Nodup)
    (l : Int) (tl0 : TreeLevel)
    (hget : getLevel (orientPrefix st0 cfg) l = some tl0)
    (hnos : ∀ oid ∈ tl0.orgs, skipOrg (orientPrefix st0 cfg) oid = false) :
    ∃ tl', getLevel st' l = some tl' ∧
      tl'.orgs = sortByLE (origIdxLE (orientPrefix st0 cfg)) tl0.orgs ∧
      tl'.orgs.Pairwise (fun a b => origIdxLE st' a b = true) := by
  have hrw : orientPass45 (orientPrefix st0 cfg) cfg = some st' := hrun
  set stp := orientPrefix st0 cfg with hstp
  rw [orientPass45] at hrw
  obtain ⟨hnodes, hper⟩ := pass45_fold cfg _ _ _ hrw
  have hmem : l ∈ stp.levels.map Prod.fst :=
    List.mem_map_of_mem Prod.fst (alGet_mem _ _ _ hget)
  have hfin := (hper l tl0 hget hnos).2 hmem hnd
  obtain ⟨tl', hget', horgs'⟩ := Option.map_eq_some'.mp hfin
  refine ⟨tl', hget', horgs', ?_⟩
  rw [origIdxLE_congr st' stp hnodes, horgs']
  exact pairwise_sortByLE _ (origIdxLE_total stp) (origIdxLE_trans stp) _

/-- Witness for the amended C7: level 1 of `stC7w` holds `[2, 3]` with
`originalIndex` `1, 0` and no skip orgs; after the passes it is the
sorted `[3, 2]`, pairwise ascending. -/
theorem claim_C7_witness :
    ∃ tl', getLevel stC7out 1 = some tl' ∧
      tl'.orgs = sortByLE (origIdxLE (orientPrefix stC7w cfgW))
        ({ level := 1, orgs := [2, 3], orientation := some Orientation.horizontal,
           rightSkipLine := false, leftSkipLine := false,
           emptySpaces := [] } : TreeLevel).orgs ∧
      tl'.orgs.Pairwise (fun a b => origIdxLE stC7out a b = true) :=
  claim_C7 stC7w cfgW stC7out (by decide) (by decide) 1
    { level := 1, orgs := [2, 3], orientation := some Orientation.horizontal,
      rightSkipLine := false, leftSkipLine := false, emptySpaces := [] }
    (by decide) (by decide)

/-- C8: the skip-line start-X choice.  (1) If the level directly below
the parent has neither skip flag, the start X is the center of the
recorded empty-space gap whose center is nearest the parent's center,
falling back to the parent's center with no gaps; (2) with a flag set and
the parent last in its level, it is the parent's right edge minus
`skipLineExtraSpacing / 2`; (3) else if first, the left edge plus
`skipLineExtraSpacing / 2`; (4) else the parent's center.  (5) For a
parent with `lineSkipsLevels > 0` and its child on another level, the
emitted connector starts at exactly that X. -/
theorem claim_C8 (st : TState) (cfg : OrgChartConfig) :
    (∀ (org : COrg) (p : OrgPlacement) (isFirst isLast : Bool) (lvl : TreeLevel),
      getLevel st (org.level + 1) = some lvl →
      lvl.leftSkipLine = false → lvl.rightSkipLine = false →
      skipStartX st cfg org p isFirst isLast =
        some (match closestGap lvl.emptySpaces (p.left.getD 0 + p.width / 2) with
              | some gap => (gap.1 + gap.2) / 2
              | none => p.left.getD 0 + p.width / 2)) ∧
    (∀ (org : COrg) (p : OrgPlacement) (isFirst : Bool) (lvl : TreeLevel),
      getLevel st (org.level + 1) = some lvl →
      (lvl.leftSkipLine = true ∨ lvl.rightSkipLine = true) →
      skipStartX st cfg org p isFirst true =
        some (p.left.getD 0 + p.width - cfg.skipLineExtraSpacing / 2)) ∧
    (∀ (org : COrg) (p : OrgPlacement) (lvl : TreeLevel),
      getLevel st (org.level + 1) = some lvl →
      (lvl.leftSkipLine = true ∨ lvl.rightSkipLine = true) →
      skipStartX st cfg org p true false =
        some (p.left.getD 0 + cfg.skipLineExtraSpacing / 2)) ∧
    (∀ (org : COrg) (p : OrgPlacement) (lvl : TreeLevel),
      getLevel st (org.level + 1) = some lvl →
      (lvl.leftSkipLine = true ∨ lvl.rightSkipLine = true) →
      skipStartX st cfg org p false false =
        some (p.left.getD 0 + p.width / 2)) ∧
    (∀ (pm : PMap) (oid : Nat) (org : COrg) (placement : OrgPlacement)
        (cid : Nat) (child : COrg) (cp : OrgPlacement) (sx : Rat),
      getNode st oid = some org → alGet pm org.id = some placement →
      org.children = [cid] → getNode st cid = some child →
      alGet pm child.id = some cp → child.level ≠ org.level →
      org.lineSkipsLevels.getD 0 > 0 →
      skipStartX st cfg org placement
        (((getLevel st org.level).map
          (fun tl => decide (tl.orgs.head? = some org.id))).getD false)
        (((getLevel st org.level).map
          (fun tl => decide (tl.orgs.getLast? = some org.id))).getD false)
        = some sx →
      ∃ pts, calculateLinesForOrg st pm cfg oid = some [⟨pts⟩] ∧
        pts.head? = some ⟨sx, placement.top + placement.height / 2⟩) := by
  refine ⟨?_, ?_, ?_, ?_, ?_⟩
  · intro org p isFirst isLast lvl hlvl hl hr
    rw [skipStartX]
    simp only [hlvl]
    rw [if_pos ⟨by simp [hl], by simp [hr]⟩]
    cases hg : closestGap lvl.emptySpaces (p.left.getD 0 + p.width / 2) <;>
      first | rfl | simp
  · intro org p isFirst lvl hlvl hflag
    rw [skipStartX]
    simp only [hlvl]
    rw [if_neg (by rcases hflag with h | h <;> simp [h])]
    first | rfl | simp
  · intro org p lvl hlvl hflag
    rw [skipStartX]
    simp only [hlvl]
    rw [if_neg (by rcases hflag with h | h <;> simp [h])]
    first | rfl | simp
  · intro org p lvl hlvl hflag
    rw [skipStartX]
    simp only [hlvl]
    rw [if_neg (by rcases hflag with h | h <;> simp [h])]
    first | rfl | simp
  · intro pm oid org placement cid child cp sx hnode hpm hkids hchild hcp hne hskips hsx
    rw [calculateLinesForOrg]
    simp only [hnode, hpm, hkids]
    rw [if_pos (by simp)]
    simp only [List.foldlM_cons, List.foldlM_nil]
    simp only [hchild, hcp]
    rw [if_neg hne]
    rw [if_pos hskips]
    simp only [hsx]
    exact ⟨_, rfl, rfl⟩

/-- Witness for C8: in `stC8w` the parent is last in its level and the
skipped level is flagged, so its connector starts at
`left + width - skipLineExtraSpacing / 2 = 26`. -/
theorem claim_C8_witness :
    ∃ pts, calculateLinesForOrg stC8w pmC8 cfgW 1 = some [⟨pts⟩] ∧
      pts.head? = some ⟨(26 : Rat), (0 : Rat) + 4 / 2⟩ :=
  (claim_C8 stC8w cfgW).2.2.2.2 pmC8 1
    { title := "n", subtitle := none, weight := none, large := false,
      id := 1, parent := none, level := 0, originalIndex := some 0,
      lineSkipsLevels := some 1, children := [2] }
    { width := 10, height := 4, top := 0, left := some 20 }
    2 (mkCOrg 2 (some 1) 2 0 [])
    { width := 6, height := 4, top := 40, left := some 30 }
    26 rfl rfl rfl rfl rfl (by decide) (by decide) (by decide)

/-! ## Id allocation of the traversal: every id of a call lies in
`[ctr, ctr')`, so sequential calls use disjoint ids -/

theorem alSet_keys {κ α : Type} [DecidableEq κ] (l : List (κ × α)) (k : κ) (v : α)
    (k' : κ) : k' ∈ (alSet l k v).map Prod.fst ↔ k' ∈ l.map Prod.fst ∨ k' = k := by
  induction l with
  | nil => simp [alSet]
  | cons hd tl ih =>
    by_cases h : k = hd.1
    · subst h
      simp [alSet]
      tauto
    · rw [alSet, if_neg h]
      simp only [List.map_cons, List.mem_cons, ih]
      tauto

theorem alUpdate_keys {κ α : Type} [DecidableEq κ] (f : α → α) (l : List (κ × α))
    (k : κ) : (alUpdate f l k).map Prod.fst = l.map Prod.fst := by
  induction l with
  | nil => rfl
  | cons hd tl ih =>
    by_cases h : k = hd.1
    · rw [alUpdate, if_pos h]
      simp
    · rw [alUpdate, if_neg h]
      simp only [List.map_cons, ih]

theorem recordSkip_keys (st : TState) (pid : Nat) (level : Int) (cid : Nat) :
    (recordSkip st pid level cid).nodes.map Prod.fst = st.nodes.map Prod.fst := by
  rw [recordSkip]
  split
  · split
    · exact alUpdate_keys _ _ _
    · rfl
  · rfl

theorem traverseCreate_keys (node : Org) (parent : Option Nat) (level : Int)
    (oi : Nat) (st : TState) (ctr : Nat) (k : Nat) :
    k ∈ (traverseCreate node parent level oi st ctr).nodes.map Prod.fst ↔
      k ∈ st.nodes.map Prod.fst ∨ k = ctr := by
  have h : ∀ s1 : TState,
      (updateLevel (if (getLevel s1 level).isSome then s1
        else setLevel s1 level (mkTreeLevel level [])) level
        (fun tl => { tl with orgs := tl.orgs ++ [ctr] })).nodes = s1.nodes := by
    intro s1
    by_cases hl : (getLevel s1 level).isSome
    · rw [if_pos hl]
      rfl
    · rw [if_neg hl]
      rfl
  simp only [traverseCreate]
  rw [h]
  exact alSet_keys st.nodes ctr _ k

mutual

theorem traverse_keys (o : Org) (parent : Option Nat) (level : Int) (oi : Nat)
    (st : TState) (ctr : Nat) :
    ctr < (traverse o parent level oi st ctr).2.2 ∧
    ∀ k, k ∈ (traverse o parent level oi st ctr).2.1.nodes.map Prod.fst ↔
      (k ∈ st.nodes.map Prod.fst ∨
        (ctr ≤ k ∧ k < (traverse o parent level oi st ctr).2.2)) := by
  obtain ⟨t, sub, w, lg, cs⟩ := o
  have hunf : traverse ⟨t, sub, w, lg, cs⟩ parent level oi st ctr =
      (ctr,
       updateNode (traverseKids cs ctr (level + w.getD 0) 0
         (traverseCreate ⟨t, sub, w, lg, cs⟩ parent (level + w.getD 0) oi st ctr)
         (ctr + 1)).2.1 ctr
         (fun n => { n with children := (traverseKids cs ctr (level + w.getD 0) 0
           (traverseCreate ⟨t, sub, w, lg, cs⟩ parent (level + w.getD 0) oi st ctr)
           (ctr + 1)).1 }),
       (traverseKids cs ctr (level + w.getD 0) 0
         (traverseCreate ⟨t, sub, w, lg, cs⟩ parent (level + w.getD 0) oi st ctr)
         (ctr + 1)).2.2) := by
    rw [traverse]
  simp only [hunf]
  obtain ⟨hk1, hk2⟩ := traverseKids_keys cs ctr (level + w.getD 0) 0
    (traverseCreate ⟨t, sub, w, lg, cs⟩ parent (level + w.getD 0) oi st ctr) (ctr + 1)
  have hupd : (updateNode (traverseKids cs ctr (level + w.getD 0) 0
      (traverseCreate ⟨t, sub, w, lg, cs⟩ parent (level + w.getD 0) oi st ctr)
      (ctr + 1)).2.1 ctr
      (fun n => { n with children := (traverseKids cs ctr (level + w.getD 0) 0
        (traverseCreate ⟨t, sub, w, lg, cs⟩ parent (level + w.getD 0) oi st ctr)
        (ctr + 1)).1 })).nodes.map Prod.fst =
      (traverseKids cs ctr (level + w.getD 0) 0
        (traverseCreate ⟨t, sub, w, lg, cs⟩ parent (level + w.getD 0) oi st ctr)
        (ctr + 1)).2.1.nodes.map Prod.fst := alUpdate_keys _ _ _
  refine ⟨by omega, ?_⟩
  intro k
  rw [hupd, hk2 k, traverseCreate_keys]
  constructor
  · rintro ((h | h) | ⟨h1, h2⟩)
    · exact Or.inl h
    · exact Or.inr ⟨Nat.le_of_eq h.symm, by omega⟩
    · exact Or.inr ⟨by omega, h2⟩
  · rintro (h | ⟨h1, h2⟩)
    · exact Or.inl (Or.inl h)
    · by_cases hk : k = ctr
      · exact Or.inl (Or.inr hk)
      · exact Or.inr ⟨by omega, h2⟩

theorem traverseKids_keys (cs : List Org) (pid : Nat) (level : Int) (i : Nat)
    (st : TState) (ctr : Nat) :
    ctr ≤ (traverseKids cs pid level i st ctr).2.2 ∧
    ∀ k, k ∈ (traverseKids cs pid level i st ctr).2.1.nodes.map Prod.fst ↔
      (k ∈ st.nodes.map Prod.fst ∨
        (ctr ≤ k ∧ k < (traverseKids cs pid level i st ctr).2.2)) := by
  cases cs with
  | nil =>
    simp only [traverseKids]
    refine ⟨Nat.le_refl _, ?_⟩
    intro k
    constructor
    · exact Or.inl
    · rintro (h | ⟨h1, h2⟩)
      · exact h
      · omega
  | cons c rest =>
    have hunf : traverseKids (c :: rest) pid level i st ctr =
        ((traverse c (some pid) (level + 1) i st ctr).1 ::
          (traverseKids rest pid level (i + 1)
            (recordSkip (traverse c (some pid) (level + 1) i st ctr).2.1 pid level
              (traverse c (some pid) (level + 1) i st ctr).1)
            (traverse c (some pid) (level + 1) i st ctr).2.2).1,
         (traverseKids rest pid level (i + 1)
            (recordSkip (traverse c (some pid) (level + 1) i st ctr).2.1 pid level
              (traverse c (some pid) (level + 1) i st ctr).1)
            (traverse c (some pid) (level + 1) i st ctr).2.2).2.1,
         (traverseKids rest pid level (i + 1)
            (recordSkip (traverse c (some pid) (level + 1) i st ctr).2.1 pid level
              (traverse c (some pid) (level + 1) i st ctr).1)
            (traverse c (some pid) (level + 1) i st ctr).2.2).2.2) := by
      rw [traverseKids]
    simp only [hunf]
    obtain ⟨ha1, ha2⟩ := traverse_keys c (some pid) (level + 1) i st ctr
    obtain ⟨hb1, hb2⟩ := traverseKids_keys rest pid level (i + 1)
      (recordSkip (traverse c (some pid) (level + 1) i st ctr).2.1 pid level
        (traverse c (some pid) (level + 1) i st ctr).1)
      (traverse c (some pid) (level + 1) i st ctr).2.2
    have hrs : (recordSkip (traverse c (some pid) (level + 1) i st ctr).2.1 pid level
        (traverse c (some pid) (level + 1) i st ctr).1).nodes.map Prod.fst =
        (traverse c (some pid) (level + 1) i st ctr).2.1.nodes.map Prod.fst :=
      recordSkip_keys _ _ _ _
    refine ⟨by omega, ?_⟩
    intro k
    rw [hb2 k, hrs, ha2 k]
    constructor
    · rintro ((h | ⟨h1, h2⟩) | ⟨h1, h2⟩)
      · exact Or.inl h
      · exact Or.inr ⟨h1, by omega⟩
      · exact Or.inr ⟨by omega, h2⟩
    · rintro (h | ⟨h1, h2⟩)
      · exact Or.inl (Or.inl h)
      · by_cases hk : k < (traverse c (some pid) (level + 1) i st ctr).2.2
        · exact Or.inl (Or.inr ⟨h1, hk⟩)
        · exact Or.inr ⟨by omega, h2⟩

end

theorem demoteFold_keys (ds : List Nat) (s : TState) :
    (ds.foldl demoteStep s).nodes.map Prod.fst = s.nodes.map Prod.fst := by
  induction ds generalizing s with
  | nil => rfl
  | cons d rest ih =>
    rw [List.foldl_cons, ih]
    exact alUpdate_keys _ _ _

theorem demoteTopLevel_keys (st : TState) :
    (demoteTopLevel st).nodes.map Prod.fst = st.nodes.map Prod.fst := by
  simp only [demoteTopLevel]
  split
  · rfl
  · split
    · split
      · exact demoteFold_keys _ _
      · exact demoteFold_keys _ _
    · rfl

theorem treeLevelOrgs_keys (o : Org) (c : Nat) :
    c < (treeLevelOrgs o c).2 ∧
    ∀ k, k ∈ (treeLevelOrgs o c).1.nodes.map Prod.fst ↔
      (c ≤ k ∧ k < (treeLevelOrgs o c).2) := by
  obtain ⟨h1, h2⟩ := traverse_keys o none 0 0
    { nodes := [], levels := [], root := none } c
  have hfst : (treeLevelOrgs o c).1 = demoteTopLevel
      { (traverse o none 0 0 { nodes := [], levels := [], root := none } c).2.1 with
        root := some (traverse o none 0 0 { nodes := [], levels := [], root := none } c).1 } := by
    simp only [treeLevelOrgs, traverseRun]
  have hsnd : (treeLevelOrgs o c).2 =
      (traverse o none 0 0 { nodes := [], levels := [], root := none } c).2.2 := by
    simp only [treeLevelOrgs, traverseRun]
  refine ⟨by rw [hsnd]; exact h1, ?_⟩
  intro k
  rw [hfst, hsnd, demoteTopLevel_keys]
  have := h2 k
  simp only [List.map_nil, List.not_mem_nil, false_or] at this
  exact this

/-- C9 counterexample: two sequential pipeline runs on the same leaf tree
and config.  The first advances the global counter from 1 to 2, so the
second keys its placement map with id 2 instead of 1: the placement
outputs differ. -/
theorem claim_C9_counterexample :
    (pipeline (leafOrg "A" none) cfgW oracleC9 1).2 = 2 ∧
    ((pipeline (leafOrg "A" none) cfgW oracleC9 1).1).map (fun r => r.2.1) =
      some [(1, { width := 10, height := 5, top := 0, left := some 45 })] ∧
    ((pipeline (leafOrg "A" none) cfgW oracleC9 2).1).map (fun r => r.2.1) =
      some [(2, { width := 10, height := 5, top := 0, left := some 45 })] ∧
    ([((1 : Nat), ({ width := 10, height := 5, top := 0, left := some 45 } : OrgPlacement))] ≠
      [(2, { width := 10, height := 5, top := 0, left := some 45 })]) := by
  refine ⟨by decide, by decide, by decide, by decide⟩

/-- C9 (amended): the pipeline is a pure function of the tree, config,
oracle and counter, but the global `orgIdCount` makes sequential runs
observably different.  Every node id allocated by a `treeLevelOrgs` call
entered with counter `c` lies in `[c, c')` where `c' > c` is the returned
counter, and a second call entered at `c'` allocates ids in `[c', c'')`:
the two heaps (and hence the id-keyed placement maps built from them)
share no keys, so sequential outputs are never identical for nonempty
trees. -/
theorem claim_C9 (o1 o2 : Org) (c : Nat) :
    c < (treeLevelOrgs o1 c).2 ∧
    (∀ k, k ∈ (treeLevelOrgs o1 c).1.nodes.map Prod.fst ↔
      (c ≤ k ∧ k < (treeLevelOrgs o1 c).2)) ∧
    (∀ k, k ∈ (treeLevelOrgs o2 (treeLevelOrgs o1 c).2).1.nodes.map Prod.fst ↔
      ((treeLevelOrgs o1 c).2 ≤ k ∧
        k < (treeLevelOrgs o2 (treeLevelOrgs o1 c).2).2)) ∧
    c ∈ (treeLevelOrgs o1 c).1.nodes.map Prod.fst ∧
    (∀ k, k ∈ (treeLevelOrgs o1 c).1.nodes.map Prod.fst →
      k ∉ (treeLevelOrgs o2 (treeLevelOrgs o1 c).2).1.nodes.map Prod.fst) := by
  obtain ⟨h11, h12⟩ := treeLevelOrgs_keys o1 c
  obtain ⟨h21, h22⟩ := treeLevelOrgs_keys o2 (treeLevelOrgs o1 c).2
  refine ⟨h11, h12, h22, ?_, ?_⟩
  · exact (h12 c).mpr ⟨Nat.le_refl c, h11⟩
  · intro k hk hk2
    have ha := (h12 k).mp hk
    have hb := (h22 k).mp hk2
    omega

/-! ## The frame property of `treeLevelOrgs` (claim C10) -/

theorem coreEq_refl (n : COrg) : coreEq n n := ⟨rfl, rfl, rfl, rfl, rfl⟩

theorem coreEq_trans {a b c : COrg} (h1 : coreEq a b) (h2 : coreEq b c) :
    coreEq a c := by
  obtain ⟨x1, x2, x3, x4, x5⟩ := h1
  obtain ⟨y1, y2, y3, y4, y5⟩ := h2
  exact ⟨x1.trans y1, x2.trans y2, x3.trans y3, x4.trans y4, x5.trans y5⟩

theorem getNode_mem_keys (st : TState) (k : Nat) (n : COrg)
    (h : getNode st k = some n) : k ∈ st.nodes.map Prod.fst :=
  List.mem_map_of_mem Prod.fst (alGet_mem _ _ _ h)

mutual

theorem isCopyGe_mono (s1 s2 : TState) (lo : Nat)
    (hkeep : ∀ k n, lo ≤ k → getNode s1 k = some n →
      ∃ n2, getNode s2 k = some n2 ∧ coreEq n2 n)
    (oid : Nat) (o : Org) (h : isCopyGe s1 lo oid o) : isCopyGe s2 lo oid o := by
  obtain ⟨t, sub, w, lg, cs⟩ := o
  rw [isCopyGe] at h ⊢
  obtain ⟨hlo, n, hget, ht, hs, hw, hl, hkids⟩ := h
  obtain ⟨n2, hget2, hc⟩ := hkeep oid n hlo hget
  refine ⟨hlo, n2, hget2, hc.1.trans ht, hc.2.1.trans hs, hc.2.2.1.trans hw,
    hc.2.2.2.1.trans hl, ?_⟩
  rw [hc.2.2.2.2]
  exact areCopiesGe_mono s1 s2 lo hkeep n.children cs hkids

theorem areCopiesGe_mono (s1 s2 : TState) (lo : Nat)
    (hkeep : ∀ k n, lo ≤ k → getNode s1 k = some n →
      ∃ n2, getNode s2 k = some n2 ∧ coreEq n2 n)
    (cids : List Nat) (os : List Org) (h : areCopiesGe s1 lo cids os) :
    areCopiesGe s2 lo cids os := by
  cases os with
  | nil =>
    rw [areCopiesGe] at h ⊢
    exact h
  | cons o os =>
    cases cids with
    | nil =>
      rw [areCopiesGe] at h
      exact h.elim
    | cons cid cids2 =>
      rw [areCopiesGe] at h ⊢
      exact ⟨isCopyGe_mono s1 s2 lo hkeep cid o h.1,
        areCopiesGe_mono s1 s2 lo hkeep cids2 os h.2⟩

end

mutual

theorem isCopyGe_le (st : TState) (lo lo2 : Nat) (hle : lo ≤ lo2)
    (oid : Nat) (o : Org) (h : isCopyGe st lo2 oid o) : isCopyGe st lo oid o := by
  obtain ⟨t, sub, w, lg, cs⟩ := o
  rw [isCopyGe] at h ⊢
  obtain ⟨hlo, n, hget, ht, hs, hw, hl, hkids⟩ := h
  exact ⟨hle.trans hlo, n, hget, ht, hs, hw, hl,
    areCopiesGe_le st lo lo2 hle n.children cs hkids⟩

theorem areCopiesGe_le (st : TState) (lo lo2 : Nat) (hle : lo ≤ lo2)
    (cids : List Nat) (os : List Org) (h : areCopiesGe st lo2 cids os) :
    areCopiesGe st lo cids os := by
  cases os with
  | nil =>
    rw [areCopiesGe] at h ⊢
    exact h
  | cons o os =>
    cases cids with
    | nil =>
      rw [areCopiesGe] at h
      exact h.elim
    | cons cid cids2 =>
      rw [areCopiesGe] at h ⊢
      exact ⟨isCopyGe_le st lo lo2 hle cid o h.1,
        areCopiesGe_le st lo lo2 hle cids2 os h.2⟩

end

theorem recordSkip_cores (s : TState) (pid : Nat) (level : Int) (cid : Nat) :
    ∀ k n, getNode s k = some n →
      ∃ n2, getNode (recordSkip s pid level cid) k = some n2 ∧ coreEq n2 n := by
  intro k n hget
  rw [recordSkip]
  split
  · rename_i x cnode heq
    split
    · by_cases hk : k = pid
      · subst hk
        refine ⟨{ n with lineSkipsLevels := some (cnode.level - (level + 1)) }, ?_, ?_⟩
        · rw [getNode_updateNode_self, hget]
          rfl
        · exact ⟨rfl, rfl, rfl, rfl, rfl⟩
      · exact ⟨n, by rw [getNode_updateNode_ne _ _ _ _ hk]; exact hget, coreEq_refl n⟩
    · exact ⟨n, hget, coreEq_refl n⟩
  · exact ⟨n, hget, coreEq_refl n⟩

theorem demoteStep_cores (s : TState) (d : Nat) :
    ∀ k n, getNode s k = some n →
      ∃ n2, getNode (demoteStep s d) k = some n2 ∧ coreEq n2 n := by
  intro k n hget
  have hnodes : getNode (demoteStep s d) k = getNode (updateNode s d
      (fun n => { n with level := 1 })) k := rfl
  rw [hnodes]
  by_cases hk : k = d
  · subst hk
    refine ⟨{ n with level := 1 }, ?_, ?_⟩
    · rw [getNode_updateNode_self, hget]
      rfl
    · exact ⟨rfl, rfl, rfl, rfl, rfl⟩
  · exact ⟨n, by rw [getNode_updateNode_ne _ _ _ _ hk]; exact hget, coreEq_refl n⟩

theorem demoteFold_cores (ds : List Nat) (s : TState) :
    ∀ k n, getNode s k = some n →
      ∃ n2, getNode (ds.foldl demoteStep s) k = some n2 ∧ coreEq n2 n := by
  induction ds generalizing s with
  | nil => exact fun k n h => ⟨n, h, coreEq_refl n⟩
  | cons d rest ih =>
    intro k n hget
    rw [List.foldl_cons]
    obtain ⟨n1, hget1, hc1⟩ := demoteStep_cores s d k n hget
    obtain ⟨n2, hget2, hc2⟩ := ih (demoteStep s d) k n1 hget1
    exact ⟨n2, hget2, coreEq_trans hc2 hc1⟩

theorem demoteTopLevel_cores (st : TState) :
    ∀ k n, getNode st k = some n →
      ∃ n2, getNode (demoteTopLevel st) k = some n2 ∧ coreEq n2 n := by
  intro k n hget
  simp only [demoteTopLevel]
  split
  · exact ⟨n, hget, coreEq_refl n⟩
  · split
    · split
      · exact demoteFold_cores _ _ k n hget
      · exact demoteFold_cores _ _ k n hget
    · exact ⟨n, hget, coreEq_refl n⟩

theorem demoteFold_root (ds : List Nat) (s : TState) :
    (ds.foldl demoteStep s).root = s.root := by
  induction ds generalizing s with
  | nil => rfl
  | cons d rest ih =>
    rw [List.foldl_cons, ih]
    rfl

theorem demoteTopLevel_root (st : TState) : (demoteTopLevel st).root = st.root := by
  simp only [demoteTopLevel]
  split
  · rfl
  · split
    · split
      · rw [demoteFold_root]
        rfl
      · rw [demoteFold_root]
        rfl
    · rfl

theorem traverseCreate_getNode (node : Org) (parent : Option Nat) (level : Int)
    (oi : Nat) (st : TState) (ctr : Nat) (k : Nat) :
    getNode (traverseCreate node parent level oi st ctr) k =
      alGet (alSet st.nodes ctr
        { title := node.title, subtitle := node.subtitle, weight := node.weight,
          large := node.large, id := ctr, parent := parent, level := level,
          originalIndex := some oi, lineSkipsLevels := none, children := [] }) k := by
  have h : ∀ s1 : TState,
      (updateLevel (if (getLevel s1 level).isSome then s1
        else setLevel s1 level (mkTreeLevel level [])) level
        (fun tl => { tl with orgs := tl.orgs ++ [ctr] })).nodes = s1.nodes := by
    intro s1
    by_cases hl : (getLevel s1 level).isSome
    · rw [if_pos hl]
      rfl
    · rw [if_neg hl]
      rfl
  show alGet _ k = _
  simp only [traverseCreate]
  rw [h]
  rfl

mutual

theorem traverse_copies (o : Org) (parent : Option Nat) (level : Int) (oi : Nat)
    (st : TState) (ctr : Nat)
    (H : ∀ k ∈ st.nodes.map Prod.fst, k < ctr) :
    (traverse o parent level oi st ctr).1 = ctr ∧
    (∀ k n, getNode st k = some n →
      ∃ n2, getNode (traverse o parent level oi st ctr).2.1 k = some n2 ∧
        coreEq n2 n) ∧
    isCopyGe (traverse o parent level oi st ctr).2.1 ctr
      (traverse o parent level oi st ctr).1 o := by
  obtain ⟨t, sub, w, lg, cs⟩ := o
  have hunf : traverse ⟨t, sub, w, lg, cs⟩ parent level oi st ctr =
      (ctr,
       updateNode (traverseKids cs ctr (level + w.getD 0) 0
         (traverseCreate ⟨t, sub, w, lg, cs⟩ parent (level + w.getD 0) oi st ctr)
         (ctr + 1)).2.1 ctr
         (fun n => { n with children := (traverseKids cs ctr (level + w.getD 0) 0
           (traverseCreate ⟨t, sub, w, lg, cs⟩ parent (level + w.getD 0) oi st ctr)
           (ctr + 1)).1 }),
       (traverseKids cs ctr (level + w.getD 0) 0
         (traverseCreate ⟨t, sub, w, lg, cs⟩ parent (level + w.getD 0) oi st ctr)
         (ctr + 1)).2.2) := by
    rw [traverse]
  simp only [hunf]
  have HC : ∀ k ∈ (traverseCreate ⟨t, sub, w, lg, cs⟩ parent (level + w.getD 0) oi
      st ctr).nodes.map Prod.fst, k < ctr + 1 := by
    intro k hk
    rcases (traverseCreate_keys _ _ _ _ _ _ k).mp hk with h | h
    · exact Nat.lt_succ_of_lt (H k h)
    · omega
  obtain ⟨presK, copiesK⟩ := traverseKids_copies cs ctr (level + w.getD 0) 0
    (traverseCreate ⟨t, sub, w, lg, cs⟩ parent (level + w.getD 0) oi st ctr)
    (ctr + 1) HC
  refine ⟨by trivial, ?_, ?_⟩
  · intro k n hget
    have hkctr : k ≠ ctr := by
      have := H k (getNode_mem_keys st k n hget)
      omega
    have hgetC : getNode (traverseCreate ⟨t, sub, w, lg, cs⟩ parent
        (level + w.getD 0) oi st ctr) k = some n := by
      rw [traverseCreate_getNode, alGet_alSet_ne _ _ _ _ hkctr]
      exact hget
    obtain ⟨n2, hget2, hc⟩ := presK k n hgetC
    exact ⟨n2, by rw [getNode_updateNode_ne _ _ _ _ hkctr]; exact hget2, hc⟩
  · have hgetcn : getNode (traverseCreate ⟨t, sub, w, lg, cs⟩ parent
        (level + w.getD 0) oi st ctr) ctr = some
        { title := t, subtitle := sub, weight := w, large := lg, id := ctr,
          parent := parent, level := level + w.getD 0, originalIndex := some oi,
          lineSkipsLevels := none, children := [] } := by
      rw [traverseCreate_getNode]
      exact alGet_alSet_self _ _ _
    obtain ⟨n0, hget0, hc0⟩ := presK ctr _ hgetcn
    rw [isCopyGe]
    have hfin : getNode (updateNode (traverseKids cs ctr (level + w.getD 0) 0
        (traverseCreate ⟨t, sub, w, lg, cs⟩ parent (level + w.getD 0) oi st ctr)
        (ctr + 1)).2.1 ctr
        (fun n => { n with children := (traverseKids cs ctr (level + w.getD 0) 0
          (traverseCreate ⟨t, sub, w, lg, cs⟩ parent (level + w.getD 0) oi st ctr)
          (ctr + 1)).1 })) ctr = some
        { n0 with children := (traverseKids cs ctr (level + w.getD 0) 0
          (traverseCreate ⟨t, sub, w, lg, cs⟩ parent (level + w.getD 0) oi st ctr)
          (ctr + 1)).1 } := by
      rw [getNode_updateNode_self, hget0]
      rfl
    have hA : areCopiesGe (updateNode (traverseKids cs ctr (level + w.getD 0) 0
        (traverseCreate ⟨t, sub, w, lg, cs⟩ parent (level + w.getD 0) oi st ctr)
        (ctr + 1)).2.1 ctr
        (fun n => { n with children := (traverseKids cs ctr (level + w.getD 0) 0
          (traverseCreate ⟨t, sub, w, lg, cs⟩ parent (level + w.getD 0) oi st ctr)
          (ctr + 1)).1 })) ctr
        (traverseKids cs ctr (level + w.getD 0) 0
          (traverseCreate ⟨t, sub, w, lg, cs⟩ parent (level + w.getD 0) oi st ctr)
          (ctr + 1)).1 cs := by
      refine areCopiesGe_le _ ctr (ctr + 1) (Nat.le_succ ctr) _ _ ?_
      refine areCopiesGe_mono _ _ (ctr + 1) ?_ _ _ copiesK
      intro k n hk hget
      have hkne : k ≠ ctr := by omega
      exact ⟨n, by rw [getNode_updateNode_ne _ _ _ _ hkne]; exact hget, coreEq_refl n⟩
    exact ⟨Nat.le_refl ctr, _, hfin, hc0.1, hc0.2.1, hc0.2.2.1, hc0.2.2.2.1, hA⟩

theorem traverseKids_copies (cs : List Org) (pid : Nat) (level : Int) (i : Nat)
    (st : TState) (ctr : Nat)
    (H : ∀ k ∈ st.nodes.map Prod.fst, k < ctr) :
    (∀ k n, getNode st k = some n →
      ∃ n2, getNode (traverseKids cs pid level i st ctr).2.1 k = some n2 ∧
        coreEq n2 n) ∧
    areCopiesGe (traverseKids cs pid level i st ctr).2.1 ctr
      (traverseKids cs pid level i st ctr).1 cs := by
  cases cs with
  | nil =>
    simp only [traverseKids]
    refine ⟨fun k n h => ⟨n, h, coreEq_refl n⟩, ?_⟩
    rw [areCopiesGe]
  | cons c rest =>
    have hunf : traverseKids (c :: rest) pid level i st ctr =
        ((traverse c (some pid) (level + 1) i st ctr).1 ::
          (traverseKids rest pid level (i + 1)
            (recordSkip (traverse c (some pid) (level + 1) i st ctr).2.1 pid level
              (traverse c (some pid) (level + 1) i st ctr).1)
            (traverse c (some pid) (level + 1) i st ctr).2.2).1,
         (traverseKids rest pid level (i + 1)
            (recordSkip (traverse c (some pid) (level + 1) i st ctr).2.1 pid level
              (traverse c (some pid) (level + 1) i st ctr).1)
            (traverse c (some pid) (level + 1) i st ctr).2.2).2.1,
         (traverseKids rest pid level (i + 1)
            (recordSkip (traverse c (some pid) (level + 1) i st ctr).2.1 pid level
              (traverse c (some pid) (level + 1) i st ctr).1)
            (traverse c (some pid) (level + 1) i st ctr).2.2).2.2) := by
      rw [traverseKids]
    simp only [hunf]
    obtain ⟨hA1, presA, copyA⟩ := traverse_copies c (some pid) (level + 1) i st ctr H
    obtain ⟨hk1, hk2⟩ := traverse_keys c (some pid) (level + 1) i st ctr
    have HR : ∀ k ∈ (recordSkip (traverse c (some pid) (level + 1) i st ctr).2.1
        pid level (traverse c (some pid) (level + 1) i st ctr).1).nodes.map Prod.fst,
        k < (traverse c (some pid) (level + 1) i st ctr).2.2 := by
      intro k hk
      rw [recordSkip_keys] at hk
      rcases (hk2 k).mp hk with h | h
      · have := H k h
        omega
      · omega
    obtain ⟨presB, copiesB⟩ := traverseKids_copies rest pid level (i + 1)
      (recordSkip (traverse c (some pid) (level + 1) i st ctr).2.1 pid level
        (traverse c (some pid) (level + 1) i st ctr).1)
      (traverse c (some pid) (level + 1) i st ctr).2.2 HR
    have presAR : ∀ k n, getNode st k = some n →
        ∃ n2, getNode (traverseKids rest pid level (i + 1)
          (recordSkip (traverse c (some pid) (level + 1) i st ctr).2.1 pid level
            (traverse c (some pid) (level + 1) i st ctr).1)
          (traverse c (some pid) (level + 1) i st ctr).2.2).2.1 k = some n2 ∧
          coreEq n2 n := by
      intro k n hget
      obtain ⟨n1, hget1, hc1⟩ := presA k n hget
      obtain ⟨n2, hget2, hc2⟩ := recordSkip_cores _ pid level _ k n1 hget1
      obtain ⟨n3, hget3, hc3⟩ := presB k n2 hget2
      exact ⟨n3, hget3, coreEq_trans (coreEq_trans hc3 hc2) hc1⟩
    refine ⟨presAR, ?_⟩
    rw [areCopiesGe]
    constructor
    · have step1 : isCopyGe (recordSkip (traverse c (some pid) (level + 1) i st ctr).2.1
          pid level (traverse c (some pid) (level + 1) i st ctr).1) ctr
          (traverse c (some pid) (level + 1) i st ctr).1 c := by
        refine isCopyGe_mono _ _ ctr ?_ _ c copyA
        intro k n _ hget
        exact recordSkip_cores _ pid level _ k n hget
      refine isCopyGe_mono _ _ ctr ?_ _ c step1
      intro k n _ hget
      exact presB k n hget
    · exact areCopiesGe_le _ ctr (traverse c (some pid) (level + 1) i st ctr).2.2
        (Nat.le_of_lt hk1) _ _ copiesB

end

/-- C10: `treeLevelOrgs` never mutates the input tree.  In this pure
embedding every annotation is a write to a freshly created arena record
(ids ≥ the entry counter), and the heap holds, for every input node, a
copy whose `title`, `subtitle`, `weight`, `large` and (recursively, in
order) `children` agree with the input exactly; the root copy is the
heap's root. -/
theorem claim_C10 (o : Org) (c : Nat) :
    (treeLevelOrgs o c).1.root = some c ∧
    isCopyGe (treeLevelOrgs o c).1 c c o := by
  obtain ⟨h1, pres, copy⟩ := traverse_copies o none 0 0
    { nodes := [], levels := [], root := none } c (by intro k hk; cases hk)
  have hfst : (treeLevelOrgs o c).1 = demoteTopLevel
      { (traverse o none 0 0 { nodes := [], levels := [], root := none } c).2.1 with
        root := some (traverse o none 0 0 { nodes := [], levels := [], root := none } c).1 } := by
    simp only [treeLevelOrgs, traverseRun]
  rw [h1] at copy
  rw [hfst]
  constructor
  · rw [demoteTopLevel_root, h1]
  · have step1 : isCopyGe
        { (traverse o none 0 0 { nodes := [], levels := [], root := none } c).2.1 with
          root := some (traverse o none 0 0 { nodes := [], levels := [], root := none } c).1 }
        c c o := by
      refine isCopyGe_mono _ _ c ?_ c o copy
      intro k n _ hget
      exact ⟨n, hget, coreEq_refl n⟩
    refine isCopyGe_mono _ _ c ?_ c o step1
    intro k n _ hget
    exact demoteTopLevel_cores _ k n hget

/-! ## Lemmas for the overlap-resolution step -/

theorem shiftOrgs_mem (orgs : List Nat) (pm : PMap) (sh : Rat) (i : Nat)
    (hnd : orgs.Nodup) (hi : i ∈ orgs) (p : OrgPlacement) (l : Rat)
    (hp : alGet pm i = some p) (hl : p.left = some l) :
    alGet (shiftOrgs pm orgs sh) i = some { p with left := some (l + sh) } := by
  induction orgs generalizing pm with
  | nil => cases hi
  | cons o os ih =>
    rw [shiftOrgs, List.foldl_cons,
      show ∀ pm', (os.foldl _ pm' : PMap) = shiftOrgs pm' os sh from fun _ => rfl]
    rcases List.mem_cons.mp hi with h | h
    · subst h
      have hnotos : i ∉ os := (List.nodup_cons.mp hnd).1
      rw [shiftOrgs_not_mem _ _ _ _ hnotos]
      simp only [hp, hl]
      rw [alGet_alUpdate_self, hp]
      simp [hl]
    · have hio : i ≠ o := fun he => (List.nodup_cons.mp hnd).1 (he ▸ h)
      have hnd' := (List.nodup_cons.mp hnd).2
      cases hg : alGet pm o with
      | none =>
        simp only [hg]
        exact ih pm hnd' h hp
      | some q =>
        simp only [hg]
        cases hql : q.left with
        | none =>
          simp only
          exact ih pm hnd' h hp
        | some x =>
          simp only
          exact ih _ hnd' h (by rw [alGet_alUpdate_ne _ _ _ _ hio, hp])

theorem getD_set_zero_last (l : List GroupBound) (x d last : GroupBound)
    (hlen : 2 ≤ l.length) (hl : l.getLast? = some last) :
    (l.set 0 x).getD ((l.set 0 x).length - 1) d = last := by
  rw [List.getD_eq_getElem?_getD, List.length_set,
    List.getElem?_set_ne (by omega : (0 : Nat) ≠ l.length - 1)]
  rw [List.getLast?_eq_getElem?] at hl
  rw [hl]
  rfl

theorem totalOverlapOf_pos_length (sorted : List GroupBound) (hs : Rat)
    (h : totalOverlapOf sorted hs > 0) : 2 ≤ sorted.length := by
  match sorted with
  | [] => rw [totalOverlapOf] at h; simp at h
  | [b] => rw [totalOverlapOf] at h; simp [List.zip] at h
  | a :: b :: rest => simp only [List.length_cons]; omega

theorem pairwise_head_min {l : List GroupBound} (hp : l.Pairwise (fun a b => a.left ≤ b.left))
    (first : GroupBound) (hf : l.head? = some first) :
    ∀ b ∈ l, first.left ≤ b.left := by
  cases l with
  | nil => cases hf
  | cons x xs =>
    cases hf
    intro b hb
    rcases List.mem_cons.mp hb with h | h
    · subst h; exact le_refl _
    · exact (List.pairwise_cons.mp hp).1 b h

theorem pairwise_last_max {l : List GroupBound} (hp : l.Pairwise (fun a b => a.left ≤ b.left))
    (last : GroupBound) (hf : l.getLast? = some last) :
    ∀ b ∈ l, b.left ≤ last.left := by
  induction l with
  | nil => cases hf
  | cons x xs ih =>
    intro b hb
    cases xs with
    | nil =>
      rcases List.mem_singleton.mp hb with h
      subst h
      cases hf
      exact le_refl _
    | cons y ys =>
      rw [List.getLast?_cons_cons] at hf
      rcases List.mem_cons.mp hb with h | h
      · subst h
        have hlst : last ∈ y :: ys := List.mem_of_mem_getLast? hf
        exact (List.pairwise_cons.mp hp).1 last hlst
      · exact ih (List.pairwise_cons.mp hp).2 hf b h

/-- C5: the overlap-resolution step of a non-root horizontal level
(`resolveOverlap`, invoked per level by `processHorizontalLevel` inside
`calculateHorizontalPositions`).  With positive total adjacent overlap `t`
over the left-sorted group bounds, every placed member of the first
(leftmost) group moves left by `t / 2`, every placed member of the last
(rightmost) group moves right by `t / 2`, and members of every other group
are untouched by this step. -/
theorem claim_C5 (pm : PMap) (groups : List (Nat × List Nat))
    (sorted : List GroupBound) (hs : Rat)
    (htpos : totalOverlapOf sorted hs > 0)
    (first last : GroupBound)
    (hfirst : sorted.head? = some first) (hlast : sorted.getLast? = some last)
    (gF gL : List Nat)
    (hgF : alGet groups first.pid = some gF) (hgL : alGet groups last.pid = some gL)
    (hndF : gF.Nodup) (hndL : gL.Nodup) :
    (∀ i ∈ gF, i ∉ gL → ∀ p l, alGet pm i = some p → p.left = some l →
      alGet (resolveOverlap pm groups sorted hs).1 i =
        some { p with left := some (l - totalOverlapOf sorted hs / 2) }) ∧
    (∀ i ∈ gL, i ∉ gF → ∀ p l, alGet pm i = some p → p.left = some l →
      alGet (resolveOverlap pm groups sorted hs).1 i =
        some { p with left := some (l + totalOverlapOf sorted hs / 2) }) ∧
    (∀ i, i ∉ gF → i ∉ gL → alGet (resolveOverlap pm groups sorted hs).1 i = alGet pm i) ∧
    (sorted.Pairwise (fun a b => a.left ≤ b.left) →
      (∀ b ∈ sorted, first.left ≤ b.left) ∧ (∀ b ∈ sorted, b.left ≤ last.left)) := by
  have hlen : 2 ≤ sorted.length := totalOverlapOf_pos_length sorted hs htpos
  have hheadD : sorted.headD ⟨0, 0, 0⟩ = first := by
    cases sorted with
    | nil => cases hfirst
    | cons x xs => cases hfirst; rfl
  have hres : (resolveOverlap pm groups sorted hs).1 =
      shiftOrgs (shiftOrgs pm gF (-(totalOverlapOf sorted hs / 2))) gL
        (totalOverlapOf sorted hs / 2) := by
    rw [resolveOverlap]
    rw [if_pos htpos]
    simp only [hheadD]
    rw [getD_set_zero_last sorted _ _ last hlen hlast]
    simp only [hgF, hgL, Option.getD_some]
  refine ⟨?_, ?_, ?_, ?_⟩
  · intro i hi hnotL p l hp hl
    rw [hres, shiftOrgs_not_mem _ _ _ _ hnotL,
      shiftOrgs_mem gF pm _ i hndF hi p l hp hl]
    congr 2
    ring
  · intro i hi hnotF p l hp hl
    rw [hres]
    refine shiftOrgs_mem gL _ _ i hndL hi p l ?_ hl
    rw [shiftOrgs_not_mem _ _ _ _ hnotF, hp]
  · intro i hnotF hnotL
    rw [hres, shiftOrgs_not_mem _ _ _ _ hnotL, shiftOrgs_not_mem _ _ _ _ hnotF]
  · intro hp
    exact ⟨pairwise_head_min hp first hfirst, pairwise_last_max hp last hlast⟩

/-- Witness for C5: with total overlap 6, group 10's members move left by
3, group 30's member moves right by 3, and group 20's member stays. -/
theorem claim_C5_witness :
    alGet (resolveOverlap pmC5 groupsC5 sortedC5 1).1 1 =
      some { width := 5, height := 5, top := 0, left := some (-3 : Rat) } ∧
    alGet (resolveOverlap pmC5 groupsC5 sortedC5 1).1 4 =
      some { width := 5, height := 5, top := 0, left := some (73 : Rat) } ∧
    alGet (resolveOverlap pmC5 groupsC5 sortedC5 1).1 3 = alGet pmC5 3 := by
  have h := claim_C5 pmC5 groupsC5 sortedC5 1 (by decide)
    ⟨10, 0, 30⟩ ⟨30, 70, 80⟩ rfl rfl [1, 2] [4] rfl rfl (by decide) (by decide)
  refine ⟨?_, ?_, ?_⟩
  · rw [h.1 1 (by decide) (by decide) { width := 5, height := 5, top := 0, left := some 0 } 0
      rfl rfl]
    decide
  · rw [h.2.1 4 (by decide) (by decide) { width := 5, height := 5, top := 0, left := some 70 } 70
      rfl rfl]
    decide
  · exact h.2.2.1 3 (by decide) (by decide)

/-- C4: root-level placement convention.  With exactly two top-level orgs
`[A, B]` and all placements present, after `calculateHorizontalPositions`
B's left is `A.left + A.width + horizontalSpacing` (2nd org goes to the
right of org 0).  With exactly three `[A, B, C]`, the tentative `lefts`
array computed before the clamping shift places C at
`lefts[0] - (C.width + horizontalSpacing)` (3rd org goes to the left of
org 0). -/
theorem claim_C4 (st : TState) (pm : PMap) (cfg : OrgChartConfig)
    (rootId : Nat) (rootNode : COrg) (topLevel : TreeLevel)
    (hroot : st.root = some rootId) (hnode : getNode st rootId = some rootNode)
    (hlevel : getLevel st rootNode.level = some topLevel)
    (hhor : ∀ l tl, getLevel st l = some tl → l ≠ rootNode.level →
      tl.orientation = some Orientation.horizontal)
    (hnotin : ∀ l tl, getLevel st l = some tl → l ≠ rootNode.level →
      ∀ i ∈ topLevel.orgs, i ∉ tl.orgs) :
    (∀ a b pa pb, topLevel.orgs = [a, b] → a ≠ b →
      alGet pm a = some pa → alGet pm b = some pb →
      ∀ st' pm', calculateHorizontalPositions st pm cfg = some (st', pm') →
        ∃ la, (alGet pm' a).bind (·.left) = some la ∧
          (alGet pm' b).bind (·.left) =
            some (la + pa.width + cfg.horizontalSpacing)) ∧
    (∀ a b c3 pc, topLevel.orgs = [a, b, c3] → alGet pm c3 = some pc →
      ∀ rl rw, (rootLefts pm cfg topLevel.orgs rl rw).getD 0 none = some rl ∧
        (rootLefts pm cfg topLevel.orgs rl rw).getD 2 none =
          some (rl - (pc.width + cfg.horizontalSpacing))) := by
  constructor
  · intro a b pa pb horgs hab hpa hpb st' pm' hrun
    rw [calculateHorizontalPositions] at hrun
    simp only [hroot, hnode, hlevel, horgs, List.head?, hpa] at hrun
    set rootLeft := centerOrg pm a cfg.availableSpace with hrl
    have hlefts : rootLefts pm cfg [a, b] rootLeft pa.width =
        [some rootLeft, some (rootLeft + pa.width + cfg.horizontalSpacing), none] := by
      rw [rootLefts]
      have h1 : ([a, b] : List Nat).length > 1 ∧ (alGet pm (([a, b] : List Nat).getD 1 0)).isSome := by
        refine ⟨by simp, ?_⟩
        have : ([a, b] : List Nat).getD 1 0 = b := rfl
        rw [this, hpb]
        rfl
      rw [if_pos h1, if_neg (by simp)]
    rw [hlefts] at hrun
    set shift := rootShift cfg
      (listMin (List.filterMap id
        [some rootLeft, some (rootLeft + pa.width + cfg.horizontalSpacing), none]))
      (rootMaxRight pm [a, b]
        [some rootLeft, some (rootLeft + pa.width + cfg.horizontalSpacing), none])
      with hshift
    have hexp : ∀ sh : Rat, assignRootLefts pm [a, b]
        [some rootLeft, some (rootLeft + pa.width + cfg.horizontalSpacing), none] sh =
        alUpdate (fun p => { p with left := some (rootLeft + pa.width + cfg.horizontalSpacing + sh) })
          (alUpdate (fun p => { p with left := some (rootLeft + sh) }) pm a) b := by
      intro sh
      rw [assignRootLefts]
      have hh : ([a, b] : List Nat).head? = some a := rfl
      have hg0 : ([some rootLeft, some (rootLeft + pa.width + cfg.horizontalSpacing),
          (none : Option Rat)]).getD 0 none = some rootLeft := rfl
      have hg1 : ([some rootLeft, some (rootLeft + pa.width + cfg.horizontalSpacing),
          (none : Option Rat)]).getD 1 none =
          some (rootLeft + pa.width + cfg.horizontalSpacing) := rfl
      have hgd : ([a, b] : List Nat).getD 1 0 = b := rfl
      have hlen1 : (([a, b] : List Nat).length > 1) = True := by simp
      have hlen2 : (([a, b] : List Nat).length > 2) = False := by simp
      have hga : alGet (alUpdate (fun p => { p with left := some (rootLeft + sh) }) pm a) b
          = some pb := by
        rw [alGet_alUpdate_ne _ _ _ _ (Ne.symm hab), hpb]
      simp only [hh, hg0, hg1, hgd, hlen1, hlen2, if_true, if_false, hga]
    have hpm2a : alGet (assignRootLefts pm [a, b]
        [some rootLeft, some (rootLeft + pa.width + cfg.horizontalSpacing), none]
        shift) a = some { pa with left := some (rootLeft + shift) } := by
      rw [hexp]
      rw [alGet_alUpdate_ne _ _ _ _ hab, alGet_alUpdate_self, hpa]
      rfl
    have hpm2b : alGet (assignRootLefts pm [a, b]
        [some rootLeft, some (rootLeft + pa.width + cfg.horizontalSpacing), none]
        shift) b =
          some { pb with left := some (rootLeft + pa.width + cfg.horizontalSpacing + shift) } := by
      rw [hexp]
      rw [alGet_alUpdate_self, alGet_alUpdate_ne _ _ _ _ (Ne.symm hab), hpb]
      rfl
    set pm2 := assignRootLefts pm [a, b]
      [some rootLeft, some (rootLeft + pa.width + cfg.horizontalSpacing), none]
      shift with hpm2
    set st1 := updateLevel st rootNode.level
      (fun t => { t with emptySpaces := emptySpacesFor pm2 [a, b] cfg.availableSpace })
      with hst1
    have hst1get : ∀ l, getLevel st1 l =
        if l = rootNode.level then
          (getLevel st l).map fun t =>
            { t with emptySpaces := emptySpacesFor pm2 [a, b] cfg.availableSpace }
        else getLevel st l := by
      intro l
      by_cases h : l = rootNode.level
      · subst h
        rw [if_pos rfl]
        exact getLevel_updateLevel_self _ _ _
      · rw [if_neg h]
        exact getLevel_updateLevel_ne _ _ _ _ h
    have hhor1 : ∀ l tl, getLevel st1 l = some tl → l ≠ rootNode.level →
        tl.orientation = some Orientation.horizontal := by
      intro l tl hget hne
      rw [hst1get, if_neg hne] at hget
      exact hhor l tl hget hne
    have hfor : ∀ (i : Nat), i ∈ topLevel.orgs →
        ∀ st' pm', solveLevels cfg rootNode.level ((orderedEntries st1).map Prod.fst)
          st1 pm2 false = some (st', pm') → alGet pm' i = alGet pm2 i := by
      intro i himem st'' pm'' hrun2
      refine solveLevels_not_mem cfg rootNode.level i _ st1 pm2 false hhor1 ?_ st'' pm'' hrun2
      intro l tl hget hne
      rw [hst1get, if_neg hne] at hget
      exact hnotin l tl hget hne i himem
    have hruna := hfor a (by rw [horgs]; exact List.mem_cons_self _ _) st' pm' hrun
    have hrunb := hfor b (by rw [horgs]; simp) st' pm' hrun
    refine ⟨rootLeft + shift, ?_, ?_⟩
    · rw [hruna, hpm2a]
      rfl
    · rw [hrunb, hpm2b]
      simp only [Option.bind]
      congr 1
      ring
  · intro a b c3 pc horgs hpc rl rw
    rw [horgs, rootLefts]
    refine ⟨rfl, ?_⟩
    have hsel : ∀ (x y z : Option Rat), ([x, y, z] : List (Option Rat)).getD 2 none = z := by
      intro x y z
      rfl
    rw [hsel]
    have hlen : (([a, b, c3] : List Nat).length > 2) = True := by simp
    have hgd2 : (([a, b, c3] : List Nat).getD 2 0) = c3 := rfl
    simp only [hlen, if_true, hgd2, hpc]

/-- Witness for C4: a two-org top level gets the 2nd org at
`A.left + A.width + spacing`; a three-org top level's tentative `lefts`
place the 3rd org at `lefts[0] - (C.width + spacing)`. -/
theorem claim_C4_witness :
    (∃ la, (alGet [(1, { width := 10, height := 5, top := 0, left := some 45 }),
                   (2, { width := 20, height := 5, top := 0, left := some 60 })] 1).bind
        (OrgPlacement.left) = some la ∧
      (alGet [(1, { width := 10, height := 5, top := 0, left := some 45 }),
              (2, { width := 20, height := 5, top := 0, left := some 60 })] 2).bind
        (OrgPlacement.left) = some (la + (10 : Rat) + cfgW.horizontalSpacing)) ∧
    (rootLefts pmW3 cfgW [1, 2, 3] 45 10).getD 0 none = some 45 ∧
    (rootLefts pmW3 cfgW [1, 2, 3] 45 10).getD 2 none =
      some (45 - ((30 : Rat) + cfgW.horizontalSpacing)) := by
  have hlevels2 : ∀ (l : Int) (tl : TreeLevel), getLevel stW2 l = some tl → l ≠ 0 → False := by
    intro l tl h hne
    have : getLevel stW2 l = none := by
      show alGet _ l = none
      rw [stW2]
      simp only [alGet, if_neg hne]
    rw [this] at h
    cases h
  have hlevels3 : ∀ (l : Int) (tl : TreeLevel), getLevel stW3 l = some tl → l ≠ 0 → False := by
    intro l tl h hne
    have : getLevel stW3 l = none := by
      show alGet _ l = none
      rw [stW3]
      simp only [alGet, if_neg hne]
    rw [this] at h
    cases h
  constructor
  · exact (claim_C4 stW2 pmW2 cfgW 1 (mkCOrg 1 none 0 0 [2])
      { level := 0, orgs := [1, 2], orientation := some Orientation.horizontal }
      rfl rfl rfl
      (fun l tl h hne => absurd (hlevels2 l tl h hne) not_false)
      (fun l tl h hne => absurd (hlevels2 l tl h hne) not_false)).1
      1 2 { width := 10, height := 5, top := 0 } { width := 20, height := 5, top := 0 }
      rfl (by decide) rfl rfl
      { nodes := stW2.nodes,
        levels := [(0, { level := 0, orgs := [1, 2],
                         orientation := some Orientation.horizontal,
                         emptySpaces := [(0, 45), (55, 60), (80, 100)] })],
        root := some 1 }
      [(1, { width := 10, height := 5, top := 0, left := some 45 }),
       (2, { width := 20, height := 5, top := 0, left := some 60 })]
      (by decide)
  · exact (claim_C4 stW3 pmW3 cfgW 1 (mkCOrg 1 none 0 0 [2, 3])
      { level := 0, orgs := [1, 2, 3], orientation := some Orientation.horizontal }
      rfl rfl rfl
      (fun l tl h hne => absurd (hlevels3 l tl h hne) not_false)
      (fun l tl h hne => absurd (hlevels3 l tl h hne) not_false)).2
      1 2 3 { width := 30, height := 5, top := 0 } rfl rfl 45 10


theorem alGet_none_not_mem {κ α : Type} [DecidableEq κ] (L : List (κ × α)) (k : κ)
    (h : alGet L k = none) : k ∉ L.map Prod.fst := by
  induction L with
  | nil => simp
  | cons hd tl ih =>
    by_cases hk : k = hd.1
    · rw [alGet, if_pos hk] at h
      cases h
    · rw [alGet, if_neg hk] at h
      simp only [List.map_cons, List.mem_cons]
      rintro (h' | h')
      · exact hk h'
      · exact ih h h'

theorem mem_keys_of_alGet {κ α : Type} [DecidableEq κ] (L : List (κ × α)) (k : κ)
    (v : α) (h : alGet L k = some v) : k ∈ L.map Prod.fst :=
  List.mem_map.mpr ⟨(k, v), alGet_mem L k v h, rfl⟩

theorem alGet_of_mem_nodup {κ α : Type} [DecidableEq κ] (L : List (κ × α)) (k : κ)
    (v : α) (hnd : (L.map Prod.fst).Nodup) (h : (k, v) ∈ L) : alGet L k = some v := by
  induction L with
  | nil => cases h
  | cons hd tl ih =>
    rw [List.map_cons, List.nodup_cons] at hnd
    rcases List.mem_cons.mp h with he | h'
    · cases hd with
      | mk k2 v2 =>
        injection he with h1 h2
        subst h1
        subst h2
        rw [alGet, if_pos rfl]
    · by_cases hk : k = hd.1
      · exfalso
        apply hnd.1
        subst hk
        exact List.mem_map.mpr ⟨(hd.1, v), h', rfl⟩
      · rw [alGet, if_neg hk]
        exact ih hnd.2 h'

theorem alGet_map_values {κ α β : Type} [DecidableEq κ] (g : α → β)
    (L : List (κ × α)) (k : κ) :
    alGet (L.map fun e => (e.1, g e.2)) k = (alGet L k).map g := by
  induction L with
  | nil => rfl
  | cons hd tl ih =>
    by_cases hk : k = hd.1
    · simp [alGet, hk]
    · simp [alGet, hk, ih]

theorem sum_map_one_add (f : Int → Nat) (L : List Int) :
    (L.map fun x => 1 + f x).sum = L.length + (L.map f).sum := by
  induction L with
  | nil => rfl
  | cons a L ih =>
    simp only [List.map_cons, List.sum_cons, List.length_cons, ih]
    omega

theorem sum_map_filter_le (f : Int → Nat) (p : Int → Bool) (L : List Int) :
    ((L.filter p).map f).sum ≤ (L.map f).sum := by
  induction L with
  | nil => exact Nat.le_refl 0
  | cons a L ih =>
    rw [List.filter_cons]
    by_cases hp : p a = true
    · rw [if_pos hp]
      simp only [List.map_cons, List.sum_cons]
      omega
    · rw [if_neg hp]
      simp only [List.map_cons, List.sum_cons]
      omega

theorem sum_filter_remove (f : Int → Nat) (L : List Int) (hnd : L.Nodup)
    (vis : List Int) (l : Int) (hl : l ∈ L) (hnv : l ∉ vis) :
    ((L.filter fun x => decide (x ∉ vis ++ [l])).map f).sum + f l =
      ((L.filter fun x => decide (x ∉ vis)).map f).sum := by
  induction L with
  | nil => cases hl
  | cons a L ih =>
    rw [List.nodup_cons] at hnd
    rw [List.filter_cons, List.filter_cons]
    rcases List.mem_cons.mp hl with he | hl'
    · subst he
      rw [if_neg (by simp), if_pos (by simp [hnv])]
      rw [List.map_cons, List.sum_cons]
      have hfc : (L.filter fun x => decide (x ∉ vis ++ [l])) =
          L.filter fun x => decide (x ∉ vis) := by
        apply List.filter_congr
        intro x hx
        have hxl : x ≠ l := fun h => hnd.1 (h ▸ hx)
        apply decide_eq_decide.mpr
        simp [List.mem_append, hxl]
      rw [hfc]
      omega
    · have ha : a ≠ l := fun h => hnd.1 (h ▸ hl')
      by_cases hv : a ∈ vis
      · rw [if_neg (by simp [List.mem_append, hv]), if_neg (by simp [hv])]
        exact ih hnd.2 hl'
      · rw [if_pos (by simp [List.mem_append, hv, ha]), if_pos (by simp [hv])]
        rw [List.map_cons, List.sum_cons, List.map_cons, List.sum_cons]
        have := ih hnd.2 hl'
        omega

theorem dfsPot_lt_fuel (st : TState) (l : Int) (vis : List Int)
    (hl : l ∈ st.levels.map Prod.fst) :
    dfsPot st [l] vis < pass2Fuel st := by
  rw [dfsPot, pass2Fuel]
  have h1 : ((((st.levels.map Prod.fst).dedup).filter fun x =>
        decide (x ∉ vis)).map fun x => (succLevels st x).length).sum ≤
      (((st.levels.map Prod.fst).dedup).map fun x => (succLevels st x).length).sum :=
    sum_map_filter_le _ _ _
  have h2 : (((st.levels.map Prod.fst).dedup).map fun x =>
        1 + (succLevels st x).length).sum =
      ((st.levels.map Prod.fst).dedup).length +
        (((st.levels.map Prod.fst).dedup).map fun x => (succLevels st x).length).sum :=
    sum_map_one_add _ _
  have h3 : ((st.levels.map Prod.fst).dedup) ≠ [] :=
    List.ne_nil_of_mem (List.mem_dedup.mpr hl)
  have h4 : 0 < ((st.levels.map Prod.fst).dedup).length := List.length_pos.mpr h3
  simp only [List.length_cons, List.length_nil]
  omega

theorem dfsVisit_spec (st : TState) :
    ∀ fuel stack vis,
      dfsPot st stack vis < fuel →
      (∀ l ∈ vis, ∀ m ∈ succLevels st l, m ∈ vis ∨ m ∈ stack) →
      (∀ l ∈ vis, l ∈ dfsVisit st fuel stack vis) ∧
      (∀ l ∈ stack, l ∈ dfsVisit st fuel stack vis) ∧
      (∀ l ∈ dfsVisit st fuel stack vis, ∀ m ∈ succLevels st l,
        m ∈ dfsVisit st fuel stack vis) := by
  intro fuel
  induction fuel with
  | zero =>
    intro stack vis hpot _
    exact absurd hpot (Nat.not_lt_zero _)
  | succ fuel ih =>
    intro stack vis hpot hinv
    cases stack with
    | nil =>
      have he : dfsVisit st (fuel + 1) [] vis = vis := rfl
      rw [he]
      refine ⟨fun l hl => hl, fun l hl => absurd hl (List.not_mem_nil _), ?_⟩
      intro l hl m hm
      rcases hinv l hl m hm with h | h
      · exact h
      · exact absurd h (List.not_mem_nil _)
    | cons l stack' =>
      by_cases hlv : l ∈ vis
      · have he : dfsVisit st (fuel + 1) (l :: stack') vis =
            dfsVisit st fuel stack' vis := by
          rw [dfsVisit, if_pos hlv]
        rw [he]
        have hstep : dfsPot st (l :: stack') vis = dfsPot st stack' vis + 1 := by
          rw [dfsPot, dfsPot, List.length_cons]
          omega
        have hinv' : ∀ a ∈ vis, ∀ m ∈ succLevels st a, m ∈ vis ∨ m ∈ stack' := by
          intro a ha m hm
          rcases hinv a ha m hm with h | h
          · exact Or.inl h
          · rcases List.mem_cons.mp h with he2 | h'
            · exact Or.inl (he2 ▸ hlv)
            · exact Or.inr h'
        obtain ⟨h1, h2, h3⟩ := ih stack' vis (by omega) hinv'
        refine ⟨h1, ?_, h3⟩
        intro a ha
        rcases List.mem_cons.mp ha with he2 | h'
        · exact he2 ▸ h1 l hlv
        · exact h2 a h'
      · cases hg : getLevel st l with
        | none =>
          have he : dfsVisit st (fuel + 1) (l :: stack') vis =
              dfsVisit st fuel stack' (vis ++ [l]) := by
            rw [dfsVisit, if_neg hlv, hg]
          rw [he]
          have hlk : l ∉ st.levels.map Prod.fst := alGet_none_not_mem _ _ hg
          have hfil : (((st.levels.map Prod.fst).dedup).filter fun x =>
                decide (x ∉ vis ++ [l])) =
              ((st.levels.map Prod.fst).dedup).filter fun x => decide (x ∉ vis) := by
            apply List.filter_congr
            intro x hx
            have hxl : x ≠ l := fun h => hlk (h ▸ List.mem_dedup.mp hx)
            apply decide_eq_decide.mpr
            simp [List.mem_append, hxl]
          have hpot' : dfsPot st stack' (vis ++ [l]) < fuel := by
            rw [dfsPot] at hpot ⊢
            rw [hfil, List.length_cons] at *
            omega
          have hsl : succLevels st l = [] := by rw [succLevels, hg]
          have hinv' : ∀ a ∈ vis ++ [l], ∀ m ∈ succLevels st a,
              m ∈ vis ++ [l] ∨ m ∈ stack' := by
            intro a ha m hm
            rcases List.mem_append.mp ha with ha | ha
            · rcases hinv a ha m hm with h | h
              · exact Or.inl (List.mem_append.mpr (Or.inl h))
              · rcases List.mem_cons.mp h with he2 | h'
                · exact Or.inl (List.mem_append.mpr (Or.inr (by simp [he2])))
                · exact Or.inr h'
            · have hal : a = l := List.mem_singleton.mp ha
              rw [hal, hsl] at hm
              cases hm
          obtain ⟨h1, h2, h3⟩ := ih stack' (vis ++ [l]) hpot' hinv'
          refine ⟨fun a ha => h1 a (List.mem_append.mpr (Or.inl ha)), ?_, h3⟩
          intro a ha
          rcases List.mem_cons.mp ha with he2 | h'
          · exact h1 a (List.mem_append.mpr (Or.inr (by simp [he2])))
          · exact h2 a h'
        | some tl =>
          have he : dfsVisit st (fuel + 1) (l :: stack') vis =
              dfsVisit st fuel (succLevels st l ++ stack') (vis ++ [l]) := by
            rw [dfsVisit, if_neg hlv, hg]
          rw [he]
          have hlk : l ∈ st.levels.map Prod.fst := mem_keys_of_alGet _ _ _ hg
          have hld : l ∈ (st.levels.map Prod.fst).dedup := List.mem_dedup.mpr hlk
          have hsum : ((((st.levels.map Prod.fst).dedup).filter fun x =>
                decide (x ∉ vis ++ [l])).map fun x => (succLevels st x).length).sum +
              (succLevels st l).length =
              ((((st.levels.map Prod.fst).dedup).filter fun x =>
                decide (x ∉ vis)).map fun x => (succLevels st x).length).sum :=
            sum_filter_remove _ _ (List.nodup_dedup _) vis l hld hlv
          have hpot' : dfsPot st (succLevels st l ++ stack') (vis ++ [l]) < fuel := by
            rw [dfsPot] at hpot ⊢
            rw [List.length_append, List.length_cons] at *
            omega
          have hinv' : ∀ a ∈ vis ++ [l], ∀ m ∈ succLevels st a,
              m ∈ vis ++ [l] ∨ m ∈ succLevels st l ++ stack' := by
            intro a ha m hm
            rcases List.mem_append.mp ha with ha | ha
            · rcases hinv a ha m hm with h | h
              · exact Or.inl (List.mem_append.mpr (Or.inl h))
              · rcases List.mem_cons.mp h with he2 | h'
                · exact Or.inl (List.mem_append.mpr (Or.inr (by simp [he2])))
                · exact Or.inr (List.mem_append.mpr (Or.inr h'))
            · have hal : a = l := List.mem_singleton.mp ha
              rw [hal] at hm
              exact Or.inr (List.mem_append.mpr (Or.inl hm))
          obtain ⟨h1, h2, h3⟩ := ih _ _ hpot' hinv'
          refine ⟨fun a ha => h1 a (List.mem_append.mpr (Or.inl ha)), ?_, h3⟩
          intro a ha
          rcases List.mem_cons.mp ha with he2 | h'
          · exact h1 a (List.mem_append.mpr (Or.inr (by simp [he2])))
          · exact h2 a (List.mem_append.mpr (Or.inr h'))


theorem alGet_alUpdate {κ α : Type} [DecidableEq κ] (f : α → α) (L : List (κ × α))
    (k k' : κ) :
    alGet (alUpdate f L k) k' =
      if k' = k then (alGet L k').map f else alGet L k' := by
  induction L with
  | nil =>
    rw [alUpdate]
    split
    · rfl
    · rfl
  | cons hd tl ih =>
    by_cases hk : k = hd.1
    · rw [alUpdate, if_pos hk]
      by_cases hk' : k' = hd.1
      · rw [alGet, if_pos hk', alGet, if_pos hk', if_pos (hk'.trans hk.symm)]
        rfl
      · rw [alGet, if_neg hk', alGet, if_neg hk', if_neg (fun h => hk' (h.trans hk))]
    · rw [alUpdate, if_neg hk]
      by_cases hk' : k' = hd.1
      · rw [alGet, if_pos hk', alGet, if_pos hk', if_neg (fun h => hk (h.symm.trans hk'))]
      · rw [alGet, if_neg hk', alGet, if_neg hk', ih]

theorem getLevel_updateLevel (s : TState) (a : Int) (f : TreeLevel → TreeLevel)
    (l : Int) :
    getLevel (updateLevel s a f) l =
      if l = a then (getLevel s l).map f else getLevel s l :=
  alGet_alUpdate f s.levels a l

theorem getNode_updateNode (s : TState) (a : Nat) (f : COrg → COrg) (k : Nat) :
    getNode (updateNode s a f) k =
      if k = a then (getNode s k).map f else getNode s k :=
  alGet_alUpdate f s.nodes a k

theorem isSome_congr_of_map_eq {α β : Type} (f : α → β) (o1 o2 : Option α)
    (h : o1.map f = o2.map f) : o1.isSome = o2.isSome := by
  cases o1 <;> cases o2 <;> simp_all

theorem mem_succLevels_of (s : TState) (l : Int) (tl : TreeLevel) (oid : Nat)
    (n : COrg) (c : Nat) (nc : COrg) (hg : getLevel s l = some tl)
    (ho : oid ∈ tl.orgs) (hn : getNode s oid = some n) (hc : c ∈ n.children)
    (hnc : getNode s c = some nc) : nc.level ∈ succLevels s l := by
  rw [succLevels, hg]
  apply List.mem_flatten.mpr
  refine ⟨n.children.filterMap fun cid => (getNode s cid).map (·.level), ?_, ?_⟩
  · apply List.mem_map.mpr
    exact ⟨oid, ho, by rw [hn]⟩
  · exact List.mem_filterMap.mpr ⟨c, hc, by rw [hnc]; rfl⟩

theorem succLevels_congr (s1 s2 : TState)
    (hL : ∀ l, (getLevel s1 l).map (fun t => t.orgs) =
      (getLevel s2 l).map (fun t => t.orgs))
    (hN : ∀ k, (getNode s1 k).map (fun n => (n.children, n.level)) =
      (getNode s2 k).map (fun n => (n.children, n.level))) :
    ∀ l, succLevels s1 l = succLevels s2 l := by
  intro l
  have hLl := hL l
  cases hg1 : getLevel s1 l with
  | none =>
    rw [hg1] at hLl
    cases hg2 : getLevel s2 l with
    | none => simp only [succLevels, hg1, hg2]
    | some tl2 =>
      rw [hg2] at hLl
      cases hLl
  | some tl1 =>
    rw [hg1] at hLl
    cases hg2 : getLevel s2 l with
    | none =>
      rw [hg2] at hLl
      cases hLl
    | some tl2 =>
      rw [hg2] at hLl
      have horgs : tl1.orgs = tl2.orgs := Option.some.inj hLl
      simp only [succLevels, hg1, hg2]
      rw [horgs]
      congr 1
      apply List.map_congr_left
      intro oid _
      have hNo := hN oid
      cases hn1 : getNode s1 oid with
      | none =>
        rw [hn1] at hNo
        cases hn2 : getNode s2 oid with
        | none => simp only [hn1, hn2]
        | some n2 => rw [hn2] at hNo; cases hNo
      | some n1 =>
        rw [hn1] at hNo
        cases hn2 : getNode s2 oid with
        | none => rw [hn2] at hNo; cases hNo
        | some n2 =>
          rw [hn2] at hNo
          have hpair := Option.some.inj hNo
          have hch : n1.children = n2.children := congrArg Prod.fst hpair
          simp only [hn1, hn2]
          rw [hch]
          apply List.filterMap_congr
          intro cid _
          have hNc := hN cid
          cases hc1 : getNode s1 cid with
          | none =>
            rw [hc1] at hNc
            cases hc2 : getNode s2 cid with
            | none => simp only [hc1, hc2]
            | some m2 => rw [hc2] at hNc; cases hNc
          | some m1 =>
            rw [hc1] at hNc
            cases hc2 : getNode s2 cid with
            | none => rw [hc2] at hNc; cases hNc
            | some m2 =>
              rw [hc2] at hNc
              have hpl : m1.level = m2.level :=
                congrArg Prod.snd (Option.some.inj hNc)
              simp only [hc1, hc2, Option.map_some']
              rw [hpl]

theorem dfsVisit_congr (s1 s2 : TState)
    (hP : ∀ l, (getLevel s1 l).isSome = (getLevel s2 l).isSome)
    (hS : ∀ l, succLevels s1 l = succLevels s2 l) :
    ∀ fuel stack vis, dfsVisit s1 fuel stack vis = dfsVisit s2 fuel stack vis := by
  intro fuel
  induction fuel with
  | zero => intro stack vis; rfl
  | succ fuel ih =>
    intro stack vis
    cases stack with
    | nil => rfl
    | cons l stack' =>
      rw [dfsVisit, dfsVisit]
      by_cases hlv : l ∈ vis
      · rw [if_pos hlv, if_pos hlv]
        exact ih _ _
      · rw [if_neg hlv, if_neg hlv]
        have hPl := hP l
        cases hg1 : getLevel s1 l with
        | none =>
          have hg2 : getLevel s2 l = none := by
            rw [hg1] at hPl
            cases hgg : getLevel s2 l with
            | none => rfl
            | some tl2 => rw [hgg] at hPl; cases hPl
          rw [hg2]
          exact ih stack' (vis ++ [l])
        | some tl =>
          obtain ⟨tl2, hg2⟩ : ∃ tl2, getLevel s2 l = some tl2 := by
            rw [hg1] at hPl
            cases hgg : getLevel s2 l with
            | none => rw [hgg] at hPl; cases hPl
            | some tl2 => exact ⟨tl2, rfl⟩
          rw [hg2]
          show dfsVisit s1 fuel (succLevels s1 l ++ stack') (vis ++ [l]) =
            dfsVisit s2 fuel (succLevels s2 l ++ stack') (vis ++ [l])
          rw [hS]
          exact ih _ _

theorem pass2Fuel_congr (s1 s2 : TState)
    (hK : s1.levels.map Prod.fst = s2.levels.map Prod.fst)
    (hS : ∀ l, succLevels s1 l = succLevels s2 l) :
    pass2Fuel s1 = pass2Fuel s2 := by
  rw [pass2Fuel, pass2Fuel, hK]
  congr 1
  congr 1
  apply List.map_congr_left
  intro x _
  rw [hS]

theorem dfsVisit_prefix (st : TState) :
    ∀ fuel stack vis, ∃ rest, dfsVisit st fuel stack vis = vis ++ rest := by
  intro fuel
  induction fuel with
  | zero => intro stack vis; exact ⟨[], (List.append_nil _).symm⟩
  | succ fuel ih =>
    intro stack vis
    cases stack with
    | nil => exact ⟨[], (List.append_nil _).symm⟩
    | cons l stack' =>
      rw [dfsVisit]
      by_cases hlv : l ∈ vis
      · rw [if_pos hlv]
        exact ih _ _
      · rw [if_neg hlv]
        cases hg : getLevel st l with
        | none =>
          obtain ⟨r, hr⟩ := ih stack' (vis ++ [l])
          exact ⟨[l] ++ r, by rw [hr, List.append_assoc]⟩
        | some tl =>
          obtain ⟨r, hr⟩ := ih (succLevels st l ++ stack') (vis ++ [l])
          exact ⟨[l] ++ r, by rw [hr, List.append_assoc]⟩

theorem updFold_nodes (os : List Nat) :
    ∀ (s : TState) (k : Nat),
      (getNode (os.foldl (fun s2 oid =>
          updateNode s2 oid fun n => { n with lineSkipsLevels := none }) s) k).map
        (fun n => (n.children, n.level)) =
      (getNode s k).map (fun n => (n.children, n.level)) := by
  induction os with
  | nil => intro s k; rfl
  | cons a os ih =>
    intro s k
    rw [List.foldl_cons, ih, getNode_updateNode]
    split
    · cases getNode s k <;> rfl
    · rfl

theorem updFold_levels (os : List Nat) :
    ∀ (s : TState),
      (os.foldl (fun s2 oid =>
        updateNode s2 oid fun n => { n with lineSkipsLevels := none }) s).levels =
      s.levels := by
  induction os with
  | nil => intro s; rfl
  | cons a os ih =>
    intro s
    rw [List.foldl_cons, ih]
    rfl

theorem updFold_getLevel (os : List Nat) (s : TState) (l : Int) :
    getLevel (os.foldl (fun s2 oid =>
        updateNode s2 oid fun n => { n with lineSkipsLevels := none }) s) l =
      getLevel s l := by
  rw [getLevel, getLevel, updFold_levels]

theorem avm_cons_none (s : TState) (a : Int) (vis : List Int)
    (hg : getLevel s a = none) :
    applyVerticalMutations s (a :: vis) = applyVerticalMutations s vis := by
  rw [applyVerticalMutations, List.foldl_cons, hg]
  rfl


theorem avm_cons_some (s : TState) (a : Int) (vis : List Int) (tl : TreeLevel)
    (hg : getLevel s a = some tl) :
    applyVerticalMutations s (a :: vis) =
      applyVerticalMutations
        (tl.orgs.foldl
          (fun s2 oid => updateNode s2 oid fun n => { n with lineSkipsLevels := none })
          (updateLevel s a fun t =>
            { t with orientation := some Orientation.vertical,
                     leftSkipLine := false, rightSkipLine := false })) vis := by
  rw [applyVerticalMutations, List.foldl_cons, hg]
  rfl

theorem avm_levels (vis : List Int) :
    ∀ (s : TState) (l : Int),
      (getLevel (applyVerticalMutations s vis) l).map (fun t => t.orgs) =
        (getLevel s l).map (fun t => t.orgs) := by
  induction vis with
  | nil => intro s l; rfl
  | cons a vis ih =>
    intro s l
    cases hg : getLevel s a with
    | none =>
      rw [avm_cons_none s a vis hg]
      exact ih s l
    | some tl =>
      rw [avm_cons_some s a vis tl hg, ih, updFold_getLevel, getLevel_updateLevel]
      split
      · cases getLevel s l <;> rfl
      · rfl

theorem avm_keys (vis : List Int) :
    ∀ (s : TState),
      (applyVerticalMutations s vis).levels.map Prod.fst = s.levels.map Prod.fst := by
  induction vis with
  | nil => intro s; rfl
  | cons a vis ih =>
    intro s
    cases hg : getLevel s a with
    | none =>
      rw [avm_cons_none s a vis hg]
      exact ih s
    | some tl =>
      rw [avm_cons_some s a vis tl hg, ih, updFold_levels]
      show (alUpdate _ s.levels a).map Prod.fst = _
      rw [alUpdate_keys]

theorem avm_nodes (vis : List Int) :
    ∀ (s : TState) (k : Nat),
      (getNode (applyVerticalMutations s vis) k).map (fun n => (n.children, n.level)) =
        (getNode s k).map (fun n => (n.children, n.level)) := by
  induction vis with
  | nil => intro s k; rfl
  | cons a vis ih =>
    intro s k
    cases hg : getLevel s a with
    | none =>
      rw [avm_cons_none s a vis hg]
      exact ih s k
    | some tl =>
      rw [avm_cons_some s a vis tl hg, ih, updFold_nodes]
      rfl

theorem avm_orient_notmem (vis : List Int) :
    ∀ (s : TState) (l : Int), l ∉ vis →
      getLevel (applyVerticalMutations s vis) l = getLevel s l := by
  induction vis with
  | nil => intro s l _; rfl
  | cons a vis ih =>
    intro s l hl
    have hla : l ≠ a := fun h => hl (h ▸ List.mem_cons_self _ _)
    have hlv : l ∉ vis := fun h => hl (List.mem_cons.mpr (Or.inr h))
    cases hg : getLevel s a with
    | none =>
      rw [avm_cons_none s a vis hg]
      exact ih s l hlv
    | some tl =>
      rw [avm_cons_some s a vis tl hg, ih _ _ hlv, updFold_getLevel,
        getLevel_updateLevel, if_neg hla]

theorem avm_orient_mem (vis : List Int) :
    ∀ (s : TState) (l : Int), l ∈ vis →
      ∀ tl', getLevel (applyVerticalMutations s vis) l = some tl' →
        tl'.orientation = some Orientation.vertical := by
  induction vis with
  | nil => intro s l hl; cases hl
  | cons a vis ih =>
    intro s l hl tl' hget
    by_cases hlv : l ∈ vis
    · cases hg : getLevel s a with
      | none =>
        rw [avm_cons_none s a vis hg] at hget
        exact ih _ _ hlv _ hget
      | some tl =>
        rw [avm_cons_some s a vis tl hg] at hget
        exact ih _ _ hlv _ hget
    · have hla : l = a := by
        rcases List.mem_cons.mp hl with h | h
        · exact h
        · exact absurd h hlv
      subst hla
      cases hg : getLevel s l with
      | none =>
        rw [avm_cons_none s l vis hg, avm_orient_notmem vis s l hlv, hg] at hget
        cases hget
      | some tl =>
        rw [avm_cons_some s l vis tl hg, avm_orient_notmem vis _ l hlv,
          updFold_getLevel, getLevel_updateLevel, if_pos rfl, hg] at hget
        cases Option.some.inj hget
        rfl

theorem orientPass2_eq (st : TState) :
    orientPass2 st = ((st.levels.map Prod.fst).foldl p2step (st, [])).1 := rfl

theorem pass3Collect_eq (st : TState) :
    pass3Collect st = (st.levels.map Prod.fst).foldl p3outer (st, []) := rfl

theorem pass3Move_eq (st : TState) (moves : List (Nat × Int × Int)) :
    pass3Move st moves = moves.foldl p3move st := rfl

theorem p2step_none (acc : TState × List Int) (a : Int)
    (hg : getLevel acc.1 a = none) : p2step acc a = acc := by
  rw [p2step, hg]

theorem p2step_nv (acc : TState × List Int) (a : Int) (tl : TreeLevel)
    (hg : getLevel acc.1 a = some tl)
    (hv : ¬ tl.orientation = some Orientation.vertical) : p2step acc a = acc := by
  simp only [p2step, hg]
  rw [if_neg hv]

theorem p2step_v (acc : TState × List Int) (a : Int) (tl : TreeLevel)
    (hg : getLevel acc.1 a = some tl)
    (hv : tl.orientation = some Orientation.vertical) :
    p2step acc a =
      (applyVerticalMutations acc.1
        ((dfsVisit acc.1 (pass2Fuel acc.1) [a] acc.2).drop acc.2.length),
       dfsVisit acc.1 (pass2Fuel acc.1) [a] acc.2) := by
  simp only [p2step, hg]
  rw [if_pos hv]

theorem orientPass2_go (st : TState) :
    ∀ (keys : List Int) (acc : TState × List Int),
      (∀ k ∈ keys, k ∈ st.levels.map Prod.fst) →
      acc.1.levels.map Prod.fst = st.levels.map Prod.fst →
      (∀ l, (getLevel acc.1 l).map (fun t => t.orgs) =
        (getLevel st l).map (fun t => t.orgs)) →
      (∀ k, (getNode acc.1 k).map (fun n => (n.children, n.level)) =
        (getNode st k).map (fun n => (n.children, n.level))) →
      (∀ l ∈ acc.2, ∀ tl, getLevel acc.1 l = some tl →
        tl.orientation = some Orientation.vertical) →
      (∀ l ∈ acc.2, ∀ m ∈ succLevels st l, m ∈ acc.2) →
      ((keys.foldl p2step acc).1.levels.map Prod.fst = st.levels.map Prod.fst) ∧
      (∀ l, (getLevel (keys.foldl p2step acc).1 l).map (fun t => t.orgs) =
        (getLevel st l).map (fun t => t.orgs)) ∧
      (∀ k, (getNode (keys.foldl p2step acc).1 k).map (fun n => (n.children, n.level)) =
        (getNode st k).map (fun n => (n.children, n.level))) ∧
      (∀ l ∈ (keys.foldl p2step acc).2, ∀ tl,
        getLevel (keys.foldl p2step acc).1 l = some tl →
        tl.orientation = some Orientation.vertical) ∧
      (∀ l ∈ (keys.foldl p2step acc).2, ∀ m ∈ succLevels st l,
        m ∈ (keys.foldl p2step acc).2) ∧
      (∀ l ∈ acc.2, l ∈ (keys.foldl p2step acc).2) ∧
      (∀ l tl1, getLevel (keys.foldl p2step acc).1 l = some tl1 →
        tl1.orientation = some Orientation.vertical →
        (∃ tl0, getLevel acc.1 l = some tl0 ∧
          tl0.orientation = some Orientation.vertical) ∨
          l ∈ (keys.foldl p2step acc).2) ∧
      (∀ l ∈ keys, ∀ tl, getLevel (keys.foldl p2step acc).1 l = some tl →
        tl.orientation = some Orientation.vertical →
        l ∈ (keys.foldl p2step acc).2) := by
  intro keys
  induction keys with
  | nil =>
    intro acc hkeys h0 h1 h2 h3 h4
    simp only [List.foldl_nil]
    exact ⟨h0, h1, h2, h3, h4, fun l hl => hl,
      fun l tl1 hg hv => Or.inl ⟨tl1, hg, hv⟩,
      fun l hl => absurd hl (List.not_mem_nil _)⟩
  | cons a keys ih =>
    intro acc hkeys h0 h1 h2 h3 h4
    rw [List.foldl_cons]
    have hkeys' : ∀ k ∈ keys, k ∈ st.levels.map Prod.fst :=
      fun k hk => hkeys k (List.mem_cons.mpr (Or.inr hk))
    cases hg : getLevel acc.1 a with
    | none =>
      rw [p2step_none acc a hg]
      obtain ⟨C0, C1, C2, C3, C4, C5, C6, C7⟩ := ih acc hkeys' h0 h1 h2 h3 h4
      refine ⟨C0, C1, C2, C3, C4, C5, C6, ?_⟩
      intro l hl tl hgR hv
      rcases List.mem_cons.mp hl with he | hl'
      · subst he
        exfalso
        have hstA : getLevel st l = none := by
          have := h1 l
          rw [hg] at this
          cases hgg : getLevel st l with
          | none => rfl
          | some x => rw [hgg] at this; cases this
        have := C1 l
        rw [hgR, hstA] at this
        cases this
      · exact C7 l hl' tl hgR hv
    | some tl =>
      by_cases hv : tl.orientation = some Orientation.vertical
      · -- the vertical branch: run the DFS and mutate
        rw [p2step_v acc a tl hg hv]
        have hS : ∀ x, succLevels acc.1 x = succLevels st x :=
          succLevels_congr _ _ h1 h2
        have hP : ∀ x, (getLevel acc.1 x).isSome = (getLevel st x).isSome :=
          fun x => isSome_congr_of_map_eq _ _ _ (h1 x)
        have hF : pass2Fuel acc.1 = pass2Fuel st := pass2Fuel_congr _ _ h0 hS
        have hdfs : dfsVisit acc.1 (pass2Fuel acc.1) [a] acc.2 =
            dfsVisit st (pass2Fuel st) [a] acc.2 := by
          rw [hF, dfsVisit_congr acc.1 st hP hS]
        have hamem : a ∈ st.levels.map Prod.fst := hkeys a (List.mem_cons_self _ _)
        obtain ⟨g1, g2, g3⟩ := dfsVisit_spec st (pass2Fuel st) [a] acc.2
          (dfsPot_lt_fuel st a acc.2 hamem)
          (fun l hl m hm => Or.inl (h4 l hl m hm))
        obtain ⟨rest, hrest⟩ := dfsVisit_prefix st (pass2Fuel st) [a] acc.2
        have hD : (dfsVisit acc.1 (pass2Fuel acc.1) [a] acc.2).drop acc.2.length =
            rest := by
          rw [hdfs, hrest, List.drop_left]
        have hvis : dfsVisit acc.1 (pass2Fuel acc.1) [a] acc.2 = acc.2 ++ rest := by
          rw [hdfs, hrest]
        rw [hD]
        have h0' : (applyVerticalMutations acc.1 rest).levels.map Prod.fst =
            st.levels.map Prod.fst := by
          rw [avm_keys]
          exact h0
        have h1' : ∀ l, (getLevel (applyVerticalMutations acc.1 rest) l).map
            (fun t => t.orgs) = (getLevel st l).map (fun t => t.orgs) :=
          fun l => (avm_levels rest acc.1 l).trans (h1 l)
        have h2' : ∀ k, (getNode (applyVerticalMutations acc.1 rest) k).map
            (fun n => (n.children, n.level)) =
            (getNode st k).map (fun n => (n.children, n.level)) :=
          fun k => (avm_nodes rest acc.1 k).trans (h2 k)
        have h3' : ∀ l ∈ dfsVisit acc.1 (pass2Fuel acc.1) [a] acc.2, ∀ tl',
            getLevel (applyVerticalMutations acc.1 rest) l = some tl' →
            tl'.orientation = some Orientation.vertical := by
          intro l hl tl' hget
          by_cases hld : l ∈ rest
          · exact avm_orient_mem rest acc.1 l hld tl' hget
          · have hl2 : l ∈ acc.2 := by
              rw [hvis] at hl
              rcases List.mem_append.mp hl with h | h
              · exact h
              · exact absurd h hld
            rw [avm_orient_notmem rest acc.1 l hld] at hget
            exact h3 l hl2 tl' hget
        have h4' : ∀ l ∈ dfsVisit acc.1 (pass2Fuel acc.1) [a] acc.2,
            ∀ m ∈ succLevels st l, m ∈ dfsVisit acc.1 (pass2Fuel acc.1) [a] acc.2 := by
          intro l hl m hm
          rw [hdfs] at hl ⊢
          exact g3 l hl m hm
        obtain ⟨C0, C1, C2, C3, C4, C5, C6, C7⟩ :=
          ih (applyVerticalMutations acc.1 rest,
            dfsVisit acc.1 (pass2Fuel acc.1) [a] acc.2) hkeys' h0' h1' h2' h3' h4'
        refine ⟨C0, C1, C2, C3, C4, ?_, ?_, ?_⟩
        · -- old visited survive
          intro l hl
          apply C5
          show l ∈ dfsVisit acc.1 (pass2Fuel acc.1) [a] acc.2
          rw [hdfs]
          exact g1 l hl
        · -- verticality originates in acc or the visited set
          intro l tl1 hgR hvR
          rcases C6 l tl1 hgR hvR with ⟨tl0, hga, hva⟩ | hin
          · by_cases hld : l ∈ rest
            · right
              apply C5
              show l ∈ dfsVisit acc.1 (pass2Fuel acc.1) [a] acc.2
              rw [hvis]
              exact List.mem_append.mpr (Or.inr hld)
            · left
              rw [avm_orient_notmem rest acc.1 l hld] at hga
              exact ⟨tl0, hga, hva⟩
          · exact Or.inr hin
        · intro l hl tlx hgR hvR
          rcases List.mem_cons.mp hl with rfl | hl'
          · apply C5
            show l ∈ dfsVisit acc.1 (pass2Fuel acc.1) [l] acc.2
            rw [hdfs]
            exact g2 l (List.mem_singleton.mpr rfl)
          · exact C7 l hl' tlx hgR hvR
      · -- present but not vertical: no step
        rw [p2step_nv acc a tl hg hv]
        obtain ⟨C0, C1, C2, C3, C4, C5, C6, C7⟩ := ih acc hkeys' h0 h1 h2 h3 h4
        refine ⟨C0, C1, C2, C3, C4, C5, C6, ?_⟩
        intro l hl tlx hgR hvR
        rcases List.mem_cons.mp hl with he | hl'
        · subst he
          rcases C6 l tlx hgR hvR with ⟨tl0, hga, hva⟩ | hin
          · rw [hg] at hga
            cases Option.some.inj hga
            exact absurd hva hv
          · exact hin
        · exact C7 l hl' tlx hgR hvR

theorem orientPass2_spec (st : TState) :
    (orientPass2 st).levels.map Prod.fst = st.levels.map Prod.fst ∧
    (∀ l, (getLevel (orientPass2 st) l).map (fun t => t.orgs) =
      (getLevel st l).map (fun t => t.orgs)) ∧
    (∀ k, (getNode (orientPass2 st) k).map (fun n => (n.children, n.level)) =
      (getNode st k).map (fun n => (n.children, n.level))) ∧
    SuccClosed (orientPass2 st) := by
  obtain ⟨C0, C1, C2, C3, C4, C5, C6, C7⟩ :=
    orientPass2_go st (st.levels.map Prod.fst) (st, [])
      (fun k hk => hk) rfl (fun l => rfl) (fun k => rfl)
      (fun l hl => absurd hl (List.not_mem_nil _))
      (fun l hl => absurd hl (List.not_mem_nil _))
  rw [orientPass2_eq]
  refine ⟨C0, C1, C2, ?_⟩
  intro l tl hget hvert oid hoid n hn c hc nc hnc
  have hlk : l ∈ st.levels.map Prod.fst := by
    have hmapeq := C1 l
    rw [hget] at hmapeq
    cases hgg : getLevel st l with
    | none => rw [hgg] at hmapeq; cases hmapeq
    | some tls => exact mem_keys_of_alGet _ _ _ hgg
  have hlvis := C7 l hlk tl hget hvert
  have hmem : nc.level ∈
      succLevels ((st.levels.map Prod.fst).foldl p2step (st, [])).1 l :=
    mem_succLevels_of _ l tl oid n c nc hget hoid hn hc hnc
  have hS : ∀ x, succLevels ((st.levels.map Prod.fst).foldl p2step (st, [])).1 x =
      succLevels st x := succLevels_congr _ _ C1 C2
  rw [hS] at hmem
  have hin := C4 l hlvis nc.level hmem
  intro tm hgm
  exact C3 nc.level hin tm hgm

theorem orientPass1_nodes (st : TState) (cfg : OrgChartConfig) :
    (orientPass1 st cfg).nodes = st.nodes := rfl

theorem orientPass1_getLevel (st : TState) (cfg : OrgChartConfig) (l : Int) :
    getLevel (orientPass1 st cfg) l = (getLevel st l).map (fun tl =>
      { tl with orientation := some (
          if cfg.minColWidth ≤ 0 ∨ cfg.maxColWidth ≤ 0 then Orientation.vertical
          else if (if tl.orgs.length = 0 then (1 : Rat) else (tl.orgs.length : Rat)) *
              cfg.minColWidth ≤ cfg.availableSpace then Orientation.horizontal
          else Orientation.vertical) }) := by
  exact alGet_map_values (fun tl =>
      { tl with orientation := some (
          if cfg.minColWidth ≤ 0 ∨ cfg.maxColWidth ≤ 0 then Orientation.vertical
          else if (if tl.orgs.length = 0 then (1 : Rat) else (tl.orgs.length : Rat)) *
              cfg.minColWidth ≤ cfg.availableSpace then Orientation.horizontal
          else Orientation.vertical) }) st.levels l

theorem orientPass1_keys (st : TState) (cfg : OrgChartConfig) :
    (orientPass1 st cfg).levels.map Prod.fst = st.levels.map Prod.fst := by
  show (st.levels.map _).map Prod.fst = _
  rw [List.map_map]
  apply List.map_congr_left
  intro e _
  rfl

theorem orientPass1_orgs (st : TState) (cfg : OrgChartConfig) (l : Int) :
    (getLevel (orientPass1 st cfg) l).map (fun t => t.orgs) =
      (getLevel st l).map (fun t => t.orgs) := by
  rw [orientPass1_getLevel]
  cases getLevel st l <;> rfl

theorem wf_keysNodup (s : TState) (hwf : wfState s = true) :
    (s.levels.map Prod.fst).Nodup := by
  rw [wfState] at hwf
  simp only [Bool.and_eq_true, decide_eq_true_eq] at hwf
  exact hwf.1.1.1

theorem wf_listed_level (s : TState) (hwf : wfState s = true) :
    ∀ l tl, getLevel s l = some tl → ∀ oid ∈ tl.orgs,
      ∃ n, getNode s oid = some n ∧ n.level = l := by
  rw [wfState] at hwf
  simp only [Bool.and_eq_true, decide_eq_true_eq, List.all_eq_true] at hwf
  have h := hwf.1.1.2
  intro l tl hget oid hoid
  have hmem : (l, tl) ∈ s.levels := alGet_mem _ _ _ hget
  have h2 : (match getNode s oid with
      | some n => decide (n.level = l)
      | none => false) = true := h (l, tl) hmem oid hoid
  cases hn : getNode s oid with
  | none => rw [hn] at h2; cases h2
  | some n =>
    rw [hn] at h2
    exact ⟨n, rfl, of_decide_eq_true h2⟩

theorem wf_I1c (s : TState) (hwf : wfState s = true) : I1c s := by
  rw [wfState] at hwf
  simp only [Bool.and_eq_true, decide_eq_true_eq, List.all_eq_true] at hwf
  have h := hwf.1.2
  intro k n hget
  have hmem : (k, n) ∈ s.nodes := alGet_mem _ _ _ hget
  have h2 : (match getLevel s n.level with
      | some tl => decide (k ∈ tl.orgs)
      | none => false) = true := h (k, n) hmem
  cases hg : getLevel s n.level with
  | none => rw [hg] at h2; cases h2
  | some tl =>
    rw [hg] at h2
    exact ⟨tl, rfl, of_decide_eq_true h2⟩

theorem wf_orgsNodup (s : TState) (hwf : wfState s = true) :
    ∀ l tl, getLevel s l = some tl → tl.orgs.Nodup := by
  have hf : ((s.levels.map fun e => e.2.orgs).flatten).Nodup := by
    rw [wfState] at hwf
    simp only [Bool.and_eq_true, decide_eq_true_eq] at hwf
    exact hwf.2
  intro l tl hget
  have hmem : (l, tl) ∈ s.levels := alGet_mem _ _ _ hget
  have hin : tl.orgs ∈ s.levels.map fun e => e.2.orgs :=
    List.mem_map.mpr ⟨(l, tl), hmem, rfl⟩
  exact (List.nodup_flatten.mp hf).1 tl.orgs hin

theorem wf_crossUnique (s : TState) (hwf : wfState s = true) :
    ∀ l1 l2 tl1 tl2 oid, getLevel s l1 = some tl1 → getLevel s l2 = some tl2 →
      oid ∈ tl1.orgs → oid ∈ tl2.orgs → l1 = l2 := by
  have hf : ((s.levels.map fun e => e.2.orgs).flatten).Nodup := by
    rw [wfState] at hwf
    simp only [Bool.and_eq_true, decide_eq_true_eq] at hwf
    exact hwf.2
  intro l1 l2 tl1 tl2 oid hg1 hg2 ho1 ho2
  by_cases he : l1 = l2
  · exact he
  exfalso
  have hpw : s.levels.Pairwise (fun a b => a.2.orgs.Disjoint b.2.orgs) := by
    have := (List.nodup_flatten.mp hf).2
    rwa [List.pairwise_map] at this
  have hm1 : (l1, tl1) ∈ s.levels := alGet_mem _ _ _ hg1
  have hm2 : (l2, tl2) ∈ s.levels := alGet_mem _ _ _ hg2
  have hne : (l1, tl1) ≠ (l2, tl2) := fun hp => he (congrArg Prod.fst hp)
  have hsym : Symmetric (fun a b : Int × TreeLevel => a.2.orgs.Disjoint b.2.orgs) :=
    fun a b hab => hab.symm
  exact hpw.forall hsym hm1 hm2 hne ho1 ho2

theorem wfAbs_of_wfState (s : TState) (hwf : wfState s = true) : wfAbs s :=
  ⟨wf_listed_level s hwf, wf_I1c s hwf, wf_orgsNodup s hwf, wf_crossUnique s hwf⟩

theorem wfAbs_congr (s1 s2 : TState)
    (hL : ∀ l, (getLevel s2 l).map (fun t => t.orgs) =
      (getLevel s1 l).map (fun t => t.orgs))
    (hN : ∀ k, (getNode s2 k).map (fun n => (n.children, n.level)) =
      (getNode s1 k).map (fun n => (n.children, n.level)))
    (hwf : wfAbs s1) : wfAbs s2 := by
  obtain ⟨w1, w2, w3, w4⟩ := hwf
  refine ⟨?_, ?_, ?_, ?_⟩
  · intro l tl2 hget2 oid hoid
    have hLl := hL l
    rw [hget2] at hLl
    cases hg1 : getLevel s1 l with
    | none => rw [hg1] at hLl; cases hLl
    | some tl1 =>
      rw [hg1] at hLl
      have horgs : tl2.orgs = tl1.orgs := Option.some.inj hLl
      obtain ⟨n1, hn1, hlev⟩ := w1 l tl1 hg1 oid (horgs ▸ hoid)
      have hNo := hN oid
      rw [hn1] at hNo
      cases hn2 : getNode s2 oid with
      | none => rw [hn2] at hNo; cases hNo
      | some n2 =>
        rw [hn2] at hNo
        have hp := Option.some.inj hNo
        exact ⟨n2, rfl, (congrArg Prod.snd hp).trans hlev⟩
  · intro k n2 hget2
    have hNk := hN k
    rw [hget2] at hNk
    cases hn1 : getNode s1 k with
    | none => rw [hn1] at hNk; cases hNk
    | some n1 =>
      rw [hn1] at hNk
      have hp := Option.some.inj hNk
      have hlev : n2.level = n1.level := congrArg Prod.snd hp
      obtain ⟨tl1, hg1, hk⟩ := w2 k n1 hn1
      have hLl := hL n1.level
      rw [hg1] at hLl
      cases hg2 : getLevel s2 n1.level with
      | none => rw [hg2] at hLl; cases hLl
      | some tl2 =>
        rw [hg2] at hLl
        have horgs : tl2.orgs = tl1.orgs := Option.some.inj hLl
        exact ⟨tl2, by rw [hlev]; exact hg2, by rw [horgs]; exact hk⟩
  · intro l tl2 hget2
    have hLl := hL l
    rw [hget2] at hLl
    cases hg1 : getLevel s1 l with
    | none => rw [hg1] at hLl; cases hLl
    | some tl1 =>
      rw [hg1] at hLl
      have horgs : tl2.orgs = tl1.orgs := Option.some.inj hLl
      rw [horgs]
      exact w3 l tl1 hg1
  · intro l1 l2 tl1 tl2 oid hg1 hg2 ho1 ho2
    have hL1 := hL l1
    have hL2 := hL l2
    rw [hg1] at hL1
    rw [hg2] at hL2
    cases hg1' : getLevel s1 l1 with
    | none => rw [hg1'] at hL1; cases hL1
    | some tl1' =>
      rw [hg1'] at hL1
      cases hg2' : getLevel s1 l2 with
      | none => rw [hg2'] at hL2; cases hL2
      | some tl2' =>
        rw [hg2'] at hL2
        have e1 : tl1.orgs = tl1'.orgs := Option.some.inj hL1
        have e2 : tl2.orgs = tl2'.orgs := Option.some.inj hL2
        exact w4 l1 l2 tl1' tl2' oid hg1' hg2' (e1 ▸ ho1) (e2 ▸ ho2)

theorem p3inner_eq_none (l : Int) (acc2 : TState × List (Nat × Int × Int))
    (oid : Nat) (h : getNode acc2.1 oid = none) : p3inner l acc2 oid = acc2 := by
  simp only [p3inner, h]

theorem p3inner_eq_skip (l : Int) (acc2 : TState × List (Nat × Int × Int))
    (oid : Nat) (org : COrg) (h : getNode acc2.1 oid = some org)
    (hc : ¬ (org.level ≠ p3target l acc2.1 org ∧
      (getLevel acc2.1 (p3target l acc2.1 org)).map (·.orientation) =
        some (some Orientation.vertical))) :
    p3inner l acc2 oid = acc2 := by
  simp only [p3inner, h]
  rw [if_neg hc]

theorem p3inner_eq_move (l : Int) (acc2 : TState × List (Nat × Int × Int))
    (oid : Nat) (org : COrg) (h : getNode acc2.1 oid = some org)
    (hc : org.level ≠ p3target l acc2.1 org ∧
      (getLevel acc2.1 (p3target l acc2.1 org)).map (·.orientation) =
        some (some Orientation.vertical)) :
    p3inner l acc2 oid =
      (updateNode acc2.1 oid (fun n => { n with level := p3target l acc2.1 org }),
       acc2.2 ++ [(oid, l, p3target l acc2.1 org)]) := by
  simp only [p3inner, h]
  rw [if_pos hc]

theorem p3outer_eq_none (acc : TState × List (Nat × Int × Int)) (l : Int)
    (h : getLevel acc.1 l = none) : p3outer acc l = acc := by
  simp only [p3outer, h]

theorem p3outer_eq_nv (acc : TState × List (Nat × Int × Int)) (l : Int)
    (tl : TreeLevel) (h : getLevel acc.1 l = some tl)
    (hv : ¬ tl.orientation = some Orientation.vertical) : p3outer acc l = acc := by
  simp only [p3outer, h]
  rw [if_neg hv]

theorem p3outer_eq_v (acc : TState × List (Nat × Int × Int)) (l : Int)
    (tl : TreeLevel) (h : getLevel acc.1 l = some tl)
    (hv : tl.orientation = some Orientation.vertical) :
    p3outer acc l = tl.orgs.foldl (p3inner l) acc := by
  simp only [p3outer, h]
  rw [if_pos hv]

theorem p3collect_inner (B : TState) (l : Int) (tlB : TreeLevel)
    (hBl : getLevel B l = some tlB)
    (hvert : tlB.orientation = some Orientation.vertical)
    (hlev : ∀ oid ∈ tlB.orgs, ∃ n0, getNode B oid = some n0 ∧ n0.level = l) :
    ∀ (os : List Nat) (acc : TState × List (Nat × Int × Int)),
      os.Nodup →
      (∀ oid ∈ os, oid ∈ tlB.orgs) →
      (∀ oid ∈ os, oid ∉ acc.2.map (fun m => m.1)) →
      (∀ oid ∈ os, ∀ n, getNode acc.1 oid = some n →
        ∃ n0, getNode B oid = some n0 ∧ n.level = n0.level) →
      collectInv B acc →
      collectInv B (os.foldl (p3inner l) acc) ∧
      (∀ m ∈ (os.foldl (p3inner l) acc).2, m ∈ acc.2 ∨ m.1 ∈ os) ∧
      (∀ k, k ∉ os → getNode (os.foldl (p3inner l) acc).1 k = getNode acc.1 k) := by
  intro os
  induction os with
  | nil =>
    intro acc _ _ _ _ hinv
    rw [List.foldl_nil]
    exact ⟨hinv, fun m hm => Or.inl hm, fun k _ => rfl⟩
  | cons o os ih =>
    intro acc hnd hsub hfr1 hfr2 hinv
    rw [List.foldl_cons]
    rw [List.nodup_cons] at hnd
    have hoB : o ∈ tlB.orgs := hsub o (List.mem_cons_self _ _)
    cases hn : getNode acc.1 o with
    | none =>
      rw [p3inner_eq_none l acc o hn]
      obtain ⟨hA, hB2, hC⟩ := ih acc hnd.2
        (fun x hx => hsub x (List.mem_cons.mpr (Or.inr hx)))
        (fun x hx => hfr1 x (List.mem_cons.mpr (Or.inr hx)))
        (fun x hx => hfr2 x (List.mem_cons.mpr (Or.inr hx)))
        hinv
      refine ⟨hA, ?_, ?_⟩
      · intro m hm
        rcases hB2 m hm with h | h
        · exact Or.inl h
        · exact Or.inr (List.mem_cons.mpr (Or.inr h))
      · intro k hk
        exact hC k (fun hx => hk (List.mem_cons.mpr (Or.inr hx)))
    | some org =>
      by_cases hc : org.level ≠ p3target l acc.1 org ∧
          (getLevel acc.1 (p3target l acc.1 org)).map (·.orientation) =
            some (some Orientation.vertical)
      · -- the move step
        rw [p3inner_eq_move l acc o org hn hc]
        obtain ⟨hI1, hI2, hI3, hI4, hI5, hI6⟩ := hinv
        have hGL : ∀ x, getLevel acc.1 x = getLevel B x := fun x => by
          rw [getLevel, getLevel, hI1]
        obtain ⟨n0, hn0, horgl0⟩ :=
          hfr2 o (List.mem_cons_self _ _) org hn
        obtain ⟨n0', hn0', hn0l'⟩ := hlev o hoB
        have hn0e : n0 = n0' := by
          rw [hn0] at hn0'
          exact Option.some.inj hn0'
        have horgl : org.level = l := by
          rw [horgl0, hn0e, hn0l']
        have hcv := hc.2
        rw [hGL] at hcv
        obtain ⟨tt, htt, httv⟩ : ∃ tt,
            getLevel B (p3target l acc.1 org) = some tt ∧
              tt.orientation = some Orientation.vertical := by
          cases hx : getLevel B (p3target l acc.1 org) with
          | none => rw [hx] at hcv; cases hcv
          | some tt =>
            rw [hx] at hcv
            exact ⟨tt, rfl, Option.some.inj hcv⟩
        have honot : o ∉ acc.2.map (fun m => m.1) := hfr1 o (List.mem_cons_self _ _)
        -- the new accumulator and its invariant
        have hI1' : (updateNode acc.1 o
            (fun n => { n with level := p3target l acc.1 org })).levels =
            B.levels := hI1
        have hI2' : ∀ k, (getNode (updateNode acc.1 o
            (fun n => { n with level := p3target l acc.1 org })) k).map
              (fun n => n.children) =
            (getNode B k).map (fun n => n.children) := by
          intro k
          rw [getNode_updateNode]
          split
          · rw [← hI2 k]
            cases getNode acc.1 k <;> rfl
          · exact hI2 k
        have hI3' : ∀ lv tlv, getLevel B lv = some tlv →
            tlv.orientation = some Orientation.vertical →
            ∀ oidv ∈ tlv.orgs, ∀ n, getNode (updateNode acc.1 o
              (fun n => { n with level := p3target l acc.1 org })) oidv = some n →
            ∀ c ∈ n.children, ∀ nc, getNode (updateNode acc.1 o
              (fun n => { n with level := p3target l acc.1 org })) c = some nc →
            ∀ tm, getLevel B nc.level = some tm →
              tm.orientation = some Orientation.vertical := by
          intro lv tlv hglv hvlv oidv hoidv n hnv c hcc nc hncv tm hgtm
          by_cases hco : c = o
          · rw [getNode_updateNode, if_pos hco, hco, hn] at hncv
            have hnc : nc = { org with level := p3target l acc.1 org } :=
              (Option.some.inj hncv).symm
            rw [hnc] at hgtm
            have : getLevel B (p3target l acc.1 org) = some tm := hgtm
            rw [htt] at this
            rw [← Option.some.inj this]
            exact httv
          · rw [getNode_updateNode, if_neg hco] at hncv
            by_cases ho2 : oidv = o
            · rw [getNode_updateNode, if_pos ho2, ho2, hn] at hnv
              have hne : n = { org with level := p3target l acc.1 org } :=
                (Option.some.inj hnv).symm
              have hcc2 : c ∈ org.children := by
                rw [hne] at hcc
                exact hcc
              exact hI3 lv tlv hglv hvlv oidv hoidv org (ho2 ▸ hn) c hcc2 nc hncv
                tm hgtm
            · rw [getNode_updateNode, if_neg ho2] at hnv
              exact hI3 lv tlv hglv hvlv oidv hoidv n hnv c hcc nc hncv tm hgtm
        have hI4' : ∀ m ∈ acc.2 ++ [(o, l, p3target l acc.1 org)],
            (∃ tl, getLevel B m.2.1 = some tl ∧
              tl.orientation = some Orientation.vertical ∧ m.1 ∈ tl.orgs) ∧
            (∃ tt2, getLevel B m.2.2 = some tt2 ∧
              tt2.orientation = some Orientation.vertical) ∧
            (∃ n, getNode (updateNode acc.1 o
              (fun n => { n with level := p3target l acc.1 org })) m.1 = some n ∧
              n.level = m.2.2) ∧
            m.2.1 ≠ m.2.2 := by
          intro m hm
          rcases List.mem_append.mp hm with hm | hm
          · obtain ⟨r1, r2, ⟨nr, hnr, hnrl⟩, r4⟩ := hI4 m hm
            have hmo : m.1 ≠ o := by
              intro he
              exact honot (he ▸ List.mem_map.mpr ⟨m, hm, rfl⟩)
            refine ⟨r1, r2, ⟨nr, ?_, hnrl⟩, r4⟩
            rw [getNode_updateNode, if_neg hmo]
            exact hnr
          · have hme : m = (o, l, p3target l acc.1 org) := List.mem_singleton.mp hm
            subst hme
            refine ⟨⟨tlB, hBl, hvert, hoB⟩, ⟨tt, htt, httv⟩, ?_, ?_⟩
            · refine ⟨{ org with level := p3target l acc.1 org }, ?_, rfl⟩
              rw [getNode_updateNode, if_pos rfl, hn]
              rfl
            · show l ≠ p3target l acc.1 org
              intro he
              exact hc.1 (horgl.trans he)
        have hI5' : ∀ k n, getNode (updateNode acc.1 o
            (fun n => { n with level := p3target l acc.1 org })) k = some n →
            (∃ n0, getNode B k = some n0 ∧ n.level = n0.level) ∨
            (∃ frm dst, (k, frm, dst) ∈ acc.2 ++ [(o, l, p3target l acc.1 org)] ∧
              n.level = dst) := by
          intro k n hkn
          by_cases hk : k = o
          · subst hk
            rw [getNode_updateNode, if_pos rfl, hn] at hkn
            have : n = { org with level := p3target l acc.1 org } :=
              (Option.some.inj hkn).symm
            right
            exact ⟨l, p3target l acc.1 org,
              List.mem_append.mpr (Or.inr (List.mem_singleton.mpr rfl)),
              by rw [this]⟩
          · rw [getNode_updateNode, if_neg hk] at hkn
            rcases hI5 k n hkn with h | ⟨frm, dst, hmem, hlv⟩
            · exact Or.inl h
            · exact Or.inr ⟨frm, dst, List.mem_append.mpr (Or.inl hmem), hlv⟩
        have hI6' : ((acc.2 ++ [(o, l, p3target l acc.1 org)]).map
            (fun m => m.1)).Nodup := by
          rw [List.map_append]
          refine (List.nodup_append.mpr ⟨hI6, List.nodup_singleton o, ?_⟩)
          intro x hx hxo
          have : x = o := List.mem_singleton.mp hxo
          exact honot (this ▸ hx)
        obtain ⟨hA, hB2, hC⟩ := ih
          (updateNode acc.1 o (fun n => { n with level := p3target l acc.1 org }),
            acc.2 ++ [(o, l, p3target l acc.1 org)])
          hnd.2
          (fun x hx => hsub x (List.mem_cons.mpr (Or.inr hx)))
          (fun x hx => by
            show x ∉ _
            rw [List.map_append]
            intro hmem
            rcases List.mem_append.mp hmem with h | h
            · exact hfr1 x (List.mem_cons.mpr (Or.inr hx)) h
            · have : x = o := List.mem_singleton.mp h
              exact hnd.1 (this ▸ hx))
          (fun x hx n hxn => by
            have hxo : x ≠ o := fun he => hnd.1 (he ▸ hx)
            rw [getNode_updateNode, if_neg hxo] at hxn
            exact hfr2 x (List.mem_cons.mpr (Or.inr hx)) n hxn)
          ⟨hI1', hI2', hI3', hI4', hI5', hI6'⟩
        refine ⟨hA, ?_, ?_⟩
        · intro m hm
          rcases hB2 m hm with h | h
          · rcases List.mem_append.mp h with h2 | h2
            · exact Or.inl h2
            · have : m = (o, l, p3target l acc.1 org) := List.mem_singleton.mp h2
              exact Or.inr (List.mem_cons.mpr (Or.inl (by rw [this])))
          · exact Or.inr (List.mem_cons.mpr (Or.inr h))
        · intro k hk
          have hko : k ≠ o := fun he => hk (List.mem_cons.mpr (Or.inl he))
          have h1 := hC k (fun hx => hk (List.mem_cons.mpr (Or.inr hx)))
          rw [h1, getNode_updateNode, if_neg hko]
      · -- skip
        rw [p3inner_eq_skip l acc o org hn hc]
        obtain ⟨hA, hB2, hC⟩ := ih acc hnd.2
          (fun x hx => hsub x (List.mem_cons.mpr (Or.inr hx)))
          (fun x hx => hfr1 x (List.mem_cons.mpr (Or.inr hx)))
          (fun x hx => hfr2 x (List.mem_cons.mpr (Or.inr hx)))
          hinv
        refine ⟨hA, ?_, ?_⟩
        · intro m hm
          rcases hB2 m hm with h | h
          · exact Or.inl h
          · exact Or.inr (List.mem_cons.mpr (Or.inr h))
        · intro k hk
          exact hC k (fun hx => hk (List.mem_cons.mpr (Or.inr hx)))

theorem p3collect_outer (B : TState) (hwfB : wfAbs B) :
    ∀ (keys : List Int) (acc : TState × List (Nat × Int × Int)),
      keys.Nodup →
      (∀ l2 ∈ keys, ∀ tl, getLevel B l2 = some tl → ∀ oid ∈ tl.orgs,
        oid ∉ acc.2.map (fun m => m.1)) →
      (∀ l2 ∈ keys, ∀ tl, getLevel B l2 = some tl → ∀ oid ∈ tl.orgs,
        ∀ n, getNode acc.1 oid = some n →
          ∃ n0, getNode B oid = some n0 ∧ n.level = n0.level) →
      collectInv B acc →
      collectInv B (keys.foldl p3outer acc) := by
  intro keys
  induction keys with
  | nil =>
    intro acc _ _ _ hinv
    rw [List.foldl_nil]
    exact hinv
  | cons a keys ih =>
    intro acc hnd hfr1 hfr2 hinv
    rw [List.foldl_cons]
    rw [List.nodup_cons] at hnd
    have hGL : ∀ x, getLevel acc.1 x = getLevel B x := fun x => by
      rw [getLevel, getLevel, hinv.1]
    cases hga : getLevel B a with
    | none =>
      rw [p3outer_eq_none acc a (by rw [hGL]; exact hga)]
      exact ih acc hnd.2
        (fun l2 hl2 => hfr1 l2 (List.mem_cons.mpr (Or.inr hl2)))
        (fun l2 hl2 => hfr2 l2 (List.mem_cons.mpr (Or.inr hl2)))
        hinv
    | some tla =>
      have hga' : getLevel acc.1 a = some tla := by rw [hGL]; exact hga
      by_cases hv : tla.orientation = some Orientation.vertical
      · rw [p3outer_eq_v acc a tla hga' hv]
        have hnodup_orgs : tla.orgs.Nodup := hwfB.2.2.1 a tla hga
        have hlev : ∀ oid ∈ tla.orgs, ∃ n0, getNode B oid = some n0 ∧
            n0.level = a := hwfB.1 a tla hga
        obtain ⟨hA, hB2, hC⟩ := p3collect_inner B a tla hga hv hlev tla.orgs acc
          hnodup_orgs (fun x hx => hx)
          (hfr1 a (List.mem_cons_self _ _) tla hga)
          (hfr2 a (List.mem_cons_self _ _) tla hga)
          hinv
        apply ih _ hnd.2 ?_ ?_ hA
        · intro l2 hl2 tl hgt oid hoid hmem
          rcases List.mem_map.mp hmem with ⟨m, hm, hm1⟩
          rcases hB2 m hm with h | h
          · exact hfr1 l2 (List.mem_cons.mpr (Or.inr hl2)) tl hgt oid hoid
              (List.mem_map.mpr ⟨m, h, hm1⟩)
          · have hla : l2 = a :=
              hwfB.2.2.2 l2 a tl tla oid hgt hga hoid (hm1 ▸ h)
            exact hnd.1 (hla ▸ hl2)
        · intro l2 hl2 tl hgt oid hoid n hn
          have hno : oid ∉ tla.orgs := by
            intro hmm
            exact hnd.1 ((hwfB.2.2.2 l2 a tl tla oid hgt hga hoid hmm) ▸ hl2)
          rw [hC oid hno] at hn
          exact hfr2 l2 (List.mem_cons.mpr (Or.inr hl2)) tl hgt oid hoid n hn
      · rw [p3outer_eq_nv acc a tla hga' hv]
        exact ih acc hnd.2
          (fun l2 hl2 => hfr1 l2 (List.mem_cons.mpr (Or.inr hl2)))
          (fun l2 hl2 => hfr2 l2 (List.mem_cons.mpr (Or.inr hl2)))
          hinv

theorem pass3Collect_spec (B : TState) (hwfB : wfAbs B) (hsc : SuccClosed B)
    (hknd : (B.levels.map Prod.fst).Nodup) :
    collectInv B (pass3Collect B) := by
  rw [pass3Collect_eq]
  apply p3collect_outer B hwfB (B.levels.map Prod.fst) (B, []) hknd
  · intro l2 _ tl _ oid _
    simp
  · intro l2 _ tl _ oid _ n hn
    exact ⟨n, hn, rfl⟩
  · refine ⟨rfl, fun k => rfl, ?_, ?_, ?_, ?_⟩
    · intro l tl hg hv oid hoid n hn c hc nc hnc tm hgtm
      exact hsc l tl hg hv oid hoid n hn c hc nc hnc tm hgtm
    · intro m hm
      cases hm
    · intro k n h
      exact Or.inl ⟨n, h, rfl⟩
    · exact List.nodup_nil

theorem p3move_nodes (s : TState) (m : Nat × Int × Int) :
    (p3move s m).nodes = s.nodes := by
  obtain ⟨oid, frm, dst⟩ := m
  simp only [p3move]
  split
  · rfl
  · rfl

theorem p3move_eq (t : TState) (oid : Nat) (frm dst : Int)
    (hpres : (getLevel (updateLevel t frm
      (fun tl => { tl with orgs := tl.orgs.filter (· ≠ oid) })) dst).isSome = true) :
    p3move t (oid, frm, dst) =
      updateLevel (updateLevel t frm
        (fun tl => { tl with orgs := tl.orgs.filter (· ≠ oid) })) dst
        (fun tl => { tl with orgs := tl.orgs ++ [oid] }) := by
  simp only [p3move]
  rw [if_pos hpres]

theorem moveInv_init (B : TState) (hwfB : wfAbs B)
    (C : TState × List (Nat × Int × Int)) (hinv : collectInv B C) :
    moveInv B C.1 C.2 := by
  obtain ⟨hI1, hI2, hI3, hI4, hI5, hI6⟩ := hinv
  have hGL : ∀ x, getLevel C.1 x = getLevel B x := fun x => by
    rw [getLevel, getLevel, hI1]
  refine ⟨fun m => by rw [hGL], fun m => by rw [hGL], ?_, ?_, ?_, hI6⟩
  · intro l tl hg hv oid hoid n hn c hc nc hnc tm hgtm
    rw [hGL] at hg
    exact hI3 l tl hg hv oid hoid n hn c hc nc hnc tm hgtm
  · intro k n hkn
    rcases hI5 k n hkn with ⟨n0, hn0, hl⟩ | ⟨frm, dst, hmem, hl⟩
    · obtain ⟨tl, hgt, hkin⟩ := hwfB.2.1 k n0 hn0
      left
      refine ⟨tl, ?_, hkin⟩
      rw [hl, hGL]
      exact hgt
    · right
      exact ⟨frm, dst, hmem, hl⟩
  · intro m hm
    obtain ⟨⟨tlf, hgf, hvf, hmem⟩, ⟨tt, htt, httv⟩, ⟨n, hn, hnl⟩, hne⟩ := hI4 m hm
    refine ⟨⟨tlf, by rw [hGL]; exact hgf, hmem, hvf⟩, ?_, ?_, hne⟩
    · intro n2 hn2
      rw [hn] at hn2
      rw [← Option.some.inj hn2]
      exact hnl
    · rw [htt]
      rfl

theorem p3move_go (B : TState) :
    ∀ (Rr : List (Nat × Int × Int)) (t : TState),
      moveInv B t Rr → moveInv B (Rr.foldl p3move t) [] := by
  intro Rr
  induction Rr with
  | nil =>
    intro t h
    rw [List.foldl_nil]
    exact h
  | cons m Rr ih =>
    intro t hinv
    rw [List.foldl_cons]
    apply ih
    obtain ⟨oid, frm, dst⟩ := m
    obtain ⟨M1p, M1o, M2, M3, M8, Mnd⟩ := hinv
    obtain ⟨⟨tlf, htlf, hoin, htlfv⟩, hlvl, hpresB, hfd⟩ :=
      M8 (oid, frm, dst) (List.mem_cons_self _ _)
    have hfd' : frm ≠ dst := hfd
    have hnd2 : oid ∉ Rr.map (fun m => m.1) ∧ (Rr.map (fun m => m.1)).Nodup := by
      rw [List.map_cons] at Mnd
      exact List.nodup_cons.mp Mnd
    obtain ⟨tld, htld⟩ : ∃ tld, getLevel t dst = some tld := by
      have h := M1p dst
      rw [hpresB] at h
      exact Option.isSome_iff_exists.mp h
    have hp1 : (getLevel (updateLevel t frm
        (fun tl => { tl with orgs := tl.orgs.filter (· ≠ oid) })) dst).isSome =
        true := by
      rw [getLevel_updateLevel, if_neg (fun h => hfd' h.symm), htld]
      rfl
    rw [p3move_eq t oid frm dst hp1]
    have hTfrm : getLevel (updateLevel (updateLevel t frm
        (fun tl => { tl with orgs := tl.orgs.filter (· ≠ oid) })) dst
        (fun tl => { tl with orgs := tl.orgs ++ [oid] })) frm =
        some { tlf with orgs := tlf.orgs.filter (· ≠ oid) } := by
      rw [getLevel_updateLevel, if_neg hfd', getLevel_updateLevel, if_pos rfl, htlf]
      rfl
    have hTdst : getLevel (updateLevel (updateLevel t frm
        (fun tl => { tl with orgs := tl.orgs.filter (· ≠ oid) })) dst
        (fun tl => { tl with orgs := tl.orgs ++ [oid] })) dst =
        some { tld with orgs := tld.orgs ++ [oid] } := by
      rw [getLevel_updateLevel, if_pos rfl, getLevel_updateLevel,
        if_neg (fun h => hfd' h.symm), htld]
      rfl
    have hTother : ∀ x, x ≠ frm → x ≠ dst →
        getLevel (updateLevel (updateLevel t frm
          (fun tl => { tl with orgs := tl.orgs.filter (· ≠ oid) })) dst
          (fun tl => { tl with orgs := tl.orgs ++ [oid] })) x = getLevel t x := by
      intro x hxf hxd
      rw [getLevel_updateLevel, if_neg hxd, getLevel_updateLevel, if_neg hxf]
    have hTN : ∀ k, getNode (updateLevel (updateLevel t frm
        (fun tl => { tl with orgs := tl.orgs.filter (· ≠ oid) })) dst
        (fun tl => { tl with orgs := tl.orgs ++ [oid] })) k = getNode t k :=
      fun k => rfl
    refine ⟨?_, ?_, ?_, ?_, ?_, hnd2.2⟩
    · intro x
      by_cases hxd : x = dst
      · subst hxd
        rw [hTdst, ← M1p x, htld]
        rfl
      · by_cases hxf : x = frm
        · subst hxf
          rw [hTfrm, ← M1p x, htlf]
          rfl
        · rw [hTother x hxf hxd, M1p x]
    · intro x
      by_cases hxd : x = dst
      · subst hxd
        rw [hTdst, ← M1o x, htld]
        rfl
      · by_cases hxf : x = frm
        · subst hxf
          rw [hTfrm, ← M1o x, htlf]
          rfl
        · rw [hTother x hxf hxd, M1o x]
    · intro l tl hg hv oid2 hoid2 n hn c hc nc hnc tm hgtm
      rw [hTN] at hn
      rw [hTN] at hnc
      by_cases hld : l = dst
      · subst hld
        rw [hTdst] at hg
        have htl : tl = { tld with orgs := tld.orgs ++ [oid] } :=
          (Option.some.inj hg).symm
        have hvd : tld.orientation = some Orientation.vertical := by
          rw [htl] at hv
          exact hv
        rw [htl] at hoid2
        rcases List.mem_append.mp hoid2 with h2 | h2
        · exact M2 l tld htld hvd oid2 h2 n hn c hc nc hnc tm hgtm
        · have he : oid2 = oid := List.mem_singleton.mp h2
          subst he
          exact M2 frm tlf htlf htlfv oid2 hoin n hn c hc nc hnc tm hgtm
      · by_cases hlf : l = frm
        · subst hlf
          rw [hTfrm] at hg
          have htl : tl = { tlf with orgs := tlf.orgs.filter (· ≠ oid) } :=
            (Option.some.inj hg).symm
          rw [htl] at hoid2
          have h2 : oid2 ∈ tlf.orgs := (List.mem_filter.mp hoid2).1
          exact M2 l tlf htlf htlfv oid2 h2 n hn c hc nc hnc tm hgtm
        · rw [hTother l hlf hld] at hg
          exact M2 l tl hg hv oid2 hoid2 n hn c hc nc hnc tm hgtm
    · intro k n hkn
      rw [hTN] at hkn
      by_cases hko : k = oid
      · subst hko
        left
        have hnl : n.level = dst := hlvl n hkn
        rw [hnl]
        exact ⟨{ tld with orgs := tld.orgs ++ [k] }, hTdst,
          List.mem_append.mpr (Or.inr (List.mem_singleton.mpr rfl))⟩
      · rcases M3 k n hkn with ⟨tl, hgt, hkin⟩ | ⟨frm2, dst2, hmem, hl⟩
        · left
          by_cases hnd3 : n.level = dst
          · rw [hnd3] at hgt ⊢
            rw [htld] at hgt
            have hte : tld = tl := Option.some.inj hgt
            refine ⟨{ tld with orgs := tld.orgs ++ [oid] }, hTdst, ?_⟩
            apply List.mem_append.mpr
            left
            rw [hte]
            exact hkin
          · by_cases hnf : n.level = frm
            · rw [hnf] at hgt ⊢
              rw [htlf] at hgt
              have hte : tlf = tl := Option.some.inj hgt
              refine ⟨{ tlf with orgs := tlf.orgs.filter (· ≠ oid) }, hTfrm, ?_⟩
              refine List.mem_filter.mpr ⟨?_, by simp [hko]⟩
              rw [hte]
              exact hkin
            · exact ⟨tl, by rw [hTother _ hnf hnd3]; exact hgt, hkin⟩
        · right
          rcases List.mem_cons.mp hmem with he | hm2
          · exfalso
            apply hko
            exact congrArg (fun m => m.1) he
          · exact ⟨frm2, dst2, hm2, hl⟩
    · intro m2 hm2
      obtain ⟨⟨tlf2, hgf2, hin2, hvf2⟩, hlvl2, hpresB2, hfd2⟩ :=
        M8 m2 (List.mem_cons.mpr (Or.inr hm2))
      have hm2o : m2.1 ≠ oid := by
        intro he
        apply hnd2.1
        exact he ▸ List.mem_map.mpr ⟨m2, hm2, rfl⟩
      refine ⟨?_, ?_, hpresB2, hfd2⟩
      · by_cases h2d : m2.2.1 = dst
        · rw [h2d] at hgf2 ⊢
          rw [htld] at hgf2
          have hte : tld = tlf2 := Option.some.inj hgf2
          refine ⟨{ tld with orgs := tld.orgs ++ [oid] }, hTdst, ?_, ?_⟩
          · apply List.mem_append.mpr
            left
            rw [hte]
            exact hin2
          · show tld.orientation = some Orientation.vertical
            rw [hte]
            exact hvf2
        · by_cases h2f : m2.2.1 = frm
          · rw [h2f] at hgf2 ⊢
            rw [htlf] at hgf2
            have hte : tlf = tlf2 := Option.some.inj hgf2
            refine ⟨{ tlf with orgs := tlf.orgs.filter (· ≠ oid) }, hTfrm, ?_, ?_⟩
            · refine List.mem_filter.mpr ⟨?_, by simp [hm2o]⟩
              rw [hte]
              exact hin2
            · show tlf.orientation = some Orientation.vertical
              exact htlfv
          · exact ⟨tlf2, by rw [hTother _ h2f h2d]; exact hgf2, hin2, hvf2⟩
      · intro n2 hn2
        rw [hTN] at hn2
        exact hlvl2 n2 hn2

theorem pass3_spec (B : TState) (hwfB : wfAbs B) (hsc : SuccClosed B)
    (hknd : (B.levels.map Prod.fst).Nodup) :
    moveInv B (pass3Move (pass3Collect B).1 (pass3Collect B).2) [] := by
  rw [pass3Move_eq]
  exact p3move_go B (pass3Collect B).2 (pass3Collect B).1
    (moveInv_init B hwfB (pass3Collect B) (pass3Collect_spec B hwfB hsc hknd))

theorem flagLevels_orient (base : Int) (right : Bool) (n : Nat) (s st' : TState)
    (h : flagLevels base right n s = some st') :
    ∀ l, (getLevel st' l).map (fun e => e.orientation) =
      (getLevel s l).map (fun e => e.orientation) := by
  induction n generalizing st' with
  | zero =>
    rw [flagLevels] at h
    cases h
    intro l
    rfl
  | succ n ih =>
    rw [flagLevels] at h
    cases hmid : flagLevels base right n s with
    | none => rw [hmid] at h; cases h
    | some smid =>
      rw [hmid, Option.some_bind] at h
      cases hget2 : getLevel smid (base + (n : Int) + 1) with
      | none => rw [hget2] at h; cases h
      | some tlmid =>
        rw [hget2] at h
        cases h
        intro l
        by_cases hl : l = base + (n : Int) + 1
        · subst hl
          rw [getLevel_updateLevel_self, hget2, ← ih smid hmid _, hget2]
          cases right <;> rfl
        · rw [getLevel_updateLevel_ne _ _ _ _ hl]
          exact ih smid hmid l

theorem setFlagsEdge_orient (tlv : Int) (right : Bool) (edge : Option Nat)
    (s st' : TState) (h : setFlagsEdge tlv right edge s = some st') :
    ∀ l, (getLevel st' l).map (fun e => e.orientation) =
      (getLevel s l).map (fun e => e.orientation) := by
  cases edge with
  | none =>
    rw [setFlagsEdge] at h
    cases h
    intro l
    rfl
  | some eid =>
    rw [setFlagsEdge] at h
    exact flagLevels_orient _ _ _ _ _ h

theorem move_mem (orgs sk : List Nat) (le re : Option Nat)
    (hsksub : ∀ y ∈ sk, y ∈ orgs)
    (hre : ∀ y, re = some y → y ∈ sk)
    (hle : ∀ y, le = some y → y ∈ sk)
    (hcover : ∀ y ∈ sk, re = some y ∨ le = some y) (x : Nat) :
    (x ∈ le.toList ++ (orgs.filter (· ∉ sk) ++ re.toList)) ↔ x ∈ orgs := by
  constructor
  · intro hx
    rcases List.mem_append.mp hx with h | h
    · cases hle2 : le with
      | none => rw [hle2] at h; cases h
      | some y =>
        rw [hle2] at h
        have : x = y := List.mem_singleton.mp h
        exact hsksub x (this ▸ hle y hle2)
    · rcases List.mem_append.mp h with h2 | h2
      · exact (List.mem_filter.mp h2).1
      · cases hre2 : re with
        | none => rw [hre2] at h2; cases h2
        | some y =>
          rw [hre2] at h2
          have : x = y := List.mem_singleton.mp h2
          exact hsksub x (this ▸ hre y hre2)
  · intro hx
    by_cases hxs : x ∈ sk
    · rcases hcover x hxs with h | h
      · apply List.mem_append.mpr
        right
        apply List.mem_append.mpr
        right
        rw [h]
        exact List.mem_singleton.mpr rfl
      · apply List.mem_append.mpr
        left
        rw [h]
        exact List.mem_singleton.mpr rfl
    · apply List.mem_append.mpr
      right
      apply List.mem_append.mpr
      left
      exact List.mem_filter.mpr ⟨hx, by simp [hxs]⟩

theorem orgsmap_mem (s' s : TState)
    (h : ∀ m, (getLevel s' m).map (fun t => t.orgs) =
      (getLevel s m).map (fun t => t.orgs)) :
    ∀ m tl', getLevel s' m = some tl' →
      ∃ tl, getLevel s m = some tl ∧ ∀ x : Nat, x ∈ tl'.orgs ↔ x ∈ tl.orgs := by
  intro m tl' hg
  have hm := h m
  rw [hg] at hm
  cases hg2 : getLevel s m with
  | none => rw [hg2] at hm; cases hm
  | some tl =>
    rw [hg2] at hm
    have : tl'.orgs = tl.orgs := Option.some.inj hm
    exact ⟨tl, rfl, fun x => by rw [this]⟩

theorem presv_refl (s : TState) : presv s s :=
  ⟨rfl, fun m => rfl, fun m tl' hg => ⟨tl', hg, fun x => Iff.rfl⟩, fun m => rfl⟩

theorem presv_trans (a b c : TState) (h1 : presv c b) (h2 : presv b a) :
    presv c a := by
  obtain ⟨n1, o1, g1, p1⟩ := h1
  obtain ⟨n2, o2, g2, p2⟩ := h2
  refine ⟨n1.trans n2, fun m => (o1 m).trans (o2 m), ?_, fun m => (p1 m).trans (p2 m)⟩
  intro m tl' hg
  obtain ⟨tlb, hgb, hib⟩ := g1 m tl' hg
  obtain ⟨tla, hga, hia⟩ := g2 m tlb hgb
  exact ⟨tla, hga, fun x => (hib x).trans (hia x)⟩

theorem mem_of_headq {α : Type} (l : List α) (y : α) (h : l.head? = some y) :
    y ∈ l := by
  cases l with
  | nil => cases h
  | cons a t =>
    rw [List.head?_cons] at h
    rw [← Option.some.inj h]
    exact List.mem_cons_self _ _

theorem getElemBang_one_mem (l : List Nat) (h : 1 < l.length) : l[1]! ∈ l := by
  cases l with
  | nil => simp at h
  | cons a t =>
    cases t with
    | nil => simp at h
    | cons b t2 =>
      have h1 : 1 < (a :: b :: t2).length := by simp
      have he : (a :: b :: t2)[1]! = b := by
        rw [getElem!_pos (a :: b :: t2) 1 h1]
        simp
      rw [he]
      exact List.mem_cons.mpr (Or.inr (List.mem_cons_self _ _))

theorem cover_two (sk : List Nat) (hlen : sk.length ≤ 2) (y : Nat) (hy : y ∈ sk) :
    sk.head? = some y ∨ (if sk.length > 1 then some sk[1]! else none) = some y := by
  cases sk with
  | nil => cases hy
  | cons a t =>
    cases t with
    | nil =>
      left
      rw [List.head?_cons]
      have he : y = a := List.mem_singleton.mp hy
      rw [he]
    | cons b t2 =>
      cases t2 with
      | nil =>
        rcases List.mem_cons.mp hy with he | he
        · left
          rw [List.head?_cons, he]
        · right
          have hb : y = b := List.mem_singleton.mp he
          have hc : (a :: b :: ([] : List Nat)).length > 1 := by simp
          rw [if_pos hc]
          have hlt : 1 < (a :: b :: ([] : List Nat)).length := by simp
          have h1 : (a :: b :: ([] : List Nat))[1]! = b := by
            rw [getElem!_pos (a :: b :: ([] : List Nat)) 1 hlt]
            simp
          rw [h1, hb]
      | cons c t3 =>
        exfalso
        simp only [List.length_cons] at hlen
        omega

theorem updOrgs_presv_orient (st : TState) (key : Int) (F : List Nat) :
    ∀ m, (getLevel (updateLevel st key fun t => { t with orgs := F }) m).map
      (fun e => e.orientation) = (getLevel st m).map (fun e => e.orientation) := by
  intro m
  rw [getLevel_updateLevel]
  split
  · cases getLevel st m <;> rfl
  · rfl

theorem updOrgs_presv_isSome (st : TState) (key : Int) (F : List Nat) :
    ∀ m, (getLevel (updateLevel st key fun t => { t with orgs := F }) m).isSome =
      (getLevel st m).isSome := by
  intro m
  rw [getLevel_updateLevel]
  split
  · cases getLevel st m <;> rfl
  · rfl

theorem pass5_branch_pres (st st' st2 : TState) (key : Int) (tl : TreeLevel)
    (hget : getLevel st key = some tl) (newOrgs : List Nat) (le re : Option Nat)
    (hmem : ∀ x : Nat, x ∈ newOrgs ↔ x ∈ tl.orgs)
    (h1 : setFlagsEdge tl.level true re
      (updateLevel st key fun t => { t with orgs := newOrgs }) = some st2)
    (h2 : setFlagsEdge tl.level false le st2 = some st') : presv st' st := by
  obtain ⟨hn1, ho1⟩ := setFlagsEdge_effect _ _ _ _ _ h1
  obtain ⟨hn2, ho2⟩ := setFlagsEdge_effect _ _ _ _ _ h2
  have hor1 := setFlagsEdge_orient _ _ _ _ _ h1
  have hor2 := setFlagsEdge_orient _ _ _ _ _ h2
  have hA : ∀ m2, (getLevel st' m2).map TreeLevel.orgs =
      (getLevel (updateLevel st key fun t => { t with orgs := newOrgs }) m2).map
        TreeLevel.orgs := fun m2 => (ho2 m2).trans (ho1 m2)
  refine ⟨hn2.trans hn1, ?_, ?_, ?_⟩
  · intro m
    rw [hor2 m, hor1 m, updOrgs_presv_orient]
  · intro m tl' hg
    obtain ⟨tl1, hg1, hiff1⟩ := orgsmap_mem _ _ hA m tl' hg
    by_cases hmk : m = key
    · subst hmk
      have hst1 : getLevel (updateLevel st m fun t => { t with orgs := newOrgs }) m =
          some { tl with orgs := newOrgs } := by
        rw [getLevel_updateLevel_self, hget]
        rfl
      rw [hst1] at hg1
      have htl1 : { tl with orgs := newOrgs } = tl1 := Option.some.inj hg1
      refine ⟨tl, hget, fun x => (hiff1 x).trans ?_⟩
      rw [← htl1]
      exact hmem x
    · rw [getLevel_updateLevel_ne _ _ _ _ hmk] at hg1
      exact ⟨tl1, hg1, hiff1⟩
  · intro m
    have h3 := isSome_congr_of_map_eq _ _ _ (hA m)
    rw [h3, updOrgs_presv_isSome]

theorem pass5_branch_pres_id (st st' st2 : TState) (tlv : Int) (le re : Option Nat)
    (h1 : setFlagsEdge tlv true re st = some st2)
    (h2 : setFlagsEdge tlv false le st2 = some st') : presv st' st := by
  obtain ⟨hn1, ho1⟩ := setFlagsEdge_effect _ _ _ _ _ h1
  obtain ⟨hn2, ho2⟩ := setFlagsEdge_effect _ _ _ _ _ h2
  have hor1 := setFlagsEdge_orient _ _ _ _ _ h1
  have hor2 := setFlagsEdge_orient _ _ _ _ _ h2
  refine ⟨hn2.trans hn1, fun m => (hor2 m).trans (hor1 m), ?_, ?_⟩
  · intro m tl' hg
    exact orgsmap_mem _ _ (fun m2 => (ho2 m2).trans (ho1 m2)) m tl' hg
  · intro m
    exact isSome_congr_of_map_eq _ _ _ ((ho2 m).trans (ho1 m))

theorem pass5Level_pres (st : TState) (cfg : OrgChartConfig) (key : Int)
    (st' : TState) (h : pass5Level st cfg key = some st') : presv st' st := by
  rw [pass5Level] at h
  cases hget : getLevel st key with
  | none =>
    simp only [hget] at h
    cases h
    exact presv_refl st
  | some tl =>
    simp only [hget] at h
    by_cases hlen : (tl.orgs.filter (skipOrg st)).length = 0
    · rw [if_pos hlen] at h
      cases h
      exact presv_refl st
    · rw [if_neg hlen] at h
      by_cases hpos : tl.level > 0
      · rw [if_pos hpos] at h
        simp only [Option.bind_eq_some] at h
        obtain ⟨st2, h1, h2⟩ := h
        refine pass5_branch_pres st st' st2 key tl hget _ _ _ ?_ h1 h2
        intro x
        refine move_mem tl.orgs ((tl.orgs.filter (skipOrg st)).take 2) _ _
          ?_ ?_ ?_ ?_ x
        · intro y hy
          exact (List.mem_filter.mp (List.mem_of_mem_take hy)).1
        · intro y hyr
          exact mem_of_headq _ _ hyr
        · intro y hyl
          by_cases hl2 : ((tl.orgs.filter (skipOrg st)).take 2).length > 1
          · rw [if_pos hl2] at hyl
            rw [← Option.some.inj hyl]
            exact getElemBang_one_mem _ hl2
          · rw [if_neg hl2] at hyl
            cases hyl
        · intro y hy
          exact cover_two _ (List.length_take_le _ _) y hy
      · rw [if_neg hpos] at h
        cases hget0 : getLevel st 0 with
        | none =>
          simp only [hget0] at h
          cases h
        | some lvl0 =>
          simp only [hget0, Option.bind_eq_some] at h
          obtain ⟨st2, h1, h2⟩ := h
          exact pass5_branch_pres_id st st' st2 tl.level _ _ h1 h2

theorem pass45Step_pres (cfg : OrgChartConfig) (s : TState) (l : Int) (s' : TState)
    (h : pass45Step cfg s l = some s') : presv s' s := by
  rw [pass45Step] at h
  cases hget : getLevel s l with
  | none =>
    simp only [hget] at h
    cases h
    exact presv_refl s
  | some tl =>
    simp only [hget] at h
    have hup : getLevel (updateLevel s l fun t =>
        { t with orgs := sortByLE (origIdxLE s) tl.orgs }) l =
        some { tl with orgs := sortByLE (origIdxLE s) tl.orgs } := by
      rw [getLevel_updateLevel_self, hget]
      rfl
    simp only [hup] at h
    have hpres1 : presv (updateLevel s l fun t =>
        { t with orgs := sortByLE (origIdxLE s) tl.orgs }) s := by
      refine ⟨rfl, updOrgs_presv_orient s l _, ?_, updOrgs_presv_isSome s l _⟩
      intro m tl' hg
      by_cases hm : m = l
      · subst hm
        rw [hup] at hg
        have he : { tl with orgs := sortByLE (origIdxLE s) tl.orgs } = tl' :=
          Option.some.inj hg
        refine ⟨tl, hget, fun x => ?_⟩
        rw [← he]
        exact mem_sortByLE _ x _
      · rw [getLevel_updateLevel_ne _ _ _ _ hm] at hg
        exact ⟨tl', hg, fun x => Iff.rfl⟩
    by_cases hor : ({ tl with orgs := sortByLE (origIdxLE s) tl.orgs } :
        TreeLevel).orientation = some Orientation.horizontal
    · rw [if_pos hor] at h
      exact presv_trans _ _ _ (pass5Level_pres _ _ _ _ h) hpres1
    · rw [if_neg hor] at h
      cases h
      exact hpres1

theorem orientPass45_pres (cfg : OrgChartConfig) :
    ∀ (keys : List Int) (s st' : TState),
      keys.foldlM (pass45Step cfg) s = some st' → presv st' s := by
  intro keys
  induction keys with
  | nil =>
    intro s st' h
    rw [List.foldlM_nil] at h
    cases h
    exact presv_refl _
  | cons k ks ih =>
    intro s st' h
    rw [List.foldlM_cons] at h
    simp only [Option.bind_eq_bind, Option.bind_eq_some] at h
    obtain ⟨s1, hstep, hrest⟩ := h
    exact presv_trans _ _ _ (ih s1 st' hrest) (pass45Step_pres cfg s k s1 hstep)

theorem calcOrient_closed (st0 : TState) (cfg : OrgChartConfig) (st' : TState)
    (hwf : wfState st0 = true)
    (hrun : calculateLevelOrientations st0 cfg = some st') :
    SuccClosed st' ∧ I1c st' := by
  have hrun' : orientPass45 (pass3Move
      (pass3Collect (orientPass2 (orientPass1 st0 cfg))).1
      (pass3Collect (orientPass2 (orientPass1 st0 cfg))).2) cfg = some st' := hrun
  have hwf0 : wfAbs st0 := wfAbs_of_wfState st0 hwf
  have hknd0 := wf_keysNodup st0 hwf
  have hL1 := orientPass1_orgs st0 cfg
  have hN1 : ∀ k, (getNode (orientPass1 st0 cfg) k).map
      (fun n => (n.children, n.level)) =
      (getNode st0 k).map (fun n => (n.children, n.level)) := fun k => rfl
  have hwf1 : wfAbs (orientPass1 st0 cfg) := wfAbs_congr st0 _ hL1 hN1 hwf0
  obtain ⟨hK2, hL2, hN2, hSC2⟩ := orientPass2_spec (orientPass1 st0 cfg)
  have hwf2 : wfAbs (orientPass2 (orientPass1 st0 cfg)) :=
    wfAbs_congr _ _ hL2 hN2 hwf1
  have hknd2 : ((orientPass2 (orientPass1 st0 cfg)).levels.map Prod.fst).Nodup := by
    rw [hK2, orientPass1_keys]
    exact hknd0
  obtain ⟨P1p, P1o, PK, PI1, _, _⟩ :=
    pass3_spec (orientPass2 (orientPass1 st0 cfg)) hwf2 hSC2 hknd2
  obtain ⟨hNn, hOo, hGg, hPp⟩ := orientPass45_pres cfg
    ((pass3Move (pass3Collect (orientPass2 (orientPass1 st0 cfg))).1
      (pass3Collect (orientPass2 (orientPass1 st0 cfg))).2).levels.map Prod.fst)
    (pass3Move (pass3Collect (orientPass2 (orientPass1 st0 cfg))).1
      (pass3Collect (orientPass2 (orientPass1 st0 cfg))).2) st' hrun'
  have hGN : ∀ k, getNode st' k =
      getNode (pass3Move (pass3Collect (orientPass2 (orientPass1 st0 cfg))).1
        (pass3Collect (orientPass2 (orientPass1 st0 cfg))).2) k := fun k => by
    rw [getNode, getNode, hNn]
  constructor
  · intro l tl' hget' hvert' oid hoid n hn c hc nc hnc
    rw [hGN] at hn
    rw [hGN] at hnc
    obtain ⟨tl3, hg3, hiff⟩ := hGg l tl' hget'
    have hvert3 : tl3.orientation = some Orientation.vertical := by
      have hoo := hOo l
      rw [hget', hg3] at hoo
      have h2 : tl'.orientation = tl3.orientation := Option.some.inj hoo
      rw [← h2]
      exact hvert'
    have hoid3 : oid ∈ tl3.orgs := (hiff oid).mp hoid
    have hK := PK l tl3 hg3 hvert3 oid hoid3 n hn c hc nc hnc
    intro tm' hgtm'
    have horient : (getLevel st' nc.level).map (fun e => e.orientation) =
        (getLevel (orientPass2 (orientPass1 st0 cfg)) nc.level).map
          (fun e => e.orientation) := (hOo nc.level).trans (P1o nc.level)
    rw [hgtm'] at horient
    cases hx : getLevel (orientPass2 (orientPass1 st0 cfg)) nc.level with
    | none => rw [hx] at horient; cases horient
    | some tm2 =>
      rw [hx] at horient
      have hv2 := hK tm2 hx
      have h2 : tm'.orientation = tm2.orientation := Option.some.inj horient
      rw [h2]
      exact hv2
  · intro k n hkn
    rw [hGN] at hkn
    rcases PI1 k n hkn with ⟨tl3, hg3, hk3⟩ | ⟨frm, dst, hmem, hl⟩
    · have hsome : (getLevel st' n.level).isSome = true := by
        rw [hPp n.level, hg3]
        rfl
      obtain ⟨tl', hget'⟩ := Option.isSome_iff_exists.mp hsome
      obtain ⟨tl3', hg3', hiff⟩ := hGg n.level tl' hget'
      have he : tl3' = tl3 := by
        rw [hg3] at hg3'
        exact (Option.some.inj hg3').symm
      exact ⟨tl', hget', (hiff k).mpr (he ▸ hk3)⟩
    · cases hmem

/-- **C3.**  After `calculateLevelOrientations` completes (on a well-formed
level map), for every level `L` whose orientation is vertical, every level
`M` that is the resolved level of any descendant (reachable by following
parent→child edges) of any node listed in `L` is also vertical; no
horizontal level appears as a descendant level of a vertical level. -/
theorem claim_C3 (st0 : TState) (cfg : OrgChartConfig) (st' : TState)
    (hwf : wfState st0 = true)
    (hrun : calculateLevelOrientations st0 cfg = some st') :
    ∀ L tlL, getLevel st' L = some tlL →
      tlL.orientation = some Orientation.vertical →
      ∀ a ∈ tlL.orgs, ∀ d, Relation.TransGen (childRel st') a d →
        ∀ nd, getNode st' d = some nd →
          ∀ tM, getLevel st' nd.level = some tM →
            tM.orientation = some Orientation.vertical := by
  obtain ⟨hSC, hI1⟩ := calcOrient_closed st0 cfg st' hwf hrun
  intro L tlL hgetL hvertL a ha d htg
  induction htg with
  | single hstep =>
    intro nd hnd tM hgtM
    obtain ⟨na, hna, hchild⟩ := hstep
    exact hSC L tlL hgetL hvertL a ha na hna _ hchild nd hnd tM hgtM
  | tail htg2 hstep ih =>
    intro nd hnd tM hgtM
    obtain ⟨nb, hnb, hchild⟩ := hstep
    obtain ⟨tlb, hgb, hbin⟩ := hI1 _ nb hnb
    have hvb : tlb.orientation = some Orientation.vertical := ih nb hnb tlb hgb
    exact hSC nb.level tlb hgb hvb _ hbin nb hnb _ hchild nd hnd tM hgtM

/-- Witness for C3: on the three-level chain `stC3` with `minColWidth = 0`
every level comes out vertical, and the instance of the claim at the
vertical level 1 and the grandchild 3 yields the verticality of level 2. -/
theorem claim_C3_witness :
    wfState stC3 = true ∧
    ({ level := 2, orgs := [3], orientation := some Orientation.vertical} :
      TreeLevel).orientation = some Orientation.vertical := by
  refine ⟨by decide, ?_⟩
  exact claim_C3 stC3 cfgC3 ((calculateLevelOrientations stC3 cfgC3).getD stC3)
    (by decide) (by decide) 1
    { level := 1, orgs := [2], orientation := some Orientation.vertical }
    (by decide) (by decide) 2 (by decide) 3
    (Relation.TransGen.single ⟨mkCOrg 2 (some 1) 1 0 [3], by decide, by decide⟩)
    (mkCOrg 3 (some 2) 2 0 []) (by decide)
    { level := 2, orgs := [3], orientation := some Orientation.vertical }
    (by decide)

end OrgChart
